import Mathlib

/-!
# Seastar core: streams, cross-shard submission, timers

A shallow embedding of parts of `core/reactor.hh`.

Conventions of the embedding:
* a `temporary_buffer<char>` is the list of its bytes, its length being the buffer's size;
* a future that an I/O object returns is taken at the moment it resolves, so a chain
  `a().then(b)` is the state change of `a` followed by the state change of `b`;
* a data sink is the log of the buffers handed to `put`, a data source is the list of the
  chunks `get` will still return.
-/

namespace Seastar

/-! ## Buffers, sinks and sources -/

/-- Bytes held by a `temporary_buffer<char>`; the length of the list is `size()`. -/
abbrev temporary_buffer := List Nat

/-- Constructor `temporary_buffer(size)`: a fresh buffer of `size` bytes (zero filled here). -/
def temporary_buffer.alloc (size : Nat) : temporary_buffer := List.replicate size 0

/-- The call `std::copy(src, src + src.size, dst + off)`: the bytes of `src` overwrite `dst`
from offset `off` on. -/
def std_copy (src : List Nat) (dst : temporary_buffer) (off : Nat) : temporary_buffer :=
  dst.take off ++ src ++ dst.drop (off + src.length)

/-- Method `temporary_buffer::trim(pos)`: keep the first `pos` bytes. -/
def temporary_buffer.trim (b : temporary_buffer) (pos : Nat) : temporary_buffer := b.take pos

/-- Method `temporary_buffer::trim_front(pos)`: drop the first `pos` bytes. -/
def temporary_buffer.trim_front (b : temporary_buffer) (pos : Nat) : temporary_buffer := b.drop pos

/-- Method `temporary_buffer::share(pos, len)`: the `len` bytes from `pos` on. -/
def temporary_buffer.share (b : temporary_buffer) (pos len : Nat) : temporary_buffer :=
  (b.drop pos).take len

/-- A `data_sink`: the buffers handed to `put`, oldest first, and whether `close` was called. -/
structure data_sink where
  puts : List temporary_buffer
  closed : Bool
deriving DecidableEq, Repr

/-- Method `data_sink::put(temporary_buffer<char>)`. -/
def data_sink.put (fd : data_sink) (data : temporary_buffer) : data_sink :=
  { fd with puts := fd.puts ++ [data] }

/-- Method `data_sink::close()`. -/
def data_sink.close (fd : data_sink) : data_sink :=
  { fd with closed := true }

/-- All bytes the sink has received, in order. -/
def data_sink.bytes (fd : data_sink) : List Nat := fd.puts.flatten

/-! ## output_stream -/

/-- Class `output_stream<char>`. -/
structure output_stream where
  _fd : data_sink
  _buf : temporary_buffer
  _size : Nat
  _begin : Nat
  _end : Nat
deriving DecidableEq, Repr

/-- Constructor `output_stream(data_sink fd, size_t size)`. -/
def output_stream.mk_stream (fd : data_sink) (size : Nat) : output_stream :=
  { _fd := fd, _buf := temporary_buffer.alloc size, _size := size, _begin := 0, _end := 0 }

/-- Method `output_stream::flush()`. -/
def output_stream.flush (s : output_stream) : output_stream :=
  if s._end = 0 then s
  else
    let trimmed := s._buf.trim s._end
    let next := temporary_buffer.alloc s._size
    { s with _buf := next, _end := 0, _fd := s._fd.put trimmed }

/-- Method `output_stream::write(const char_type* buf, size_t n)`, the `n` bytes at `buf`
being the list `buf`. -/
def output_stream.write (s : output_stream) (buf : List Nat) : output_stream :=
  let n := buf.length
  let bulk_threshold := if s._end ≠ 0 then 2 * s._size - s._end else s._size
  if n ≥ bulk_threshold then
    if s._end ≠ 0 then
      let now := s._size - s._end
      let s1 := { s with _buf := std_copy (buf.take now) s._buf s._end }
      let tmp := std_copy (buf.drop now) (temporary_buffer.alloc (n - now)) 0
      let s2 := s1.flush
      { s2 with _fd := s2._fd.put tmp }
    else
      let tmp := std_copy buf (temporary_buffer.alloc n) 0
      { s with _fd := s._fd.put tmp }
  else
    let now := min n (s._size - s._end)
    let s1 := { s with _buf := std_copy (buf.take now) s._buf s._end, _end := s._end + now }
    if now = n then s1
    else
      let next := std_copy (buf.drop now) (temporary_buffer.alloc s._size) 0
      { s1 with _end := n - now, _buf := next, _fd := s1._fd.put s1._buf }

/-- Method `output_stream::close()`. -/
def output_stream.close (s : output_stream) : output_stream :=
  { s with _fd := s._fd.close }

/-- A sequence of `write` calls, in order. -/
def output_stream.writes (s : output_stream) : List (List Nat) → output_stream
  | [] => s
  | b :: bs => (s.write b).writes bs

/-! ## input_stream -/

/-- A `data_source`: the chunks `get` will still return, oldest first. Once they are used up
`get` returns an empty buffer, which the streams read as end of file. -/
structure data_source where
  chunks : List temporary_buffer
deriving DecidableEq, Repr

/-- Method `data_source::get()`: the next chunk and the source after it. -/
def data_source.get (fd : data_source) : temporary_buffer × data_source :=
  match fd.chunks with
  | [] => ([], fd)
  | c :: cs => (c, { chunks := cs })

/-- Class `input_stream<char>`. -/
structure input_stream where
  _fd : data_source
  _buf : temporary_buffer
  _eof : Bool
deriving DecidableEq, Repr

/-- Constructor `input_stream(data_source fd)`. -/
def input_stream.mk_stream (fd : data_source) : input_stream :=
  { _fd := fd, _buf := temporary_buffer.alloc 0, _eof := false }

/-- Body of `input_stream::read_exactly_part(n, out, completed)`, by recursion on the chunks
the source still holds: the arguments are the stream's `_eof`, the source's chunks and the
stream's `_buf`. Returns the buffer the future resolves with and the stream afterwards. -/
def read_exactly_part_loop (n : Nat) (eof : Bool) :
    List temporary_buffer → temporary_buffer → temporary_buffer → Nat →
      temporary_buffer × input_stream
  | chunks, _buf, out, completed =>
    let now := min (n - completed) _buf.length
    let out1 := if _buf.length ≠ 0 then std_copy (_buf.take now) out completed else out
    let buf1 := if _buf.length ≠ 0 then _buf.trim_front now else _buf
    let completed1 := if _buf.length ≠ 0 then completed + now else completed
    if completed1 = n then
      (out1, { _fd := { chunks := chunks }, _buf := buf1, _eof := eof })
    else
      match chunks with
      | [] => ([], { _fd := { chunks := [] }, _buf := buf1, _eof := eof })
      | buf :: rest =>
        if buf.length = 0 then
          (buf, { _fd := { chunks := rest }, _buf := buf1, _eof := eof })
        else
          read_exactly_part_loop n eof rest buf out1 completed1

/-- Method `input_stream::read_exactly_part(n, out, completed)`. -/
def input_stream.read_exactly_part (s : input_stream) (n : Nat) (out : temporary_buffer)
    (completed : Nat) : temporary_buffer × input_stream :=
  read_exactly_part_loop n s._eof s._fd.chunks s._buf out completed

/-- Body of `input_stream::read_exactly(n)`, by recursion on the chunks the source still
holds. -/
def read_exactly_loop (n : Nat) (eof : Bool) :
    List temporary_buffer → temporary_buffer → temporary_buffer × input_stream
  | chunks, _buf =>
    if _buf.length = n then
      (_buf, { _fd := { chunks := chunks }, _buf := [], _eof := eof })
    else if _buf.length > n then
      let front := _buf.share 0 n
      (front, { _fd := { chunks := chunks }, _buf := _buf.trim_front n, _eof := eof })
    else if _buf.length = 0 then
      match chunks with
      | [] => ([], { _fd := { chunks := [] }, _buf := _buf, _eof := eof })
      | buf :: rest =>
        if buf.length = 0 then
          (buf, { _fd := { chunks := rest }, _buf := _buf, _eof := eof })
        else
          read_exactly_loop n eof rest buf
    else
      let b := temporary_buffer.alloc n
      read_exactly_part_loop n eof chunks _buf b 0

/-- Method `input_stream::read_exactly(n)`: the buffer the future resolves with and the
stream afterwards. -/
def input_stream.read_exactly (s : input_stream) (n : Nat) : temporary_buffer × input_stream :=
  read_exactly_loop n s._eof s._fd.chunks s._buf

/-- The bytes a source still delivers: its chunks up to the first empty one, which the
streams read as end of file. -/
def data_source.data : List temporary_buffer → List Nat
  | [] => []
  | c :: cs => if c.length = 0 then [] else c ++ data_source.data cs

/-- The data a stream still holds: the look-ahead buffer followed by the non-empty chunks the
source returns before end of file. -/
def input_stream.remaining (s : input_stream) : List Nat :=
  s._buf ++ data_source.data s._fd.chunks

/-! ## Futures and cross-shard submission -/

/-- State of a `future<T>` (and of the `promise<T>` behind it): not resolved yet, resolved
with a value, or failed with an exception. -/
inductive future (E V : Type) where
  | pending : future E V
  | value (v : V) : future E V
  | exception (e : E) : future E V
deriving DecidableEq, Repr

/-- The call `make_ready_future<T>(v)`. -/
def make_ready_future {E V : Type} (v : V) : future E V := future.value v

/-- Modelled from the spec: `promise::set_value` of `future.hh`, which is not part of the
sources at hand. The spec has a promise resolved exactly once and a second resolve abort the
process (`none`). -/
def future.set_value {E V : Type} (p : future E V) (v : V) : Option (future E V) :=
  match p with
  | future.pending => some (future.value v)
  | _ => none

/-- Modelled from the spec: `promise::set_exception` of `future.hh`, which is not part of the
sources at hand; a second resolve aborts the process (`none`). -/
def future.set_exception {E V : Type} (p : future E V) (e : E) : Option (future E V) :=
  match p with
  | future.pending => some (future.exception e)
  | _ => none

/-- A C++ function object called on a shard whose state is `σ`: it returns a value or throws,
and leaves the shard in a new state. -/
abbrev Func (σ E R : Type) := σ → Except E R × σ

/-- Class `smp_message_queue`, for one ordered pair of shards (source S, destination D), with
work items of type `W`. `_pending` and `_completed` are the two rings and `_pending_fifo` the
items submitted that have not entered the request ring yet, oldest item first;
`_current_queue_length` counts the items that hold a slot of the queue. `processing` is not
a member of the class: it lists the items D has taken whose `process()` future has not
resolved yet. -/
structure smp_message_queue (W : Type) where
  _pending : List W
  _completed : List W
  _current_queue_length : Nat
  _pending_fifo : List W
  processing : List W
deriving DecidableEq, Repr

/-- The constant `smp_message_queue::queue_length`. -/
def smp_message_queue.queue_length : Nat := 128

/-- Constructor `smp_message_queue()`: empty rings, no slot taken. -/
def smp_message_queue.empty (W : Type) : smp_message_queue W :=
  { _pending := [], _completed := [], _current_queue_length := 0, _pending_fifo := [],
    processing := [] }

/-- Modelled from the spec: `smp_message_queue::move_pending` is declared in reactor.hh and
defined in `reactor.cc`, which is not part of the sources at hand. The spec has a submitter
wait for one of the 128 permits and never fail: as many of the waiting items as there are
free slots enter the request ring, oldest first, and the others keep waiting. -/
def smp_message_queue.move_pending {W : Type} (q : smp_message_queue W) :
    smp_message_queue W :=
  let queue_room := smp_message_queue.queue_length - q._current_queue_length
  let nr := min queue_room q._pending_fifo.length
  { q with _pending := q._pending ++ q._pending_fifo.take nr,
           _pending_fifo := q._pending_fifo.drop nr,
           _current_queue_length := q._current_queue_length + nr }

/-- Modelled from the spec: `smp_message_queue::submit_item` of `reactor.cc`, which is not
part of the sources at hand. The item joins the waiting items and enters the request ring as
soon as a slot is free. -/
def smp_message_queue.submit_item {W : Type} (q : smp_message_queue W) (wi : W) :
    smp_message_queue W :=
  { q with _pending_fifo := q._pending_fifo ++ [wi] }.move_pending

/-- Modelled from the spec: `smp_message_queue::process_incoming` of `reactor.cc`, which is
not part of the sources at hand. The destination drains `pending` and calls `process()` on
each item, in ring order. -/
def smp_message_queue.process_incoming {W : Type} (q : smp_message_queue W) :
    smp_message_queue W :=
  { q with _pending := [], processing := q.processing ++ q._pending }

/-- Modelled from the spec: the continuation of `process()` (`respond` of `reactor.cc`, not
part of the sources at hand). When the `process()` future of the `i`-th item in processing
resolves, the item is pushed into `completed`. -/
def smp_message_queue.respond {W : Type} (q : smp_message_queue W) (i : Nat) :
    smp_message_queue W :=
  match q.processing[i]? with
  | none => q
  | some wi =>
    { q with processing := q.processing.eraseIdx i, _completed := q._completed ++ [wi] }

/-- The `process()` futures of all items in processing resolve, oldest item first. -/
def smp_message_queue.respond_all {W : Type} (q : smp_message_queue W) :
    smp_message_queue W :=
  q.processing.foldl (fun q1 _ => q1.respond 0) q

/-- Modelled from the spec: `smp_message_queue::process_completions` of `reactor.cc`, which is
not part of the sources at hand. The source drains `completed`, calls `complete()` on each
item in ring order and gives back one slot for each; waiting items then take the free
slots. -/
def smp_message_queue.process_completions {W : Type} (q : smp_message_queue W) :
    smp_message_queue W :=
  { q with _completed := [],
           _current_queue_length := q._current_queue_length - q._completed.length }.move_pending

/-- One event on a queue: a submit on S, a poll on D, the `process()` future of the `i`-th
item in processing resolving on D, a poll on S. -/
inductive queue_event (W : Type) where
  | submit (wi : W) : queue_event W
  | incoming : queue_event W
  | resolve (i : Nat) : queue_event W
  | completions : queue_event W
deriving DecidableEq, Repr

/-- Effect of one event on the queue. -/
def smp_message_queue.step {W : Type} (q : smp_message_queue W) :
    queue_event W → smp_message_queue W
  | queue_event.submit wi => q.submit_item wi
  | queue_event.incoming => q.process_incoming
  | queue_event.resolve i => q.respond i
  | queue_event.completions => q.process_completions

/-- Effect of a sequence of events, oldest first. -/
def smp_message_queue.run {W : Type} (q : smp_message_queue W) :
    List (queue_event W) → smp_message_queue W
  | [] => q
  | ev :: evs => (q.step ev).run evs

/-- The slots taken are those of the items in the two rings and in processing, and there
are at most `queue_length` of them. -/
def smp_message_queue.consistent {W : Type} (q : smp_message_queue W) : Prop :=
  q._current_queue_length = q._pending.length + q.processing.length + q._completed.length
    ∧ q._current_queue_length ≤ smp_message_queue.queue_length

instance {W : Type} (q : smp_message_queue W) : Decidable q.consistent := by
  unfold smp_message_queue.consistent
  infer_instance

/-- Method `smp_message_queue::submit(func)`: the work item is the function, the future
handed back is the one of the item's promise, still pending. -/
def smp_message_queue.submit {σ E V : Type} (q : smp_message_queue (Func σ E (future E V)))
    (func : Func σ E (future E V)) : future E V × smp_message_queue (Func σ E (future E V)) :=
  let wi := func
  let fut : future E V := future.pending
  (fut, q.submit_item wi)

/-- Class `smp` together with the calling shard's `engine`: the shard's id, the state a
function run on this shard acts on, and the queue matrix `_qs[dst][src]`. -/
structure smp (σ E V : Type) where
  cpu_id : Nat
  engine : σ
  _qs : Nat → Nat → smp_message_queue (Func σ E (future E V))

/-- Method `smp::submit_to(t, func)` for a function that returns a future. The result is what
the call returns, or the exception it lets through. -/
def smp.submit_to {σ E V : Type} (s : smp σ E V) (t : Nat) (func : Func σ E (future E V)) :
    Except E (future E V) × smp σ E V :=
  if t = s.cpu_id then
    let r := func s.engine
    (r.1, { s with engine := r.2 })
  else
    let r := (s._qs t s.cpu_id).submit func
    (Except.ok r.1,
      { s with _qs := Function.update s._qs t (Function.update (s._qs t) s.cpu_id r.2) })

/-- Method `smp::submit_to(t, func)` for a function that returns a value other than a
future. -/
def smp.submit_to_value {σ E V : Type} (s : smp σ E V) (t : Nat) (func : Func σ E V) :
    Except E (future E V) × smp σ E V :=
  s.submit_to t (fun st =>
    match func st with
    | (Except.ok v, st1) => (Except.ok (make_ready_future v), st1)
    | (Except.error e, st1) => (Except.error e, st1))

/-- Method `smp::submit_to(t, func)` for a function that returns `void`. -/
def smp.submit_to_void {σ E : Type} (s : smp σ E Unit) (t : Nat) (func : Func σ E Unit) :
    Except E (future E Unit) × smp σ E Unit :=
  s.submit_to t (fun st =>
    match func st with
    | (Except.ok _, st1) => (Except.ok (make_ready_future ()), st1)
    | (Except.error e, st1) => (Except.error e, st1))

/-- Struct `smp_message_queue::async_work_item`. `_func` is what calling the shipped function
gives: an exception thrown at once, or a future in the state it ends in. `_ex` is the
`std::exception_ptr`, null (`none`) until an exception is stored. -/
structure async_work_item (E V : Type) where
  _func : Unit → Except E (future E V)
  _result : Option V
  _ex : Option E
  _promise : future (Option E) V

/-- Constructor `async_work_item(q, func)`. -/
def async_work_item.mk_item {E V : Type} (func : Unit → Except E (future E V)) :
    async_work_item E V :=
  { _func := func, _result := none, _ex := none, _promise := future.pending }

/-- Method `async_work_item::process()`: the item afterwards and the `future<>` returned. -/
def async_work_item.process {E V : Type} (wi : async_work_item E V) :
    async_work_item E V × future E Unit :=
  match wi._func () with
  | Except.ok fut =>
    match fut with
    | future.pending => (wi, future.pending)
    | future.value v => ({ wi with _result := some v }, future.value ())
    | future.exception e => ({ wi with _ex := some e }, future.value ())
  | Except.error e => ({ wi with _ex := some e }, make_ready_future ())

/-- Method `async_work_item::complete()`; `none` when the promise aborts. -/
def async_work_item.complete {E V : Type} (wi : async_work_item E V) :
    Option (async_work_item E V) :=
  match wi._result with
  | some v => (wi._promise.set_value v).map (fun p => { wi with _promise := p })
  | none => (wi._promise.set_exception wi._ex).map (fun p => { wi with _promise := p })

/-- Method `async_work_item::get_future()`: the state of the caller's future. -/
def async_work_item.get_future {E V : Type} (wi : async_work_item E V) : future (Option E) V :=
  wi._promise

/-! ## Timers -/

/-- Class `timer`; time points and durations are natural numbers. -/
structure timer where
  _expiry : Nat
  _period : Option Nat
  _armed : Bool
  _queued : Bool
  _expired : Bool
deriving DecidableEq, Repr

/-- A timer as constructed: not armed, not queued, not expired. -/
def timer.fresh : timer :=
  { _expiry := 0, _period := none, _armed := false, _queued := false, _expired := false }

/-- The part of class `reactor` the timers use: the timer objects by address, and the timer
set `_timers`, the addresses of the timers in it ordered by expiry. -/
structure reactor where
  timer_at : Nat → timer
  _timers : List Nat

/-- Modelled from the spec: `timer_set::insert` of `timer-set.hh`, which is not part of the
sources at hand. The set is ordered by expiry and keeps insertion order among ties. -/
def timer_set_insert (expiry : Nat → Nat) (t : Nat) : List Nat → List Nat
  | [] => [t]
  | x :: xs => if expiry x ≤ expiry t then x :: timer_set_insert expiry t xs else t :: x :: xs

/-- Modelled from the spec: `timer_set::remove` of `timer-set.hh`, which is not part of the
sources at hand. It takes the timer out of the set. -/
def timer_set_remove (t : Nat) (set : List Nat) : List Nat := set.erase t

/-- Modelled from the spec: `reactor::add_timer` of `reactor.cc`, which is not part of the
sources at hand: the timer is inserted into the timer set. -/
def reactor.add_timer (r : reactor) (tmr : Nat) : reactor :=
  { r with _timers := timer_set_insert (fun x => (r.timer_at x)._expiry) tmr r._timers }

/-- Modelled from the spec: `reactor::del_timer` of `reactor.cc`, which is not part of the
sources at hand: the timer is removed from the timer set. -/
def reactor.del_timer (r : reactor) (tmr : Nat) : reactor :=
  { r with _timers := timer_set_remove tmr r._timers }

/-- Store a changed timer object at its address. -/
def reactor.set_timer (r : reactor) (t : Nat) (tm : timer) : reactor :=
  { r with timer_at := Function.update r.timer_at t tm }

/-- Method `timer::armed()` of the timer at address `t`. -/
def timer.armed (r : reactor) (t : Nat) : Bool := (r.timer_at t)._armed

/-- Method `timer::arm(until, period)` of the timer at address `t`; `none` when the assertion
`!_armed` fails. -/
def timer.arm (r : reactor) (t : Nat) (until_ : Nat) (period : Option Nat) : Option reactor :=
  if (r.timer_at t)._armed then none
  else
    let r1 := r.set_timer t
      { r.timer_at t with _period := period, _armed := true, _expired := false, _expiry := until_ }
    let r2 := r1.add_timer t
    some (r2.set_timer t { r2.timer_at t with _queued := true })

/-- Method `timer::cancel()` of the timer at address `t`: the value returned and the reactor
afterwards. -/
def timer.cancel (r : reactor) (t : Nat) : Bool × reactor :=
  if !(r.timer_at t)._armed then (false, r)
  else
    let r1 := r.set_timer t { r.timer_at t with _armed := false }
    if (r1.timer_at t)._queued then
      let r2 := r1.del_timer t
      (true, r2.set_timer t { r2.timer_at t with _queued := false })
    else (true, r1)

/-- Method `timer::rearm(until, period)` of the timer at address `t`. -/
def timer.rearm (r : reactor) (t : Nat) (until_ : Nat) (period : Option Nat) : Option reactor :=
  let r1 := if (r.timer_at t)._armed then (timer.cancel r t).2 else r
  timer.arm r1 t until_ period

/-- A reactor in which no timer has been armed yet. -/
def reactor.init : reactor := { timer_at := fun _ => timer.fresh, _timers := [] }

/-- One call on the timer at address `t`. -/
inductive timer_call where
  | arm (t : Nat) (until_ : Nat) (period : Option Nat) : timer_call
  | rearm (t : Nat) (until_ : Nat) (period : Option Nat) : timer_call
  | cancel (t : Nat) : timer_call
deriving DecidableEq, Repr

/-- Effect of one call; `none` when the call aborts. -/
def timer_call.apply (r : reactor) : timer_call → Option reactor
  | timer_call.arm t until_ period => timer.arm r t until_ period
  | timer_call.rearm t until_ period => timer.rearm r t until_ period
  | timer_call.cancel t => some (timer.cancel r t).2

/-- Effect of a sequence of calls, oldest first; `none` as soon as one aborts. -/
def timer_call.run (r : reactor) : List timer_call → Option reactor
  | [] => some r
  | c :: cs =>
    match c.apply r with
    | none => none
    | some r1 => timer_call.run r1 cs

/-- The timer at address `t` agrees with the timer set: it is in the set at most once, and
only when it is armed and queued. -/
def timer.consistent (r : reactor) (t : Nat) : Prop :=
  r._timers.count t ≤ 1 ∧ (t ∈ r._timers → (r.timer_at t)._armed = true ∧ (r.timer_at t)._queued = true)

/-- Every timer is in the timer set at most once, is in it exactly when its `_queued` flag
is set, and has `_queued` set exactly when it is armed. -/
def reactor.timers_inv (r : reactor) : Prop :=
  ∀ t : Nat, r._timers.count t ≤ 1
    ∧ (t ∈ r._timers ↔ (r.timer_at t)._queued = true)
    ∧ ((r.timer_at t)._queued = true ↔ timer.armed r t = true)

/-! ## Exit hooks -/

/-- Modelled from the spec: a `future<>` made from a promise by calls of `future::then`
(`future.hh`, which is not part of the sources at hand). The spec has `then(f)` on a pending
future store `f` as its continuation and return a new future, which resolves when the future
that `f` returns has resolved. -/
inductive chained_future (H : Type) where
  | of_promise : chained_future H
  | then_ (fut : chained_future H) (func : H) : chained_future H
deriving DecidableEq, Repr

/-- A hook is started, or the future it returned has resolved. -/
inductive hook_event (H : Type) where
  | started (h : H) : hook_event H
  | resolved (h : H) : hook_event H
deriving DecidableEq, Repr

/-- Modelled from the spec: what runs once the promise behind a chain of `then` calls is
resolved. The continuation of a future fires when that future has resolved, so the
continuations of `fut` come first, then `func` is started and the future it returns
resolves. -/
def chained_future.fire {H : Type} : chained_future H → List (hook_event H)
  | chained_future.of_promise => []
  | chained_future.then_ fut func =>
    fut.fire ++ [hook_event.started func, hook_event.resolved func]

/-- The part of class `reactor` that `at_exit` uses: the future `_exit_future`. -/
structure reactor_exit (H : Type) where
  _exit_future : chained_future H
deriving DecidableEq, Repr

/-- Modelled from the spec: the reactor as constructed (`reactor.cc`, which is not part of the
sources at hand): `_exit_future` is the future of `_exit_promise`. -/
def reactor_exit.init (H : Type) : reactor_exit H :=
  { _exit_future := chained_future.of_promise }

/-- Method `reactor::at_exit(func)`. -/
def reactor_exit.at_exit {H : Type} (r : reactor_exit H) (func : H) : reactor_exit H :=
  { r with _exit_future := r._exit_future.then_ func }

/-- A sequence of `at_exit` calls, oldest first. -/
def reactor_exit.at_exit_all {H : Type} (r : reactor_exit H) : List H → reactor_exit H
  | [] => r
  | h :: hs => (r.at_exit h).at_exit_all hs

/-- Modelled from the spec: `reactor::run_exit_tasks` (`reactor.cc`, which is not part of the
sources at hand): the exit promise is resolved and the hooks chained on it run. -/
def reactor_exit.run_exit_tasks {H : Type} (r : reactor_exit H) : List (hook_event H) :=
  r._exit_future.fire

/-! ## foreign_ptr -/

/-- All shards of the system: the state of each shard, and the queue matrix `_qs[dst][src]`
they share. -/
structure smp_system (σ E V : Type) where
  shard : Nat → σ
  _qs : Nat → Nat → smp_message_queue (Func σ E (future E V))

/-- The system as the code running on shard `c` sees it. -/
def smp_system.on_shard {σ E V : Type} (sys : smp_system σ E V) (c : Nat) : smp σ E V :=
  { cpu_id := c, engine := sys.shard c, _qs := sys._qs }

/-- The system after code running on one shard has left that shard and the queues in the
state `s`. -/
def smp_system.store {σ E V : Type} (sys : smp_system σ E V) (s : smp σ E V) :
    smp_system σ E V :=
  { shard := Function.update sys.shard s.cpu_id s.engine, _qs := s._qs }

/-- Modelled from the spec: shard `dst` polls the queue coming from shard `src`
(`process_incoming` of `reactor.cc`, which is not part of the sources at hand): it drains the
request ring and runs each item on its own state, in ring order. -/
def smp_system.poll {σ E V : Type} (sys : smp_system σ E V) (dst src : Nat) :
    smp_system σ E V :=
  { shard := Function.update sys.shard dst
      ((sys._qs dst src)._pending.foldl (fun st func => (func st).2) (sys.shard dst)),
    _qs := Function.update sys._qs dst
      (Function.update (sys._qs dst) src (sys._qs dst src).process_incoming) }

/-- One turn of the queue from `src` to `dst` on a shard state and the queue: `dst` polls
the queue and runs the items of the request ring on its state, their `process()` futures
resolve, and `src` polls the queue for the completions. -/
def queue_round {σ E V : Type} (st : σ) (q : smp_message_queue (Func σ E (future E V))) :
    σ × smp_message_queue (Func σ E (future E V)) :=
  (q._pending.foldl (fun st1 func => (func st1).2) st,
    q.process_incoming.respond_all.process_completions)

/-- The turns of `queue_round`, `k` times. -/
def queue_rounds {σ E V : Type} :
    Nat → σ → smp_message_queue (Func σ E (future E V)) →
      σ × smp_message_queue (Func σ E (future E V))
  | 0, st, q => (st, q)
  | k + 1, st, q => queue_rounds k (queue_round st q).1 (queue_round st q).2

/-- The futures of all items shard `dst` has taken from shard `src` resolve. -/
def smp_system.respond_all {σ E V : Type} (sys : smp_system σ E V) (dst src : Nat) :
    smp_system σ E V :=
  { shard := sys.shard,
    _qs := Function.update sys._qs dst
      (Function.update (sys._qs dst) src (sys._qs dst src).respond_all) }

/-- Shard `src` polls the queue towards shard `dst` for completions. -/
def smp_system.complete {σ E V : Type} (sys : smp_system σ E V) (dst src : Nat) :
    smp_system σ E V :=
  { shard := sys.shard,
    _qs := Function.update sys._qs dst
      (Function.update (sys._qs dst) src (sys._qs dst src).process_completions) }

/-- One turn of the queue from `src` to `dst` in the system: the poll on `dst`, the
resolution of the items taken, the poll on `src`. -/
def smp_system.round {σ E V : Type} (sys : smp_system σ E V) (dst src : Nat) :
    smp_system σ E V :=
  ((sys.poll dst src).respond_all dst src).complete dst src

/-- The turns of `round`, `k` times. -/
def smp_system.rounds {σ E V : Type} (sys : smp_system σ E V) (dst src : Nat) :
    Nat → smp_system σ E V
  | 0 => sys
  | k + 1 => (sys.round dst src).rounds dst src k

/-- Class `foreign_ptr<PtrType>`; `_value` is `none` for a null pointer. -/
structure foreign_ptr (P : Type) where
  _value : Option P
  _cpu : Nat
deriving DecidableEq, Repr

/-- Constructor `foreign_ptr(PtrType value)` run on shard `cpu_id`. -/
def foreign_ptr.wrap {P : Type} (cpu_id : Nat) (value : P) : foreign_ptr P :=
  { _value := some value, _cpu := cpu_id }

/-- Method `foreign_ptr::on_origin()` called on shard `cpu_id`. -/
def foreign_ptr.on_origin {P : Type} (fp : foreign_ptr P) (cpu_id : Nat) : Bool :=
  cpu_id == fp._cpu

/-- Move constructor `foreign_ptr(foreign_ptr&& other)`: the new object, and `other` as the
move leaves it (its pointer moved out). -/
def foreign_ptr.move {P : Type} (other : foreign_ptr P) : foreign_ptr P × foreign_ptr P :=
  ({ _value := other._value, _cpu := other._cpu }, { _value := none, _cpu := other._cpu })

/-- The function the destructor submits, `[v = std::move(_value)] { auto local(std::move(v)); }`:
the pointer `v` is released on the shard the function runs on. A shard's state is the list
of the pointers released on it. -/
def foreign_ptr.release_task {P E : Type} (v : P) : Func (List P) E Unit :=
  fun released => (Except.ok (), released ++ [v])

/-- Destructor `~foreign_ptr()` run on the shard of `s`, followed by the destructor of the
member `_value`, which releases a pointer that was not moved out on the shard it runs
on. -/
def foreign_ptr.destroy {P E : Type} (fp : foreign_ptr P) (s : smp (List P) E Unit) :
    smp (List P) E Unit :=
  match fp._value with
  | none => s
  | some v =>
    if !fp.on_origin s.cpu_id then
      (s.submit_to_void fp._cpu (foreign_ptr.release_task v)).2
    else
      { s with engine := s.engine ++ [v] }

/-- The system after the destructor of `fp` has run on shard `cpu_id`. -/
def smp_system.destroy_foreign_ptr {P E : Type} (sys : smp_system (List P) E Unit)
    (fp : foreign_ptr P) (cpu_id : Nat) : smp_system (List P) E Unit :=
  sys.store (fp.destroy (sys.on_shard cpu_id))

/-! ## distributed -/

/-- A `Service*` that is not null: the object it points to, and the shard on which
`new Service(...)` ran, which owns the object. -/
structure service_ptr (T : Type) where
  owner : Nat
  obj : T
deriving DecidableEq, Repr

/-- What a task did, on which shard, to which entry of `_instances`. -/
inductive service_event where
  | constructed (shard entry : Nat) : service_event
  | invoked (shard entry : Nat) : service_event
  | mapped (shard entry : Nat) : service_event
  | stopped (shard entry : Nat) : service_event
  | deleted (shard entry : Nat) : service_event
deriving DecidableEq, Repr

/-- Class `distributed<Service>`: the vector `_instances` (`none` is a null pointer), and the
history of what the tasks submitted by its methods did. -/
structure distributed (T : Type) where
  _instances : List (Option (service_ptr T))
  events : List service_event
deriving DecidableEq, Repr

/-- Constructor `distributed()`. -/
def distributed.empty (T : Type) : distributed T := { _instances := [], events := [] }

/-- The call `std::vector::resize(n)` on a vector of pointers: cut to `n` elements, or filled
up with null pointers. -/
def vector_resize {α : Type} (v : List (Option α)) (n : Nat) : List (Option α) :=
  v.take n ++ List.replicate (n - v.length) none

/-- Width of `unsigned`: the shard counter `c` of the methods of `distributed` and
`smp::count` are below this. -/
def unsigned_max : Nat := 2 ^ 32

/-- The call `smp::submit_to(t, func)` seen when the future it returns has resolved: by then
`func` has run once, on shard `t` (inline when `t` is the calling shard, from the queue
`_qs[t][caller]` otherwise). The task is given the shard it runs on. -/
def submit_to_resolved {M : Type} (t : Nat) (func : Nat → M → M) (m : M) : M := func t m

/-- Modelled from the spec: `parallel_for_each(begin, end, func)` of `future-util.hh`, which is
not part of the sources at hand, over `n` elements from element `i` on, together with the
counter `unsigned c` its callers capture by reference: `func` is called on the elements in
order, each call reading the counter and incrementing it (`c++`); the future resolves when
all calls have. `func` is given the element's index and the counter. -/
def parallel_for_each_counted {M : Type} (func : Nat → Nat → M → M) : Nat → Nat → Nat → M → M
  | 0, _, _, m => m
  | n + 1, i, c, m =>
    parallel_for_each_counted func n (i + 1) ((c + 1) % unsigned_max) (func i c m)

/-- Method `distributed::start(args...)` with `smp::count = count`; the service built from
`args` is `args` itself. -/
def distributed.start {T : Type} (d : distributed T) (count : Nat) (args : T) :
    distributed T :=
  let d1 := { d with _instances := vector_resize d._instances count }
  parallel_for_each_counted
    (fun i c d2 => submit_to_resolved c
      (fun shard d3 =>
        { d3 with _instances := d3._instances.set i (some { owner := shard, obj := args }),
                  events := d3.events ++ [service_event.constructed shard i] }) d2)
    d1._instances.length 0 0 d1

/-- The task of `invoke_on_all` and `map_reduce` for entry `i`, run on shard `shard`:
`func(*inst)`, which is undefined for a null `inst` (`none`). -/
def distributed.apply_at {T : Type} (func : T → T) (ev : Nat → Nat → service_event) (i : Nat)
    (shard : Nat) (d : Option (distributed T)) : Option (distributed T) :=
  match d with
  | none => none
  | some d1 =>
    match d1._instances[i]? with
    | some (some inst) =>
      some { d1 with _instances := d1._instances.set i (some { inst with obj := func inst.obj }),
                     events := d1.events ++ [ev shard i] }
    | _ => none

/-- Method `distributed::invoke_on_all(func)`; `none` when a null instance is used. -/
def distributed.invoke_on_all {T : Type} (d : distributed T) (func : T → T) :
    Option (distributed T) :=
  parallel_for_each_counted
    (fun i c d2 => submit_to_resolved c
      (fun shard d3 => distributed.apply_at func service_event.invoked i shard d3) d2)
    d._instances.length 0 0 (some d)

/-- Modelled from the spec: `::map_reduce(begin, end, mapper, reducer)` of `future-util.hh`,
which is not part of the sources at hand, as `distributed::map_reduce(r, func)` calls it: the
mapper `submit_to(c++, func(*inst))` is called on the elements in order and the results are
folded through the reducer, here a starting value `init` and an operation `r`. The state is
the value reduced so far and the service; `none` when a null instance is used. -/
def distributed.map_reduce {T A R : Type} (d : distributed T) (init : A) (r : A → R → A)
    (func : T → R) : Option (A × distributed T) :=
  parallel_for_each_counted
    (fun i c acc => submit_to_resolved c
      (fun shard acc1 =>
        match acc1 with
        | none => none
        | some (a, d1) =>
          match d1._instances[i]? with
          | some (some inst) =>
            some (r a (func inst.obj),
              { d1 with events := d1.events ++ [service_event.mapped shard i] })
          | _ => none) acc)
    d._instances.length 0 0 (some (init, d))

/-- Method `distributed::stop()`, the service's `stop()` being a function that returns a
resolved future: on shard `c` the task calls `stop()` on the instance and deletes the
instance when the future has resolved; when all tasks are done `_instances` is cleared.
`none` when a null instance is used. -/
def distributed.stop {T : Type} (d : distributed T) : Option (distributed T) :=
  (parallel_for_each_counted
    (fun i c d2 => submit_to_resolved c
      (fun shard d3 =>
        match d3 with
        | none => none
        | some d4 =>
          match d4._instances[i]? with
          | some (some _) =>
            some { d4 with events := d4.events
                    ++ [service_event.stopped shard i, service_event.deleted shard i] }
          | _ => none) d2)
    d._instances.length 0 0 (some d)).map (fun d5 => { d5 with _instances := [] })

/-- Destructor `~distributed()`: `none` when the assertion `_instances.empty()` fails. -/
def distributed.destroy {T : Type} (d : distributed T) : Option Unit :=
  if d._instances.isEmpty then some () else none

/-- What a call gives: a value, a failed assertion, or undefined behaviour (an index out of
the vector's bounds, a null pointer dereferenced). -/
inductive access (α : Type) where
  | ok (a : α) : access α
  | assertion_failed : access α
  | out_of_bounds : access α
  | null_dereference : access α
deriving DecidableEq, Repr

/-- Method `distributed::local_is_initialized()` on shard `cpu_id`; the right operand of `&&`
is evaluated only when the left one is true. -/
def distributed.local_is_initialized {T : Type} (d : distributed T) (cpu_id : Nat) :
    access Bool :=
  if d._instances.length > cpu_id then
    match d._instances[cpu_id]? with
    | none => access.out_of_bounds
    | some inst => access.ok inst.isSome
  else access.ok false

/-- Method `distributed::local()` on shard `cpu_id`. -/
def distributed.local {T : Type} (d : distributed T) (cpu_id : Nat) :
    access (service_ptr T) :=
  match d.local_is_initialized cpu_id with
  | access.ok true =>
    match d._instances[cpu_id]? with
    | none => access.out_of_bounds
    | some none => access.null_dereference
    | some (some inst) => access.ok inst
  | access.ok false => access.assertion_failed
  | access.assertion_failed => access.assertion_failed
  | access.out_of_bounds => access.out_of_bounds
  | access.null_dereference => access.null_dereference

/-! ## File streams -/

/-- Width of `size_t` and `uint64_t`: sizes and file positions are below this. -/
def size_max : Nat := 2 ^ 64

/-- Modelled from the spec: class `file` of `file.hh`, which is not part of the sources at
hand: the bytes of the file. -/
structure file where
  content : List Nat
deriving DecidableEq, Repr

/-- Modelled from the spec: `file::dma_write(pos, buffer, len)`: the `len` bytes of the buffer
are all written at offset `pos`, over what the file holds there, the file growing as needed
(a gap before `pos` reads as zeros). -/
def file.dma_write (f : file) (pos : Nat) (data : List Nat) : file :=
  { content := f.content.take pos ++ List.replicate (pos - f.content.length) 0 ++ data
                ++ f.content.drop (pos + data.length) }

/-- Modelled from the spec: `file::truncate(length)`: the file is cut, or extended with
zeros, to `length` bytes. -/
def file.truncate (f : file) (length : Nat) : file :=
  { content := f.content.take length ++ List.replicate (length - f.content.length) 0 }

/-- Modelled from the spec: `file::flush()`: the content does not change. -/
def file.flush (f : file) : file := f

/-- Modelled from the spec: `file::size()`. -/
def file.size (f : file) : Nat := f.content.length

/-- Modelled from the spec: `file::dma_read_bulk(pos, len)`, taken to return exactly the bytes
of the file in `[pos, pos + len)`. -/
def file.dma_read_bulk (f : file) (pos len : Nat) : temporary_buffer :=
  (f.content.drop pos).take len

/-- Modelled from the spec: `align_up(v, align)` of `align.hh`, which is not part of the
sources at hand, for `align` a power of two: `(v + align - 1) & ~(align - 1)` in `size_t`
arithmetic. -/
def align_up (v align : Nat) : Nat := ((v + align - 1) % size_max) / align * align

/-- Class `file_data_sink_impl`. `dma_writes` is the history of the `dma_write` calls made:
offset and length of each. -/
structure file_data_sink_impl where
  _file : file
  _buffer_size : Nat
  _pos : Nat
  dma_writes : List (Nat × Nat)
deriving DecidableEq, Repr

/-- Constructor `file_data_sink_impl(f, buffer_size)`. -/
def file_data_sink_impl.mk_sink (f : file) (buffer_size : Nat) : file_data_sink_impl :=
  { _file := f, _buffer_size := buffer_size, _pos := 0, dma_writes := [] }

/-- Method `file_data_sink_impl::allocate_buffer(size)`. -/
def file_data_sink_impl.allocate_buffer (size : Nat) : temporary_buffer :=
  temporary_buffer.alloc size

/-- Method `file_data_sink_impl::put(temporary_buffer<char> buf)`, with its continuation. -/
def file_data_sink_impl.put (s : file_data_sink_impl) (buf : temporary_buffer) :
    file_data_sink_impl :=
  let pos := s._pos
  let s1 := { s with _pos := (s._pos + buf.length) % size_max }
  let truncate := decide (buf.length % 512 ≠ 0)
  let buf1 :=
    if buf.length % 512 ≠ 0 then
      std_copy buf (file_data_sink_impl.allocate_buffer (align_up buf.length 512)) 0
    else buf
  let buf_size := buf1.length
  let f1 := s1._file.dma_write pos buf1
  let f2 := if truncate then (f1.truncate s1._pos).flush else f1
  { s1 with _file := f2, dma_writes := s1.dma_writes ++ [(pos, buf_size)] }

/-- A sequence of `put` calls, each one completing before the next. -/
def file_data_sink_impl.puts (s : file_data_sink_impl) (bufs : List temporary_buffer) :
    file_data_sink_impl :=
  bufs.foldl file_data_sink_impl.put s

/-- Class `file_data_source_impl`. `dma_reads` is the history of the `dma_read_bulk` calls
made: offset and length of each. -/
structure file_data_source_impl where
  _file : file
  _pos : Nat
  _fsize : Option Nat
  _buffer_size : Nat
  dma_reads : List (Nat × Nat)
deriving DecidableEq, Repr

/-- Constructor `file_data_source_impl(f, pos, buffer_size)`. -/
def file_data_source_impl.mk_source (f : file) (pos buffer_size : Nat) :
    file_data_source_impl :=
  { _file := f, _pos := pos, _fsize := none, _buffer_size := buffer_size, dma_reads := [] }

/-- Method `file_data_source_impl::do_get()`, with its continuation; `none` when `_fsize` is
not initialized (`value()` throws). -/
def file_data_source_impl.do_get (s : file_data_source_impl) :
    Option (temporary_buffer × file_data_source_impl) :=
  match s._fsize with
  | none => none
  | some fsize =>
    if s._pos ≥ fsize then some (temporary_buffer.alloc 0, s)
    else
      let read_size :=
        if (s._pos + s._buffer_size) % size_max > fsize then fsize - s._pos
        else s._buffer_size
      let buf := s._file.dma_read_bulk s._pos read_size
      some (buf, { s with _pos := (s._pos + buf.length) % size_max,
                          dma_reads := s.dma_reads ++ [(s._pos, read_size)] })

/-- Method `file_data_source_impl::get()`. -/
def file_data_source_impl.get (s : file_data_source_impl) :
    Option (temporary_buffer × file_data_source_impl) :=
  match s._fsize with
  | none => file_data_source_impl.do_get { s with _fsize := some s._file.size }
  | some _ => s.do_get

/-- The first `n` successive `get()` calls: the chunks returned and the source afterwards. -/
def file_data_source_impl.gets :
    Nat → file_data_source_impl → Option (List temporary_buffer × file_data_source_impl)
  | 0, s => some ([], s)
  | n + 1, s =>
    match s.get with
    | none => none
    | some (c, s1) =>
      match file_data_source_impl.gets n s1 with
      | none => none
      | some (cs, s2) => some (c :: cs, s2)

/-! ## input_stream::consume -/

/-- A consumer (`ConsumerConcept`) with state `κ`: called with a buffer, it either calls
`done(unconsumed)` (`some unconsumed`) or does not (`none`). -/
abbrev Consumer (κ : Type) := κ → temporary_buffer → κ × Option temporary_buffer

/-- Body of `input_stream::consume(consumer)`, one level of the recursion for each unit of
fuel; `none` when the fuel runs out. The last argument and result is the history of the
consumer calls made: the buffer handed over and what the consumer answered. -/
def consume_loop {κ : Type} (consumer : Consumer κ) :
    Nat → input_stream → κ → List (temporary_buffer × Option temporary_buffer) →
      Option (κ × input_stream × List (temporary_buffer × Option temporary_buffer))
  | 0, _, _, _ => none
  | fuel + 1, s, k, calls =>
    if s._buf.isEmpty && !s._eof then
      let r := s._fd.get
      consume_loop consumer fuel { s with _fd := r.2, _buf := r.1, _eof := r.1.isEmpty } k calls
    else
      let tmp := s._buf
      let s1 := { s with _buf := [] }
      let answer := consumer k tmp
      match answer.2 with
      | some unconsumed =>
        some (answer.1,
          if !unconsumed.isEmpty then { s1 with _buf := unconsumed } else s1,
          calls ++ [(tmp, some unconsumed)])
      | none =>
        if !tmp.isEmpty then consume_loop consumer fuel s1 answer.1 (calls ++ [(tmp, none)])
        else some (answer.1, s1, calls ++ [(tmp, none)])

/-- Levels of recursion `consume` can still need in a state: three for each chunk the source
holds, two for a non-empty look-ahead, one for a stream not yet at end of file. -/
def input_stream.consume_depth (s : input_stream) : Nat :=
  3 * s._fd.chunks.length + (if s._buf.isEmpty then 0 else 2) + (if s._eof then 0 else 1)

/-- Method `input_stream::consume(consumer)`: the consumer and the stream afterwards and the
consumer calls made, with fuel for every level of recursion that can be needed. -/
def input_stream.consume {κ : Type} (s : input_stream) (consumer : Consumer κ) (k : κ) :
    Option (κ × input_stream × List (temporary_buffer × Option temporary_buffer)) :=
  consume_loop consumer (s.consume_depth + 1) s k []

/-- The data `consume` can hand over: the look-ahead, followed by what the source still
delivers unless the stream is at end of file. -/
def input_stream.consumable (s : input_stream) : List Nat :=
  if s._eof then s._buf else s.remaining

/-- The consumer's answers when it is handed the buffers one after the other, and its state
afterwards. -/
def Consumer.replay {κ : Type} (consumer : Consumer κ) :
    κ → List temporary_buffer → κ × List (Option temporary_buffer)
  | k, [] => (k, [])
  | k, b :: bs =>
    ((Consumer.replay consumer (consumer k b).1 bs).1,
      (consumer k b).2 :: (Consumer.replay consumer (consumer k b).1 bs).2)

/-- What `consume` guarantees about the consumer calls it made on a stream that could hand
over the bytes `data`, from the consumer state `k` to `k1`, ending in the stream `s1`: at
least one call was made; every call but the last was given a non-empty buffer and was not
answered with `done`; the buffers handed over are a leading part of `data`, in order; a last
call answered with `done(u)` leaves `u` as the look-ahead; a last call not answered with
`done` was given an empty buffer, at end of file, after all of `data`; and the answers are
those of the consumer. -/
def consume_spec {κ : Type} (consumer : Consumer κ) (data : List Nat) (k k1 : κ)
    (s1 : input_stream) (calls : List (temporary_buffer × Option temporary_buffer)) : Prop :=
  calls ≠ []
  ∧ (∀ c ∈ calls.dropLast, c.1 ≠ [] ∧ c.2 = none)
  ∧ (∃ rest, (calls.map Prod.fst).flatten ++ rest = data)
  ∧ (∀ b u, calls.getLast? = some (b, some u) → s1._buf = u)
  ∧ (∀ b, calls.getLast? = some (b, none) →
      b = [] ∧ s1._eof = true ∧ s1._buf = [] ∧ (calls.map Prod.fst).flatten = data)
  ∧ Consumer.replay consumer k (calls.map Prod.fst) = (k1, calls.map Prod.snd)

/-! ## output_stream: the two paths of write, and its copies -/

/-- The local `bulk_threshold` of `output_stream::write`. -/
def output_stream.bulk_threshold (s : output_stream) : Nat :=
  if s._end ≠ 0 then 2 * s._size - s._end else s._size

/-- The branch `if (n >= bulk_threshold) { ... }` of `output_stream::write`: the bulk path. -/
def output_stream.write_bulk (s : output_stream) (buf : List Nat) : output_stream :=
  let n := buf.length
  if s._end ≠ 0 then
    let now := s._size - s._end
    let s1 := { s with _buf := std_copy (buf.take now) s._buf s._end }
    let tmp := std_copy (buf.drop now) (temporary_buffer.alloc (n - now)) 0
    let s2 := s1.flush
    { s2 with _fd := s2._fd.put tmp }
  else
    let tmp := std_copy buf (temporary_buffer.alloc n) 0
    { s with _fd := s._fd.put tmp }

/-- The rest of `output_stream::write`, reached when `n < bulk_threshold`: the data is
appended to the internal buffer. -/
def output_stream.write_buffered (s : output_stream) (buf : List Nat) : output_stream :=
  let n := buf.length
  let now := min n (s._size - s._end)
  let s1 := { s with _buf := std_copy (buf.take now) s._buf s._end, _end := s._end + now }
  if now = n then s1
  else
    let next := std_copy (buf.drop now) (temporary_buffer.alloc s._size) 0
    { s1 with _end := n - now, _buf := next, _fd := s1._fd.put s1._buf }

/-- One `std::copy(src + src_from, src + src_to, dst + dst_off)` call: the sizes of the source
and destination buffers and the offsets used. -/
structure copy_call where
  src_size : Nat
  src_from : Nat
  src_to : Nat
  dst_size : Nat
  dst_off : Nat
deriving DecidableEq, Repr

/-- A copy stays inside both buffers. -/
def copy_call.in_bounds (c : copy_call) : Prop :=
  c.src_from ≤ c.src_to ∧ c.src_to ≤ c.src_size ∧ c.dst_off + (c.src_to - c.src_from) ≤ c.dst_size

/-- The `std::copy` calls `output_stream::write(buf, n)` makes in state `s`, in order. -/
def output_stream.write_copies (s : output_stream) (buf : List Nat) : List copy_call :=
  let n := buf.length
  if n ≥ s.bulk_threshold then
    if s._end ≠ 0 then
      let now := s._size - s._end
      [{ src_size := n, src_from := 0, src_to := now, dst_size := s._buf.length, dst_off := s._end },
       { src_size := n, src_from := now, src_to := n, dst_size := n - now, dst_off := 0 }]
    else
      [{ src_size := n, src_from := 0, src_to := n, dst_size := n, dst_off := 0 }]
  else
    let now := min n (s._size - s._end)
    { src_size := n, src_from := 0, src_to := now, dst_size := s._buf.length, dst_off := s._end }
      :: (if now = n then []
          else [{ src_size := n, src_from := now, src_to := n, dst_size := s._size, dst_off := 0 }])

/-- A call on an output stream. -/
inductive stream_call where
  | write (buf : List Nat) : stream_call
  | flush : stream_call
deriving DecidableEq, Repr

/-- Effect of a sequence of calls, oldest first: the stream afterwards and all copies made. -/
def output_stream.run_calls (s : output_stream) (copies : List copy_call) :
    List stream_call → output_stream × List copy_call
  | [] => (s, copies)
  | stream_call.write buf :: rest =>
    output_stream.run_calls (s.write buf) (copies ++ s.write_copies buf) rest
  | stream_call.flush :: rest => output_stream.run_calls s.flush copies rest

/-- The state kept by `write` and `flush`: a cursor within the buffer and a buffer of the
configured size. -/
def output_stream.inv (s : output_stream) (S : Nat) : Prop :=
  s._size = S ∧ s._end ≤ S ∧ s._buf.length = S

/-! ## reactor::write_all -/

/-- One `write_some` call issued by `write_all_part`: the offset into the caller's buffer,
the number of bytes it was asked to send and the count it resolved with. -/
structure write_some_call where
  offset : Nat
  requested : Nat
  sent : Nat
deriving DecidableEq, Repr

/-- What the socket does: the count the `call`-th `write_some`, asked to send `len` bytes
from `offset`, resolves with. -/
abbrev send_results := Nat → Nat → Nat → Nat

/-- Method `reactor::write_some(fd, buffer, len)`: resolves with the count `send` reports
(the retry on a would-block result is inside the environment). -/
def reactor.write_some (env : send_results) (call offset len : Nat) : Nat :=
  env call offset len

/-- Method `reactor::write_all_part(fd, buffer, len, completed)`, with the calls made so far.
Each level of the recursion is one continuation; `none` when `fuel` continuations did not
resolve the future. -/
def reactor.write_all_part (env : send_results) (len : Nat) :
    Nat → List write_some_call → Nat → Option (Nat × List write_some_call)
  | 0, _, _ => none
  | fuel + 1, calls, completed =>
    if completed = len then some (completed, calls)
    else
      let part := reactor.write_some env calls.length completed ((len - completed) % size_max)
      reactor.write_all_part env len fuel
        (calls ++ [{ offset := completed, requested := (len - completed) % size_max,
                     sent := part }])
        ((completed + part) % size_max)

/-- Outcome of `write_all`. -/
inductive write_all_outcome where
  | assertion_failure : write_all_outcome
  | unresolved : write_all_outcome
  | resolved (count : Nat) (calls : List write_some_call) : write_all_outcome
deriving DecidableEq, Repr

/-- Method `reactor::write_all(fd, buffer, len)`. -/
def reactor.write_all (env : send_results) (fuel len : Nat) : write_all_outcome :=
  if len = 0 then write_all_outcome.assertion_failure
  else
    match reactor.write_all_part env len fuel [] 0 with
    | none => write_all_outcome.unresolved
    | some (count, calls) => write_all_outcome.resolved count calls

/-- The calls, numbered from `i` on, are the `write_some` calls that send the consecutive
byte ranges from `a` up to `b` on the socket `env`: each call starts where the previous one
ended, is asked for all that is left, resolves with the count the socket gives for that
call, and that count is at least one byte and no more than what is left. -/
def write_calls_cover (env : send_results) : List write_some_call → Nat → Nat → Nat → Prop
  | [], _, a, b => a = b
  | c :: cs, i, a, b =>
    c.offset = a ∧ c.requested = b - a ∧ c.sent = reactor.write_some env i a (b - a)
      ∧ 1 ≤ c.sent ∧ a + c.sent ≤ b
      ∧ write_calls_cover env cs (i + 1) (a + c.sent) b

/-! ## IP checksum accumulator -/

/-- Value of a signed 128-bit integer after an addition whose exact result is `x`
(two's complement wrap-around). -/
def int128_wrap (x : Int) : Int :=
  (x + 170141183460469231731687303715884105728) % 340282366920938463463374607431768211456
    - 170141183460469231731687303715884105728

/-- Struct `checksummer`: `__int128 csum; bool odd`. -/
structure checksummer where
  csum : Int
  odd : Bool
deriving DecidableEq, Repr

/-- Method `checksummer::sum(uint8_t data)`. -/
def checksummer.sum_uint8 (c : checksummer) (data : Nat) : checksummer :=
  if !c.odd then
    { csum := int128_wrap (c.csum + ((data <<< 8 : Nat) : Int)), odd := !c.odd }
  else
    { csum := int128_wrap (c.csum + (data : Int)), odd := !c.odd }

/-- Method `checksummer::sum(uint16_t data)`. -/
def checksummer.sum_uint16 (c : checksummer) (data : Nat) : checksummer :=
  if c.odd then
    (c.sum_uint8 ((data >>> 8) % 256)).sum_uint8 (data % 256)
  else
    { c with csum := int128_wrap (c.csum + (data : Int)) }

/-- Method `checksummer::sum(uint32_t data)`. -/
def checksummer.sum_uint32 (c : checksummer) (data : Nat) : checksummer :=
  if c.odd then
    (c.sum_uint16 (data % 65536)).sum_uint16 ((data >>> 16) % 65536)
  else
    { c with csum := int128_wrap (c.csum + (data : Int)) }

/-- The four bytes of a 32-bit word fed through `sum(uint8_t)`, most significant first. -/
def checksummer.sum_bytes_uint32 (c : checksummer) (data : Nat) : checksummer :=
  (((c.sum_uint8 ((data >>> 24) % 256)).sum_uint8 ((data >>> 16) % 256)).sum_uint8
    ((data >>> 8) % 256)).sum_uint8 (data % 256)

/-! ## Native network stack: options and DHCP -/

/-- An entry `opts["name"]` of the program options holding an address: its value, and
whether it is the default (`defaulted()`) rather than given on the command line. -/
structure address_option where
  value : Nat
  defaulted : Bool
deriving DecidableEq, Repr

/-- The options the constructor of `native_network_stack` reads for its addresses. -/
structure native_stack_options where
  host_ipv4_addr : address_option
  gw_ipv4_addr : address_option
  netmask_ipv4_addr : address_option
  dhcp : Bool
deriving DecidableEq, Repr

/-- Class `native_network_stack`: the addresses set on `_inet`, the flag `_dhcp`, whether
`_config` was resolved, and whether this shard has started a discovery. -/
structure native_network_stack where
  host_address : Nat
  gw_address : Nat
  netmask_address : Nat
  _dhcp : Bool
  _config_set : Bool
  dhcp_runs : Nat
deriving DecidableEq, Repr

/-- Constructor `native_network_stack(opts, dev)`. -/
def native_network_stack.create (opts : native_stack_options) : native_network_stack :=
  { host_address := opts.host_ipv4_addr.value,
    gw_address := opts.gw_ipv4_addr.value,
    netmask_address := opts.netmask_ipv4_addr.value,
    _dhcp := opts.host_ipv4_addr.defaulted && opts.gw_ipv4_addr.defaulted
      && opts.netmask_ipv4_addr.defaulted && opts.dhcp,
    _config_set := false,
    dhcp_runs := 0 }

/-- What the future returned by `initialize()` is. -/
inductive initialize_future where
  | ready : initialize_future
  | config : initialize_future
deriving DecidableEq, Repr

/-- Method `native_network_stack::initialize()` on shard `cpu_id` (the plain name is a Lean
keyword): the stack afterwards, `run_dhcp()` counted in `dhcp_runs`, and the future
returned. -/
def native_network_stack.initialize_ (ns : native_network_stack) (cpu_id : Nat) :
    native_network_stack × initialize_future :=
  if !ns._dhcp then (ns, initialize_future.ready)
  else
    let ns1 := if cpu_id = 0 then { ns with dhcp_runs := ns.dhcp_runs + 1 } else ns
    (ns1, initialize_future.config)

/-! ## Native network stack: queues and proxies -/

/-- What `set_local_queue` receives on a shard: a hardware queue with the shards added to
it by `add_proxy`, in order, or a proxy device towards a master shard. -/
inductive local_queue where
  | hw_queue (qid : Nat) (proxies : List Nat) : local_queue
  | proxy_device (master : Nat) : local_queue
deriving DecidableEq, Repr

/-- Modelled from the spec: the method `add_proxy(cpu)` of the queue class is not among the
sources; it is taken to record the shard at the end of the queue's list of proxies. -/
def add_proxy (proxies : List Nat) (cpu : Nat) : List Nat := proxies ++ [cpu]

/-- The loop `for (unsigned i = start; i < smp::count; i += hw_queues_count) add_proxy(i)`
with `h = sdev->hw_queues_count()`: the shards added, `none` when `fuel` iterations did not
end it. -/
def add_proxy_loop (h count : Nat) : Nat → Nat → List Nat → Option (List Nat)
  | 0, _, _ => none
  | fuel + 1, i, proxies =>
    if i < count then add_proxy_loop h count fuel ((i + h) % unsigned_max) (add_proxy proxies i)
    else some proxies

/-- The value of `uint16_t qid = engine.cpu_id();`. -/
def shard_qid (cpu_id : Nat) : Nat := cpu_id % 65536

/-- The lambda `create_native_net_device` submits to each shard, run on shard `cpu_id` with
`h = sdev->hw_queues_count()` and `count = smp::count`: the local queue it sets. -/
def shard_setup (h count fuel cpu_id : Nat) : Option local_queue :=
  let qid := shard_qid cpu_id
  if qid < h then
    (add_proxy_loop h count fuel ((h + qid % h) % unsigned_max) []).map (local_queue.hw_queue qid)
  else
    some (local_queue.proxy_device (qid % h))

/-- The loop `for (unsigned i = 0; i < smp::count; i++) smp::submit_to(i, ...)` of
`create_native_net_device`: the local queue of every shard, by shard number. -/
def create_native_net_device (h count fuel : Nat) : List (Option local_queue) :=
  (List.range count).map (shard_setup h count fuel)

/-! ## DHCP options -/

/-- Values of `enum class opt_type : uint8_t` used by the parser. -/
def opt_type.SUBNET_MASK : Nat := 1
def opt_type.ROUTER : Nat := 3
def opt_type.DOMAIN_NAME_SERVERS : Nat := 6
def opt_type.INTERFACE_MTU : Nat := 26
def opt_type.BROADCAST_ADDRESS : Nat := 28
def opt_type.LEASE_TIME : Nat := 51
def opt_type.MESSAGE_TYPE : Nat := 53
def opt_type.DHCP_SERVER : Nat := 54
def opt_type.RENEWAL_TIME : Nat := 58
def opt_type.REBINDING_TIME : Nat := 59
def opt_type.END : Nat := 255

/-- Struct `ip_info : lease`: the lease fields (addresses as 32-bit numbers, times in
seconds) and the message type. -/
structure ip_info where
  ip : Nat
  netmask : Nat
  broadcast : Nat
  gateway : Nat
  dhcp_server : Nat
  name_servers : List Nat
  lease_time : Nat
  renew_time : Nat
  rebind_time : Nat
  mtu : Nat
  type : Nat
deriving DecidableEq, Repr

/-- A default constructed `ip_info`. -/
def ip_info.default : ip_info :=
  { ip := 0, netmask := 0, broadcast := 0, gateway := 0, dhcp_server := 0, name_servers := [],
    lease_time := 0, renew_time := 0, rebind_time := 0, mtu := 0, type := 0 }

/-- Method `ip_info::set(opt_type type, const ipv4_address & ip)`. -/
def ip_info.set_ip (info : ip_info) (type ip : Nat) : ip_info :=
  if type = opt_type.SUBNET_MASK then { info with netmask := ip }
  else if type = opt_type.ROUTER then { info with gateway := ip }
  else if type = opt_type.BROADCAST_ADDRESS then { info with broadcast := ip }
  else if type = opt_type.DHCP_SERVER then { info with dhcp_server := ip }
  else if type = opt_type.DOMAIN_NAME_SERVERS then
    { info with name_servers := info.name_servers ++ [ip] }
  else info

/-- Method `ip_info::set(opt_type type, std::chrono::seconds s)`. -/
def ip_info.set_time (info : ip_info) (type s : Nat) : ip_info :=
  if type = opt_type.LEASE_TIME then { info with lease_time := s }
  else if type = opt_type.RENEWAL_TIME then { info with renew_time := s }
  else if type = opt_type.REBINDING_TIME then { info with rebind_time := s }
  else info

/-- Modelled from the spec: `packet::get_header<T>(off)` is declared in packet.hh, which is
not among the sources; it is taken to return the `size = sizeof(T)` bytes at offset `off`
of the packet, or a null pointer (`none`) when the packet has fewer than `off + size`
bytes. -/
def get_header (p : List Nat) (off size : Nat) : Option (List Nat) :=
  if off + size ≤ p.length then some ((p.drop off).take size) else none

/-- The value `ntohs(field)` of a 16-bit field stored in the two bytes `b`. -/
def ntohs_field (b : List Nat) : Nat := b.getD 0 0 * 256 + b.getD 1 0

/-- The value `ntohl(field)` of a 32-bit field stored in the four bytes `b`. -/
def ntohl_field (b : List Nat) : Nat :=
  b.getD 0 0 * 16777216 + b.getD 1 0 * 65536 + b.getD 2 0 * 256 + b.getD 3 0

/-- The two bytes in which a field assigned `htons(v)` is stored. -/
def htons_field (v : Nat) : List Nat := [v / 256 % 256, v % 256]

/-- The four bytes in which a field assigned `htonl(v)` is stored. -/
def htonl_field (v : Nat) : List Nat :=
  [v / 16777216 % 256, v / 65536 % 256, v / 256 % 256, v % 256]

/-- The `switch (o->type)` of `ip_info::parse_options`, for the option at offset `off`. -/
def ip_info.parse_option (info : ip_info) (p : List Nat) (off type : Nat) : ip_info :=
  if type = opt_type.SUBNET_MASK ∨ type = opt_type.ROUTER ∨ type = opt_type.BROADCAST_ADDRESS
      ∨ type = opt_type.DHCP_SERVER ∨ type = opt_type.DOMAIN_NAME_SERVERS then
    match get_header p off 6 with
    | some ipo => info.set_ip type (ntohl_field (ipo.drop 2))
    | none => info
  else if type = opt_type.MESSAGE_TYPE then
    match get_header p off 3 with
    | some tyo => { info with type := tyo.getD 2 0 }
    | none => info
  else if type = opt_type.INTERFACE_MTU then
    match get_header p off 4 with
    | some mo => { info with mtu := ntohs_field (mo.drop 2) }
    | none => info
  else if type = opt_type.LEASE_TIME ∨ type = opt_type.RENEWAL_TIME
      ∨ type = opt_type.REBINDING_TIME then
    match get_header p off 6 with
    | some tmo => info.set_time type (ntohl_field (tmo.drop 2))
    | none => info
  else info

/-- Method `ip_info::parse_options(packet & p, size_t off)`: one unit of fuel per turn of the
`for (;;)` loop, `none` when the loop has not ended within `fuel` turns. -/
def ip_info.parse_options (p : List Nat) : Nat → Nat → ip_info → Option ip_info
  | 0, _, _ => none
  | fuel + 1, off, info =>
    match get_header p off 1 with
    | none => some info
    | some m =>
      if m.getD 0 0 = opt_type.END then some info
      else
        match get_header p off 2 with
        | none => some info
        | some o =>
          ip_info.parse_options p fuel ((off + (2 + o.getD 1 0)) % size_max)
            (info.parse_option p off (o.getD 0 0))

/-- An option as the client builds it: `type_option(t)`, `mtu_option(v)`,
`ip_option(t, ip)` or `time_option(t, v)`. -/
inductive dhcp_option where
  | type_option (t : Nat) : dhcp_option
  | mtu_option (v : Nat) : dhcp_option
  | ip_option (t ip : Nat) : dhcp_option
  | time_option (t v : Nat) : dhcp_option
deriving DecidableEq, Repr

/-- The bytes of the packed option struct its constructor fills in: type, length, value in
network byte order. -/
def dhcp_option.bytes : dhcp_option → List Nat
  | dhcp_option.type_option t => [opt_type.MESSAGE_TYPE, 1, t]
  | dhcp_option.mtu_option v => opt_type.INTERFACE_MTU :: 2 :: htons_field v
  | dhcp_option.ip_option t ip => t :: 4 :: htonl_field ip
  | dhcp_option.time_option t v => t :: 4 :: htonl_field v

/-- The `opt_type` an option carries. -/
def dhcp_option.opt : dhcp_option → Nat
  | dhcp_option.type_option _ => opt_type.MESSAGE_TYPE
  | dhcp_option.mtu_option _ => opt_type.INTERFACE_MTU
  | dhcp_option.ip_option t _ => t
  | dhcp_option.time_option t _ => t

/-- The types `ip_option` is used for by the parser. -/
def ip_opt_types : List Nat :=
  [opt_type.SUBNET_MASK, opt_type.ROUTER, opt_type.BROADCAST_ADDRESS, opt_type.DHCP_SERVER,
   opt_type.DOMAIN_NAME_SERVERS]

/-- The types `time_option` is used for by the parser. -/
def time_opt_types : List Nat :=
  [opt_type.LEASE_TIME, opt_type.RENEWAL_TIME, opt_type.REBINDING_TIME]

/-- The arguments fit the fields (8, 16 and 32 bits), and the type given to `ip_option` or
`time_option` is one of the encoder's own types or a type the parser does not know; it is
never END. -/
def dhcp_option.valid : dhcp_option → Prop
  | dhcp_option.type_option t => t < 256
  | dhcp_option.mtu_option v => v < 65536
  | dhcp_option.ip_option t ip =>
    t < 255 ∧ ip < 4294967296 ∧ t ≠ opt_type.MESSAGE_TYPE ∧ t ≠ opt_type.INTERFACE_MTU
      ∧ t ∉ time_opt_types
  | dhcp_option.time_option t v =>
    t < 255 ∧ v < 4294967296 ∧ t ≠ opt_type.MESSAGE_TYPE ∧ t ≠ opt_type.INTERFACE_MTU
      ∧ t ∉ ip_opt_types

instance (o : dhcp_option) : Decidable o.valid := by
  cases o <;> unfold dhcp_option.valid <;> infer_instance

/-- The options area: the options one after the other. -/
def encode_options : List dhcp_option → List Nat
  | [] => []
  | o :: os => o.bytes ++ encode_options os

/-- What the value of an option means for the lease, in the words of the option types: the
message type, the MTU, an address or a time of the given type; other types mean nothing. -/
def dhcp_option.store (info : ip_info) : dhcp_option → ip_info
  | dhcp_option.type_option t => { info with type := t }
  | dhcp_option.mtu_option v => { info with mtu := v }
  | dhcp_option.ip_option t ip => info.set_ip t ip
  | dhcp_option.time_option t v => info.set_time t v

/-- The option's value is the one held by the lease `r`; for a name server, it is the first
one after those of `info`. Options of types the parser does not know hold no value. -/
def dhcp_option.recovered (info r : ip_info) : dhcp_option → Prop
  | dhcp_option.type_option t => r.type = t
  | dhcp_option.mtu_option v => r.mtu = v
  | dhcp_option.ip_option t ip =>
    (t = opt_type.SUBNET_MASK → r.netmask = ip)
    ∧ (t = opt_type.ROUTER → r.gateway = ip)
    ∧ (t = opt_type.BROADCAST_ADDRESS → r.broadcast = ip)
    ∧ (t = opt_type.DHCP_SERVER → r.dhcp_server = ip)
    ∧ (t = opt_type.DOMAIN_NAME_SERVERS → r.name_servers = info.name_servers ++ [ip])
  | dhcp_option.time_option t v =>
    (t = opt_type.LEASE_TIME → r.lease_time = v)
    ∧ (t = opt_type.RENEWAL_TIME → r.renew_time = v)
    ∧ (t = opt_type.REBINDING_TIME → r.rebind_time = v)

/-! ## DHCP client -/

/-- The states `enum class state` of `dhcp::impl`. -/
inductive dhcp_state where
  | NONE : dhcp_state
  | DISCOVER : dhcp_state
  | REQUEST : dhcp_state
  | DONE : dhcp_state
  | FAIL : dhcp_state
deriving DecidableEq, Repr

/-- Values of `enum class msg_type : uint8_t` the client reacts to. -/
def msg_type.OFFER : Nat := 2
def msg_type.ACK : Nat := 5
def msg_type.NAK : Nat := 6

/-- Class `dhcp::impl`: the state, the promise `_result` (resolved with the success flag
and the lease), and whether `_timer` is armed. `result_sets` is history kept for the proofs:
the arguments of every `_result.set_value` call so far, oldest first. -/
structure dhcp_impl where
  _state : dhcp_state
  _result : future Unit (Bool × ip_info)
  _timer_armed : Bool
  result_sets : List (Bool × ip_info)
deriving DecidableEq, Repr

/-- A freshly constructed `dhcp::impl`. -/
def dhcp_impl.init : dhcp_impl :=
  { _state := dhcp_state.NONE, _result := future.pending, _timer_armed := false,
    result_sets := [] }

/-- The call `_result.set_value(success, l)`; `none` when the promise was resolved before. -/
def dhcp_impl.set_result (d : dhcp_impl) (success : Bool) (l : ip_info) : Option dhcp_impl :=
  (d._result.set_value (success, l)).map
    (fun p => { d with _result := p, result_sets := d.result_sets ++ [(success, l)] })

/-- Method `build_ip_headers_and_send(pkt)`: `send_ok` tells whether `send_raw` succeeds; on
an exception the `rescue` handler sets the state to FAIL and the result to failure. -/
def dhcp_impl.build_ip_headers_and_send (d : dhcp_impl) (send_ok : Bool) : Option dhcp_impl :=
  if send_ok then some d
  else { d with _state := dhcp_state.FAIL }.set_result false ip_info.default

/-- Method `send_discover(ip)`. -/
def dhcp_impl.send_discover (d : dhcp_impl) (send_ok : Bool) : Option dhcp_impl :=
  { d with _state := dhcp_state.DISCOVER }.build_ip_headers_and_send send_ok

/-- Method `send_request(info)`. -/
def dhcp_impl.send_request (d : dhcp_impl) (send_ok : Bool) : Option dhcp_impl :=
  { d with _state := dhcp_state.REQUEST }.build_ip_headers_and_send send_ok

/-- Method `handle(p, from, handled)` for a well-formed DHCP packet addressed to the client
whose options parse to `info`; `send_ok` is the fate of the packet sent in answer, if any. -/
def dhcp_impl.handle (d : dhcp_impl) (info : ip_info) (send_ok : Bool) : Option dhcp_impl :=
  match d._state with
  | dhcp_state.NONE => some d
  | dhcp_state.DISCOVER =>
    if info.type ≠ msg_type.OFFER then some d
    else d.send_request send_ok
  | dhcp_state.REQUEST =>
    if info.type = msg_type.NAK then
      { d with _state := dhcp_state.NONE }.send_discover send_ok
    else if info.type ≠ msg_type.ACK then some d
    else { d with _state := dhcp_state.DONE }.set_result true info
  | _ => some d

/-- The callback `run` gives `_timer`, called when the timer expires. -/
def dhcp_impl.timer_callback (d : dhcp_impl) : Option dhcp_impl :=
  { d with _state := dhcp_state.FAIL, _timer_armed := false }.set_result false ip_info.default

/-- Method `run(l, timeout)`: the discover is sent and, once that future resolves, the
timer is armed unless `timeout` is zero. -/
def dhcp_impl.run (d : dhcp_impl) (timeout : Nat) (send_ok : Bool) : Option dhcp_impl :=
  ({ d with _state := dhcp_state.NONE }.send_discover send_ok).map
    (fun (d1 : dhcp_impl) => if timeout ≠ 0 then { d1 with _timer_armed := true } else d1)

/-- What happens to the client after `run`: a DHCP packet arrives, or the timer expires. -/
inductive dhcp_event where
  | packet (info : ip_info) (send_ok : Bool) : dhcp_event
  | timer_expiry : dhcp_event
deriving DecidableEq, Repr

/-- The client's reaction to one event; an expiry is delivered only while the timer is
armed. -/
def dhcp_impl.on_event (d : dhcp_impl) : dhcp_event → Option dhcp_impl
  | dhcp_event.packet info send_ok => d.handle info send_ok
  | dhcp_event.timer_expiry => if d._timer_armed then d.timer_callback else some d

/-- The events in order; `none` as soon as one of them resolves `_result` a second time. -/
def dhcp_impl.on_events (d : dhcp_impl) : List dhcp_event → Option dhcp_impl
  | [] => some d
  | e :: es =>
    match d.on_event e with
    | none => none
    | some d1 => d1.on_events es

/-! ## NAT adapter -/

/-- Modelled from the spec: `enum class tcp_state` is declared in tcp.hh, which is not among
the sources; these are the states the adapter names. -/
inductive tcp_state where
  | ESTABLISHED : tcp_state
  | FIN_WAIT_1 : tcp_state
  | FIN_WAIT_2 : tcp_state
  | CLOSE_WAIT : tcp_state
  | LAST_ACK : tcp_state
deriving DecidableEq, Repr

/-- Struct `nat_tcp_connection`; the constructor leaves `local_fin_seq` unset (0 here). -/
structure nat_tcp_connection where
  orig_port : Nat
  remap_port : Nat
  state : tcp_state
  local_fin_seq : Nat
deriving DecidableEq, Repr

/-- A `std::unordered_map<uint16_t, V>` as the list of its entries, one per key. -/
abbrev port_map (V : Type) := List (Nat × V)

/-- Method `count(key)` of the map, as a truth value. -/
def port_map.count {V : Type} (m : port_map V) (key : Nat) : Bool :=
  m.any (fun e => e.1 == key)

/-- Method `erase(key)` of the map. -/
def port_map.erase {V : Type} (m : port_map V) (key : Nat) : port_map V :=
  m.filter (fun e => !(e.1 == key))

/-- The assignment `m[key] = v`. -/
def port_map.assign {V : Type} (m : port_map V) (key : Nat) (v : V) : port_map V :=
  m.erase key ++ [(key, v)]

/-- The value `m[key]` of a key the map holds. -/
def port_map.find {V : Type} (m : port_map V) (key : Nat) : Option V :=
  (m.find? (fun e => e.1 == key)).map (fun e => e.2)

/-- The tables of `nat_adapter_interface`. The `lw_shared_ptr<nat_tcp_connection>` held by
`_tcp_nat_orig` and `_tcp_nat_remap` are indices into `connections`, the connection objects
in the order they were made. -/
structure nat_adapter_interface where
  _tcp_listening : port_map Bool
  _tcp_nat_orig : port_map Nat
  _tcp_nat_remap : port_map Nat
  connections : List nat_tcp_connection
deriving DecidableEq, Repr

/-- The tables of a newly constructed `nat_adapter_interface`. -/
def nat_adapter_interface.init : nat_adapter_interface :=
  { _tcp_listening := [], _tcp_nat_orig := [], _tcp_nat_remap := [], connections := [] }

/-- The fields of a TCP header the adapter reads. -/
structure tcp_hdr where
  src_port : Nat
  dst_port : Nat
  f_syn : Bool
  f_ack : Bool
  f_rst : Bool
  f_fin : Bool
  seq : Nat
  ack : Nat
deriving DecidableEq, Repr

/-- Method `register_tcp_connection(port)`. -/
def nat_adapter_interface.register_tcp_connection (s : nat_adapter_interface) (port : Nat) :
    nat_adapter_interface :=
  if port ≥ 41952 then { s with _tcp_listening := s._tcp_listening.assign port true } else s

/-- Method `close_tcp_connection(con)`, `con` pointing at connection number `ptr`. -/
def nat_adapter_interface.close_tcp_connection (s : nat_adapter_interface) (ptr : Nat) :
    nat_adapter_interface :=
  match s.connections[ptr]? with
  | none => s
  | some con =>
    { s with _tcp_listening := s._tcp_listening.erase con.remap_port,
             _tcp_nat_orig := s._tcp_nat_orig.erase con.orig_port,
             _tcp_nat_remap := s._tcp_nat_remap.erase con.remap_port }

/-- An assignment to the fields `state` and `local_fin_seq` of connection number `ptr`. -/
def nat_adapter_interface.set_state (s : nat_adapter_interface) (ptr : Nat) (st : tcp_state)
    (fin_seq : Option Nat) : nat_adapter_interface :=
  match s.connections[ptr]? with
  | none => s
  | some con =>
    let con1 : nat_tcp_connection :=
      { con with state := st, local_fin_seq := fin_seq.getD con.local_fin_seq }
    { s with connections := s.connections.set ptr con1 }

/-- The `state` of connection number `ptr`. -/
def nat_adapter_interface.state_of (s : nat_adapter_interface) (ptr : Nat) : Option tcp_state :=
  (s.connections[ptr]?).map (fun con => con.state)

/-- The `do ... while` loop of `receive_tcp` that draws a port for the remapping: `draws` are
the ports `_port_dist(_e)` returns, each with whether the connection id it gives hashes to
this cpu; the loop ends at the first one that does and is not in `_tcp_listening`. -/
def draw_remap_port (listening : port_map Bool) : List (Nat × Bool) → Option Nat
  | [] => none
  | (port, on_this_cpu) :: rest =>
    if !on_this_cpu || listening.count port then draw_remap_port listening rest
    else some port

/-- Method `receive_tcp` for a packet with TCP header `th`; `none` while the port loop has
not ended on the given draws. The rewriting of the packet is left out. -/
def nat_adapter_interface.receive_tcp (s : nat_adapter_interface) (th : tcp_hdr)
    (draws : List (Nat × Bool)) : Option nat_adapter_interface :=
  let allocated : Option nat_adapter_interface :=
    if th.f_syn && !th.f_ack && s._tcp_listening.count th.src_port then
      (draw_remap_port s._tcp_listening draws).map (fun remap_port =>
        let con := s.connections.length
        { _tcp_listening := s._tcp_listening.assign remap_port true,
          _tcp_nat_orig := s._tcp_nat_orig.assign th.src_port con,
          _tcp_nat_remap := s._tcp_nat_remap.assign remap_port con,
          connections := s.connections ++
            [{ orig_port := th.src_port, remap_port := remap_port,
               state := tcp_state.ESTABLISHED, local_fin_seq := 0 }] })
    else some s
  allocated.map (fun (s1 : nat_adapter_interface) =>
    match s1._tcp_nat_orig.find th.src_port with
    | none => s1
    | some con =>
      let s2 := if th.f_rst then s1.close_tcp_connection con else s1
      if th.f_fin then
        let s3 := if s2.state_of con = some tcp_state.ESTABLISHED then
            s2.set_state con tcp_state.FIN_WAIT_1 (some (th.seq % unsigned_max))
          else s2
        if s3.state_of con = some tcp_state.CLOSE_WAIT then
          s3.set_state con tcp_state.LAST_ACK (some (th.seq % unsigned_max))
        else s3
      else s2)

/-- Method `send_tcp` for a packet with TCP header `th`. -/
def nat_adapter_interface.send_tcp (s : nat_adapter_interface) (th : tcp_hdr) :
    nat_adapter_interface :=
  match s._tcp_nat_remap.find th.dst_port with
  | none => s
  | some con =>
    let s1 := if th.f_rst then s.close_tcp_connection con else s
    let fin_acked (t : nat_adapter_interface) : Bool :=
      match t.connections[con]? with
      | none => false
      | some c => th.ack == (c.local_fin_seq + 1) % unsigned_max
    let s2 :=
      if th.f_ack then
        let t := if s1.state_of con = some tcp_state.FIN_WAIT_1 && fin_acked s1 then
            s1.set_state con tcp_state.FIN_WAIT_2 none
          else s1
        if t.state_of con = some tcp_state.LAST_ACK && fin_acked t then
          t.close_tcp_connection con
        else t
      else s1
    if th.f_fin then
      let t := if s2.state_of con = some tcp_state.ESTABLISHED then
          s2.set_state con tcp_state.CLOSE_WAIT none
        else s2
      if t.state_of con = some tcp_state.FIN_WAIT_2 then t.close_tcp_connection con else t
    else s2

/-- A TCP packet passing the adapter: received from the host, with the draws of the port
generator, or sent to it. -/
inductive nat_call where
  | receive_tcp (th : tcp_hdr) (draws : List (Nat × Bool)) : nat_call
  | send_tcp (th : tcp_hdr) : nat_call
deriving DecidableEq, Repr

/-- A sequence of `receive_tcp` and `send_tcp` calls, oldest first. -/
def nat_adapter_interface.run_calls (s : nat_adapter_interface) :
    List nat_call → Option nat_adapter_interface
  | [] => some s
  | nat_call.receive_tcp th draws :: rest =>
    match s.receive_tcp th draws with
    | none => none
    | some s1 => s1.run_calls rest
  | nat_call.send_tcp th :: rest => (s.send_tcp th).run_calls rest

/-- The tables agree: every entry of `_tcp_nat_orig` points at a connection filed under its
original port there and under its remapped port in `_tcp_nat_remap`, every entry of
`_tcp_nat_remap` points at a connection filed under its remapped port there and under its
original port in `_tcp_nat_orig`, and every remapped port lies in the range of the port
generator and is marked in `_tcp_listening`. -/
def nat_adapter_interface.consistent (s : nat_adapter_interface) : Bool :=
  s._tcp_nat_orig.all (fun e =>
      match s.connections[e.2]? with
      | none => false
      | some c => c.orig_port == e.1 && s._tcp_nat_remap.find c.remap_port == some e.2)
    && s._tcp_nat_remap.all (fun e =>
      match s.connections[e.2]? with
      | none => false
      | some c => c.remap_port == e.1 && s._tcp_nat_orig.find c.orig_port == some e.2
          && decide (41952 ≤ e.1) && decide (e.1 ≤ 65535) && s._tcp_listening.count e.1)

/-! ## Example states -/

/-- A reactor whose timer 0 is armed for time 5 and queued, all others being fresh. -/
def example_reactor : reactor :=
  { timer_at := fun x =>
      if x = 0 then
        { _expiry := 5, _period := none, _armed := true, _queued := true, _expired := false }
      else timer.fresh,
    _timers := [0] }


/-- An output stream of buffer size 4 over an empty sink. -/
def example_output_stream : output_stream := output_stream.mk_stream { puts := [], closed := false } 4

/-- An input stream with look-ahead `[1, 2]` over a source of three chunks. -/
def example_input_stream : input_stream :=
  { _fd := { chunks := [[3], [4, 5], [6, 7]] }, _buf := [1, 2], _eof := false }

/-- An input stream with look-ahead `[1, 2]` whose source is at end of file. -/
def example_input_stream_eof : input_stream :=
  { _fd := { chunks := [] }, _buf := [1, 2], _eof := false }

/-- Shard 0 of a system whose queues are all empty; the shard's state is a call counter. -/
def example_smp (V : Type) : smp Nat String V :=
  { cpu_id := 0, engine := 0, _qs := fun _ _ => smp_message_queue.empty _ }

/-- A function that counts its calls in the shard's state and returns 7. -/
def example_func : Func Nat String Nat := fun calls => (Except.ok 7, calls + 1)

/-- Four calls on timer 0: arm, rearm while armed, cancel, arm again. -/
def example_timer_calls : List timer_call :=
  [timer_call.arm 0 5 none, timer_call.rearm 0 7 (some 2), timer_call.cancel 0,
   timer_call.arm 0 9 none]

/-- Three shards on which nothing was released yet; the queue from shard 0 to shard 2 is
full: 128 items taken by shard 2 whose futures have not resolved. -/
def example_full_system : smp_system (List Nat) String Unit :=
  { shard := fun _ => [],
    _qs := fun dst src =>
      if dst = 2 ∧ src = 0 then
        { _pending := [], _completed := [], _current_queue_length := 128, _pending_fifo := [],
          processing := List.replicate 128 (fun st => (Except.ok (make_ready_future ()), st)) }
      else smp_message_queue.empty _ }

/-- A buffer of 512 bytes. -/
def example_block : temporary_buffer := List.replicate 512 1

/-- Two buffers for a file sink: 512 bytes, then 3 bytes. -/
def example_file_bufs : List temporary_buffer := [example_block, [7, 8, 9]]

/-- A socket that takes half of what it is offered, rounded up. -/
def example_send_results : send_results := fun _ _ len => (len + 1) / 2

/-- A checksum accumulator in the odd state. -/
def example_checksummer : checksummer := { csum := 4660, odd := true }

/-- Options asking for DHCP while giving the host address on the command line. -/
def example_options_explicit_host : native_stack_options :=
  { host_ipv4_addr := { value := 3232235777, defaulted := false },
    gw_ipv4_addr := { value := 3232266753, defaulted := true },
    netmask_ipv4_addr := { value := 4294967040, defaulted := true },
    dhcp := true }

/-- Options asking for DHCP with all addresses left at their defaults. -/
def example_options_defaults : native_stack_options :=
  { host_ipv4_addr := { value := 3232266754, defaulted := true },
    gw_ipv4_addr := { value := 3232266753, defaulted := true },
    netmask_ipv4_addr := { value := 4294967040, defaulted := true },
    dhcp := true }

/-- The options of an acknowledgement: message type ACK, netmask, router, name server, MTU,
lease time, and an option type the parser does not know. -/
def example_dhcp_options : List dhcp_option :=
  [dhcp_option.type_option 5, dhcp_option.ip_option 1 4294967040,
   dhcp_option.ip_option 3 3232235777, dhcp_option.ip_option 6 134744072,
   dhcp_option.mtu_option 1500, dhcp_option.time_option 51 86400,
   dhcp_option.ip_option 50 3232235778]

/-- An offer and the acknowledgement that follows it. -/
def example_offer : ip_info := { ip_info.default with ip := 3232235786, type := 2 }
def example_ack : ip_info := { ip_info.default with ip := 3232235786, type := 5 }

/-- A connection request (SYN without ACK) of the host from source port 50000. -/
def example_syn : tcp_hdr :=
  { src_port := 50000, dst_port := 80, f_syn := true, f_ack := false, f_rst := false,
    f_fin := false, seq := 1000, ack := 0 }

/-- An adapter on which port 50000 was registered. -/
def example_nat : nat_adapter_interface :=
  nat_adapter_interface.init.register_tcp_connection 50000

/-! # Proofs -/

/-! ## Buffers -/

theorem std_copy_nil (dst : temporary_buffer) (off : Nat) : std_copy [] dst off = dst := by
  simp [std_copy]

theorem std_copy_length (src : List Nat) (dst : temporary_buffer) (off : Nat)
    (h : off + src.length ≤ dst.length) : (std_copy src dst off).length = dst.length := by
  simp only [std_copy, List.length_append, List.length_take, List.length_drop]
  omega

theorem std_copy_alloc_full (src : List Nat) :
    std_copy src (temporary_buffer.alloc src.length) 0 = src := by
  simp [std_copy, temporary_buffer.alloc]

theorem take_append_of_length_le (a b : List Nat) (k : Nat) (h : a.length ≤ k) :
    (a ++ b).take k = a ++ b.take (k - a.length) := by
  have hk : k = a.length + (k - a.length) := by omega
  rw [hk, List.take_append]
  congr 2
  omega

theorem drop_append_of_length_le (a b : List Nat) (k : Nat) (h : a.length ≤ k) :
    (a ++ b).drop k = b.drop (k - a.length) := by
  have hk : k = a.length + (k - a.length) := by omega
  rw [hk, List.drop_append]
  congr 1
  omega

theorem std_copy_tail (src out : List Nat) (completed : Nat)
    (h : out.length ≤ completed + src.length) :
    std_copy src out completed = out.take completed ++ src := by
  rw [std_copy, List.drop_eq_nil_of_le h, List.append_nil]

/-! ## input_stream -/

theorem read_exactly_part_loop_eq (n : Nat) (eof : Bool) (chunks : List temporary_buffer)
    (buf out : temporary_buffer) (completed : Nat) :
    read_exactly_part_loop n eof chunks buf out completed =
      if completed + min (n - completed) buf.length = n then
        (std_copy (buf.take (min (n - completed) buf.length)) out completed,
          { _fd := { chunks := chunks }, _buf := buf.drop (min (n - completed) buf.length),
            _eof := eof })
      else
        match chunks with
        | [] => ([], { _fd := { chunks := [] },
                       _buf := buf.drop (min (n - completed) buf.length), _eof := eof })
        | c :: rest =>
          if c.length = 0 then
            (c, { _fd := { chunks := rest },
                  _buf := buf.drop (min (n - completed) buf.length), _eof := eof })
          else
            read_exactly_part_loop n eof rest c
              (std_copy (buf.take (min (n - completed) buf.length)) out completed)
              (completed + min (n - completed) buf.length) := by
  by_cases hb : buf.length = 0
  · have hnil : buf = [] := List.length_eq_zero.mp hb
    subst hnil
    cases chunks <;> simp [read_exactly_part_loop, std_copy_nil, temporary_buffer.trim_front]
  · cases chunks <;> simp [read_exactly_part_loop, hb, temporary_buffer.trim_front]

theorem read_exactly_part_loop_spec (n : Nat) (eof : Bool) :
    ∀ (chunks : List temporary_buffer) (buf out : temporary_buffer) (completed : Nat),
      completed ≤ n → out.length = n →
      n - completed ≤ (buf ++ data_source.data chunks).length →
      (read_exactly_part_loop n eof chunks buf out completed).1
          = out.take completed ++ (buf ++ data_source.data chunks).take (n - completed)
      ∧ (read_exactly_part_loop n eof chunks buf out completed).2.remaining
          = (buf ++ data_source.data chunks).drop (n - completed)
      ∧ (read_exactly_part_loop n eof chunks buf out completed).2._eof = eof := by
  intro chunks
  induction chunks with
  | nil =>
    intro buf out completed hc hout hlen
    rw [read_exactly_part_loop_eq]
    simp only [data_source.data, List.append_nil] at hlen ⊢
    have hmin : min (n - completed) buf.length = n - completed := Nat.min_eq_left hlen
    have hdone : completed + min (n - completed) buf.length = n := by omega
    rw [if_pos hdone, hmin]
    refine ⟨?_, ?_, rfl⟩
    · rw [std_copy_tail]
      simp only [List.length_take]
      omega
    · simp [input_stream.remaining, data_source.data]
  | cons c rest ih =>
    intro buf out completed hc hout hlen
    rw [read_exactly_part_loop_eq]
    by_cases hdone : completed + min (n - completed) buf.length = n
    · rw [if_pos hdone]
      have hle : n - completed ≤ buf.length := by omega
      have hmin : min (n - completed) buf.length = n - completed := Nat.min_eq_left hle
      rw [hmin]
      refine ⟨?_, ?_, rfl⟩
      · rw [std_copy_tail, List.take_append_of_le_length hle]
        simp only [List.length_take]
        omega
      · simp [input_stream.remaining, List.drop_append_of_le_length hle]
    · rw [if_neg hdone]
      have hlt : buf.length < n - completed := by omega
      have hmin : min (n - completed) buf.length = buf.length := Nat.min_eq_right (Nat.le_of_lt hlt)
      have hcne : c.length ≠ 0 := by
        intro h0
        simp [data_source.data, h0] at hlen
        omega
      simp only [hmin, if_neg hcne, List.take_length, List.drop_length]
      have hdata : data_source.data (c :: rest) = c ++ data_source.data rest := by
        simp [data_source.data, hcne]
      rw [hdata] at hlen ⊢
      have hlen2 : n - (completed + buf.length) ≤ (c ++ data_source.data rest).length := by
        simp only [List.length_append] at hlen ⊢
        omega
      have hout2 : (std_copy buf out completed).length = n := by
        rw [std_copy_length _ _ _ (by omega)]
        exact hout
      obtain ⟨h1, h2, h3⟩ := ih c (std_copy buf out completed) (completed + buf.length)
        (by omega) hout2 hlen2
      refine ⟨?_, ?_, h3⟩
      · rw [h1]
        have htk : List.take (completed + buf.length) (std_copy buf out completed)
            = List.take completed out ++ buf := by
          have : completed + buf.length = (List.take completed out ++ buf).length := by
            simp only [List.length_append, List.length_take]
            omega
          rw [std_copy, this, List.take_left]
        have hsub : n - (completed + buf.length) = n - completed - buf.length := by omega
        rw [htk, List.append_assoc, take_append_of_length_le buf _ _ (Nat.le_of_lt hlt), hsub]
      · have hsub : n - (completed + buf.length) = n - completed - buf.length := by omega
        rw [h2, drop_append_of_length_le buf _ _ (Nat.le_of_lt hlt), hsub]

theorem read_exactly_loop_spec (n : Nat) (eof : Bool) :
    ∀ (chunks : List temporary_buffer) (buf : temporary_buffer),
      n ≤ (buf ++ data_source.data chunks).length →
      (read_exactly_loop n eof chunks buf).1 = (buf ++ data_source.data chunks).take n
      ∧ (read_exactly_loop n eof chunks buf).2.remaining
          = (buf ++ data_source.data chunks).drop n := by
  have hpart : ∀ (chunks : List temporary_buffer) (buf : temporary_buffer),
      n ≤ (buf ++ data_source.data chunks).length →
      (read_exactly_part_loop n eof chunks buf (temporary_buffer.alloc n) 0).1
          = (buf ++ data_source.data chunks).take n
      ∧ (read_exactly_part_loop n eof chunks buf (temporary_buffer.alloc n) 0).2.remaining
          = (buf ++ data_source.data chunks).drop n := by
    intro chunks buf hlen
    obtain ⟨h1, h2, _⟩ := read_exactly_part_loop_spec n eof chunks buf
      (temporary_buffer.alloc n) 0 (Nat.zero_le n) (by simp [temporary_buffer.alloc])
      (by simpa using hlen)
    exact ⟨by simpa using h1, by simpa using h2⟩
  intro chunks
  induction chunks with
  | nil =>
    intro buf hlen
    unfold read_exactly_loop
    by_cases h1 : buf.length = n
    · subst h1
      simp [input_stream.remaining, data_source.data]
    · have hgt : buf.length > n := by
        simp only [data_source.data, List.append_nil] at hlen
        omega
      simp [h1, hgt, input_stream.remaining, data_source.data, temporary_buffer.share,
        temporary_buffer.trim_front, List.take_append_of_le_length (Nat.le_of_lt hgt),
        List.drop_append_of_le_length (Nat.le_of_lt hgt)]
  | cons c rest ih =>
    intro buf hlen
    unfold read_exactly_loop
    by_cases h1 : buf.length = n
    · subst h1
      simp [input_stream.remaining]
    · by_cases hgt : buf.length > n
      · simp [h1, hgt, input_stream.remaining, temporary_buffer.share,
          temporary_buffer.trim_front, List.take_append_of_le_length (Nat.le_of_lt hgt),
          List.drop_append_of_le_length (Nat.le_of_lt hgt)]
      · by_cases h0 : buf.length = 0
        · have hnil : buf = [] := List.length_eq_zero.mp h0
          subst hnil
          have hcne : c.length ≠ 0 := by
            intro hc0
            simp [data_source.data, hc0] at hlen
            exact h1 (by simp [hlen])
          have hdata : data_source.data (c :: rest) = c ++ data_source.data rest := by
            simp [data_source.data, hcne]
          rw [hdata] at hlen ⊢
          simp only [List.nil_append] at hlen ⊢
          have h1z : ¬ (0 = n) := by simpa using h1
          have hgz : ¬ (0 > n) := by simp
          simp only [List.length_nil, if_neg h1z, if_neg hgz, if_neg hcne, if_true]
          exact ih c hlen
        · simp only [if_neg h1, if_neg hgt, if_neg h0]
          exact hpart (c :: rest) buf hlen

/-! ## Claims on the streams -/

/-- C1 (the code loses bytes): on a stream of buffer size 4, `write` of 2 bytes followed by
`write` of 6 bytes takes the bulk path with a partly filled buffer; after `flush` the sink
has received `[1, 2]` and `[5, 6, 7, 8]` only, so bytes 3 and 4 of the data written never
reach the sink. -/
theorem output_stream_bulk_write_drops_bytes :
    ((example_output_stream.writes [[1, 2], [3, 4, 5, 6, 7, 8]]).flush)._fd.puts
        = [[1, 2], [5, 6, 7, 8]]
    ∧ ((example_output_stream.writes [[1, 2], [3, 4, 5, 6, 7, 8]]).flush)._fd.bytes
        ≠ [1, 2] ++ [3, 4, 5, 6, 7, 8] := by
  decide

/-- C2: when the data a stream still holds (look-ahead, then the non-empty chunks of the
source up to end of file) has at least `n` bytes, `read_exactly(n)` returns exactly the first
`n` of them and the stream afterwards holds exactly the rest, however the source splits the
data into chunks. -/
theorem read_exactly_returns_first_n (s : input_stream) (n : Nat)
    (h : n ≤ s.remaining.length) :
    (s.read_exactly n).1 = s.remaining.take n
    ∧ (s.read_exactly n).1.length = n
    ∧ (s.read_exactly n).2.remaining = s.remaining.drop n := by
  obtain ⟨h1, h2⟩ := read_exactly_loop_spec n s._eof s._fd.chunks s._buf h
  refine ⟨h1, ?_, h2⟩
  have h3 : (s.read_exactly n).1 = s.remaining.take n := h1
  rw [h3, List.length_take]
  exact Nat.min_eq_left h

/-- Witness for C2: six bytes read across the look-ahead and three chunks. -/
theorem read_exactly_returns_first_n_witness :
    6 ≤ example_input_stream.remaining.length
    ∧ (example_input_stream.read_exactly 6).1 = example_input_stream.remaining.take 6
    ∧ (example_input_stream.read_exactly 6).1.length = 6
    ∧ (example_input_stream.read_exactly 6).2.remaining
        = example_input_stream.remaining.drop 6 :=
  ⟨by decide, read_exactly_returns_first_n example_input_stream 6 (by decide)⟩

/-- C3 (the code drops the partial read): with look-ahead `[1, 2]` and the source at end of
file, `read_exactly(3)` returns an empty buffer, not the two bytes read, and the two bytes
are gone from the stream. -/
theorem read_exactly_eof_drops_partial :
    (example_input_stream_eof.read_exactly 3).1 = []
    ∧ (example_input_stream_eof.read_exactly 3).2.remaining = [] := by
  decide

/-- C4 (counterexample): a stream holding the two buffered bytes `[1, 2]` is closed; the sink
is closed without having received any buffer. -/
theorem output_stream_close_without_flush :
    (example_output_stream.write [1, 2])._end = 2
    ∧ ((example_output_stream.write [1, 2]).close)._fd.puts = []
    ∧ ((example_output_stream.write [1, 2]).close)._fd.closed = true := by
  decide

/-- C4 (amended): `close()` closes the sink and hands it nothing; the buffered bytes reach the
sink before it is closed when `flush()` is called first: `flush()` then `close()` hands the
sink exactly the buffered bytes, as one buffer, empties the stream buffer and closes the
sink. -/
theorem output_stream_flush_then_close (s : output_stream) (h : 0 < s._end) :
    s.close._fd.puts = s._fd.puts
    ∧ s.close._fd.closed = true
    ∧ s.close._end = s._end
    ∧ s.flush.close._fd.puts = s._fd.puts ++ [s._buf.take s._end]
    ∧ s.flush.close._fd.closed = true
    ∧ s.flush.close._end = 0 := by
  have hne : s._end ≠ 0 := Nat.pos_iff_ne_zero.mp h
  simp [output_stream.close, output_stream.flush, data_sink.close, data_sink.put,
    temporary_buffer.trim, hne]

/-- Witness for C4 (amended): the stream holding the two buffered bytes `[1, 2]`. -/
theorem output_stream_flush_then_close_witness :
    0 < (example_output_stream.write [1, 2])._end
    ∧ ((example_output_stream.write [1, 2]).flush.close)._fd.puts
        = (example_output_stream.write [1, 2])._fd.puts
            ++ [(example_output_stream.write [1, 2])._buf.take
                  (example_output_stream.write [1, 2])._end] :=
  ⟨by decide,
    (output_stream_flush_then_close (example_output_stream.write [1, 2]) (by decide)).2.2.2.1⟩

/-! ## Claims on cross-shard submission -/

/-- C5: when the target shard `t` is the calling shard, `submit_to(t, fn)` is one local call
of `fn`: the result is what `fn` returns, the shard's state is the one `fn` leaves after that
single call, and the queue matrix is not touched. A function returning a future hands back
that future, a function returning the value `v` a ready future holding `v`, a function
returning `void` a ready empty future; in particular `submit_to(self, || v)` resolves to
`v`. -/
theorem submit_to_self_runs_locally {σ E V : Type} (s : smp σ E V) (u : smp σ E Unit)
    (t : Nat) (hs : t = s.cpu_id) (hu : t = u.cpu_id) :
    (∀ func : Func σ E (future E V),
        s.submit_to t func = ((func s.engine).1, { s with engine := (func s.engine).2 }))
    ∧ (∀ (func : Func σ E V) (v : V) (st : σ), func s.engine = (Except.ok v, st) →
        s.submit_to_value t func = (Except.ok (future.value v), { s with engine := st }))
    ∧ (∀ (func : Func σ E Unit) (st : σ), func u.engine = (Except.ok (), st) →
        u.submit_to_void t func = (Except.ok (future.value ()), { u with engine := st }))
    ∧ (∀ v : V, s.submit_to_value t (fun st => (Except.ok v, st))
        = (Except.ok (future.value v), s)) := by
  refine ⟨?_, ?_, ?_, ?_⟩
  · intro func
    simp [smp.submit_to, hs]
  · intro func v st hf
    simp [smp.submit_to_value, smp.submit_to, hs, hf, make_ready_future]
  · intro func st hf
    simp [smp.submit_to_void, smp.submit_to, hu, hf, make_ready_future]
  · intro v
    simp [smp.submit_to_value, smp.submit_to, hs, make_ready_future]

/-- Witness for C5: on shard 0 a function that counts its calls and returns 7 is submitted to
shard 0; the caller gets a ready future holding 7 and the call counter is 1. -/
theorem submit_to_self_runs_locally_witness :
    0 = (example_smp Nat).cpu_id
    ∧ ((example_smp Nat).submit_to_value 0 example_func).1 = Except.ok (future.value 7)
    ∧ ((example_smp Nat).submit_to_value 0 example_func).2.engine = 1 :=
  ⟨rfl,
    by rw [(submit_to_self_runs_locally (example_smp Nat) (example_smp Unit) 0 rfl rfl).2.1
      example_func 7 1 rfl],
    by rw [(submit_to_self_runs_locally (example_smp Nat) (example_smp Unit) 0 rfl rfl).2.1
      example_func 7 1 rfl]⟩

/-- C6: for a freshly built work item, `process()` followed by `complete()` resolves the
caller's promise with the outcome of the shipped function: with `v` when the function's
future resolved with `v`, with the exception `e` when the function threw `e` or its future
failed with `e`; in each case the future of `process()` is resolved, so that `complete()` is
reached. -/
theorem async_work_item_outcome {E V : Type} (v : V) (e : E) :
    ((async_work_item.mk_item (fun _ => Except.ok (future.value v) : Unit → Except E (future E V))).process.2
        = future.value ()
      ∧ ((async_work_item.mk_item (fun _ => Except.ok (future.value v) : Unit → Except E (future E V))).process.1.complete).map
          async_work_item.get_future = some (future.value v))
    ∧ ((async_work_item.mk_item (fun _ => Except.error e : Unit → Except E (future E V))).process.2
        = future.value ()
      ∧ ((async_work_item.mk_item (fun _ => Except.error e : Unit → Except E (future E V))).process.1.complete).map
          async_work_item.get_future = some (future.exception (some e)))
    ∧ ((async_work_item.mk_item (fun _ => Except.ok (future.exception e) : Unit → Except E (future E V))).process.2
        = future.value ()
      ∧ ((async_work_item.mk_item (fun _ => Except.ok (future.exception e) : Unit → Except E (future E V))).process.1.complete).map
          async_work_item.get_future = some (future.exception (some e))) := by
  refine ⟨⟨rfl, rfl⟩, ⟨rfl, rfl⟩, ⟨rfl, rfl⟩⟩

/-- When the futures of all items in processing resolve, oldest first, the items enter the
response ring in that order. -/
theorem smp_message_queue_respond_all_eq {W : Type} (l : List W) :
    ∀ q : smp_message_queue W, q.processing = l →
      l.foldl (fun q1 _ => q1.respond 0) q
        = { q with processing := [], _completed := q._completed ++ l } := by
  induction l with
  | nil =>
    intro q hq
    cases q
    simp only [] at hq
    simp [hq]
  | cons a t ih =>
    intro q hq
    have hstep : q.respond 0 = { q with processing := t, _completed := q._completed ++ [a] } := by
      simp [smp_message_queue.respond, hq]
    rw [List.foldl_cons, hstep, ih _ rfl]
    simp

theorem smp_message_queue_respond_all {W : Type} (q : smp_message_queue W) :
    q.respond_all = { q with processing := [], _completed := q._completed ++ q.processing } :=
  smp_message_queue_respond_all_eq q.processing q rfl

theorem smp_message_queue_move_pending_consistent {W : Type} (q : smp_message_queue W)
    (h : q.consistent) : q.move_pending.consistent := by
  obtain ⟨h1, h2⟩ := h
  simp only [smp_message_queue.consistent, smp_message_queue.move_pending,
    List.length_append, List.length_take] at *
  omega

theorem smp_message_queue_step_consistent {W : Type} (q : smp_message_queue W)
    (ev : queue_event W) (h : q.consistent) : (q.step ev).consistent := by
  cases ev with
  | submit wi =>
    exact smp_message_queue_move_pending_consistent _ h
  | incoming =>
    obtain ⟨h1, h2⟩ := h
    simp only [smp_message_queue.consistent, smp_message_queue.step,
      smp_message_queue.process_incoming, List.length_append, List.length_nil] at *
    omega
  | resolve i =>
    obtain ⟨h1, h2⟩ := h
    simp only [smp_message_queue.step, smp_message_queue.respond]
    cases hi : q.processing[i]? with
    | none => exact ⟨h1, h2⟩
    | some wi =>
      have hlt : i < q.processing.length := by
        by_contra hge
        rw [List.getElem?_eq_none (by omega)] at hi
        cases hi
      have h1a : q._current_queue_length
          = q._pending.length + q.processing.length + q._completed.length := h1
      refine ⟨?_, h2⟩
      show q._current_queue_length
        = q._pending.length + (q.processing.eraseIdx i).length + (q._completed ++ [wi]).length
      simp only [List.length_append, List.length_eraseIdx, hlt, if_true,
        List.length_singleton]
      omega
  | completions =>
    apply smp_message_queue_move_pending_consistent
    obtain ⟨h1, h2⟩ := h
    refine ⟨?_, ?_⟩
    · show q._current_queue_length - q._completed.length
        = q._pending.length + q.processing.length + ([] : List W).length
      simp only [List.length_nil]
      omega
    · show q._current_queue_length - q._completed.length ≤ smp_message_queue.queue_length
      omega

theorem smp_message_queue_run_consistent {W : Type} (evs : List (queue_event W)) :
    ∀ q : smp_message_queue W, q.consistent → (q.run evs).consistent := by
  induction evs with
  | nil => intro q h; exact h
  | cons ev evs ih =>
    intro q h
    exact ih _ (smp_message_queue_step_consistent q ev h)

theorem smp_message_queue_reachable_consistent (W : Type) (evs : List (queue_event W)) :
    ((smp_message_queue.empty W).run evs).consistent :=
  smp_message_queue_run_consistent evs _ ⟨rfl, Nat.zero_le _⟩

theorem smp_message_queue_submit_item_keeps_order {W : Type} (q : smp_message_queue W)
    (wi : W) :
    (q.submit_item wi)._pending ++ (q.submit_item wi)._pending_fifo
      = q._pending ++ q._pending_fifo ++ [wi] := by
  simp only [smp_message_queue.submit_item, smp_message_queue.move_pending,
    List.append_assoc, List.take_append_drop]

theorem smp_message_queue_submit_item_consistent {W : Type} (q : smp_message_queue W)
    (wi : W) (h : q.consistent) : (q.submit_item wi).consistent :=
  smp_message_queue_step_consistent q (queue_event.submit wi) h

theorem smp_message_queue_submit_item_fifo_length {W : Type} (q : smp_message_queue W)
    (wi : W) : (q.submit_item wi)._pending_fifo.length ≤ q._pending_fifo.length + 1 := by
  simp only [smp_message_queue.submit_item, smp_message_queue.move_pending,
    List.length_drop, List.length_append, List.length_singleton]
  omega

theorem queue_round_eq {σ E V : Type} (st : σ) (q : smp_message_queue (Func σ E (future E V)))
    (h : q.consistent) :
    queue_round st q
      = (q._pending.foldl (fun st1 func => (func st1).2) st,
         { _pending := q._pending_fifo.take (min smp_message_queue.queue_length
                                               q._pending_fifo.length),
           _completed := [],
           _current_queue_length := min smp_message_queue.queue_length q._pending_fifo.length,
           _pending_fifo := q._pending_fifo.drop (min smp_message_queue.queue_length
                                                    q._pending_fifo.length),
           processing := [] }) := by
  obtain ⟨h1, h2⟩ := h
  have hlen : q._current_queue_length
      - (q._completed ++ (q.processing ++ q._pending)).length = 0 := by
    simp only [List.length_append]
    omega
  simp only [queue_round, smp_message_queue_respond_all, smp_message_queue.process_incoming,
    smp_message_queue.process_completions, smp_message_queue.move_pending, hlen,
    Nat.sub_zero, List.nil_append, Nat.zero_add]

theorem queue_rounds_idle {σ E V : Type} (k : Nat) :
    ∀ (st : σ) (q : smp_message_queue (Func σ E (future E V))), q.consistent →
      q._pending = [] → q._pending_fifo = [] → (queue_rounds k st q).1 = st := by
  induction k with
  | zero => intro st q _ _ _; rfl
  | succ k ih =>
    intro st q h hr hf
    rw [queue_rounds, queue_round_eq st q h]
    simp only [hr, hf, List.foldl_nil, List.length_nil, Nat.min_zero, List.take_nil,
      List.drop_nil]
    exact ih _ _ ⟨rfl, Nat.zero_le _⟩ rfl rfl

theorem queue_rounds_drain {σ E V : Type} (k : Nat) :
    ∀ (st : σ) (q : smp_message_queue (Func σ E (future E V))), q.consistent →
      q._pending_fifo.length + 1 ≤ k →
      (queue_rounds k st q).1
        = (q._pending ++ q._pending_fifo).foldl (fun st1 func => (func st1).2) st := by
  induction k with
  | zero => intro st q _ hk; omega
  | succ k ih =>
    intro st q h hk
    rw [queue_rounds, queue_round_eq st q h]
    simp only []
    have hnext : (⟨q._pending_fifo.take (min smp_message_queue.queue_length
          q._pending_fifo.length), [],
        min smp_message_queue.queue_length q._pending_fifo.length,
        q._pending_fifo.drop (min smp_message_queue.queue_length q._pending_fifo.length),
        []⟩ : smp_message_queue (Func σ E (future E V))).consistent := by
      refine ⟨?_, Nat.min_le_left _ _⟩
      simp only [List.length_take, List.length_nil]
      omega
    by_cases hf : q._pending_fifo = []
    · rw [queue_rounds_idle k _ _ hnext (by simp [hf]) (by simp [hf])]
      simp [hf]
    · have hpos : 0 < q._pending_fifo.length := List.length_pos.2 hf
      have h128 : 0 < smp_message_queue.queue_length := by decide
      rw [ih _ _ hnext (by simp only [List.length_drop]; omega)]
      simp only [List.take_append_drop, List.foldl_append]

/-! ## Claims on the timers -/

theorem timer_set_insert_count_self (expiry : Nat → Nat) (t : Nat) (set : List Nat) :
    (timer_set_insert expiry t set).count t = set.count t + 1 := by
  induction set with
  | nil => simp [timer_set_insert]
  | cons x xs ih =>
    by_cases hx : expiry x ≤ expiry t
    · simp only [timer_set_insert, if_pos hx, List.count_cons, ih]
      omega
    · simp [timer_set_insert, if_neg hx, List.count_cons]

theorem timer_set_insert_count_other (expiry : Nat → Nat) (t x : Nat) (set : List Nat)
    (hne : x ≠ t) : (timer_set_insert expiry t set).count x = set.count x := by
  induction set with
  | nil => simp [timer_set_insert, List.count_cons, hne.symm]
  | cons y ys ih =>
    by_cases hy : expiry y ≤ expiry t
    · simp only [timer_set_insert, if_pos hy, List.count_cons, ih]
    · simp [timer_set_insert, if_neg hy, List.count_cons, hne.symm]

theorem timer_set_insert_mem (expiry : Nat → Nat) (t : Nat) (set : List Nat) :
    t ∈ timer_set_insert expiry t set := by
  rw [← List.count_pos_iff, timer_set_insert_count_self]
  omega

theorem timer_set_insert_mem_other (expiry : Nat → Nat) (t x : Nat) (set : List Nat)
    (hne : x ≠ t) : x ∈ timer_set_insert expiry t set ↔ x ∈ set := by
  rw [← List.count_pos_iff, ← List.count_pos_iff, timer_set_insert_count_other _ _ _ _ hne]

/-- C8: on a timer that agrees with the timer set, `cancel()` returns `true` exactly when
the timer was armed; afterwards the timer is not armed and is not in the reactor's timer
set (it cannot fire); a second `cancel()` returns `false` and leaves the whole state as it
is. -/
theorem timer_cancel_spec (r : reactor) (t : Nat) (h : timer.consistent r t) :
    (timer.cancel r t).1 = (r.timer_at t)._armed
    ∧ ((timer.cancel r t).2.timer_at t)._armed = false
    ∧ t ∉ (timer.cancel r t).2._timers
    ∧ timer.cancel (timer.cancel r t).2 t = (false, (timer.cancel r t).2) := by
  obtain ⟨hcount, hmem⟩ := h
  by_cases ha : (r.timer_at t)._armed = true
  · by_cases hq : (r.timer_at t)._queued = true
    · have hnot : t ∉ List.erase r._timers t := by
        rw [← List.count_eq_zero, List.count_erase_self]
        omega
      simp [timer.cancel, ha, hq, reactor.set_timer, reactor.del_timer, timer_set_remove, hnot]
    · have hnot : t ∉ r._timers := fun hin => hq (hmem hin).2
      simp [timer.cancel, ha, hq, reactor.set_timer, hnot]
  · have hnot : t ∉ r._timers := fun hin => ha (hmem hin).1
    simp [timer.cancel, ha, hnot]

/-- Witness for C8: the armed and queued timer 0 of the example reactor is cancelled. -/
theorem timer_cancel_spec_witness :
    timer.consistent example_reactor 0
    ∧ (timer.cancel example_reactor 0).1 = true
    ∧ 0 ∉ (timer.cancel example_reactor 0).2._timers
    ∧ timer.cancel (timer.cancel example_reactor 0).2 0
        = (false, (timer.cancel example_reactor 0).2) :=
  ⟨⟨by decide, fun _ => ⟨rfl, rfl⟩⟩,
    (timer_cancel_spec example_reactor 0 ⟨by decide, fun _ => ⟨rfl, rfl⟩⟩).1,
    (timer_cancel_spec example_reactor 0 ⟨by decide, fun _ => ⟨rfl, rfl⟩⟩).2.2.1,
    (timer_cancel_spec example_reactor 0 ⟨by decide, fun _ => ⟨rfl, rfl⟩⟩).2.2.2⟩

/-- C9: `arm(until, period)` fails its assertion exactly when the timer is already armed; on
a timer that is not armed it succeeds and leaves the timer armed, queued, in the reactor's
timer set, not expired, with expiry `until` and period `period`; `rearm(until, period)`
never fails. -/
theorem timer_arm_spec (r : reactor) (t until_ : Nat) (period : Option Nat) :
    (timer.arm r t until_ period = none ↔ (r.timer_at t)._armed = true)
    ∧ ((r.timer_at t)._armed = false →
        ∃ r1, timer.arm r t until_ period = some r1
          ∧ (r1.timer_at t)._armed = true
          ∧ (r1.timer_at t)._queued = true
          ∧ t ∈ r1._timers
          ∧ (r1.timer_at t)._expired = false
          ∧ (r1.timer_at t)._expiry = until_
          ∧ (r1.timer_at t)._period = period)
    ∧ (timer.rearm r t until_ period).isSome = true := by
  refine ⟨?_, ?_, ?_⟩
  · by_cases ha : (r.timer_at t)._armed = true <;> simp [timer.arm, ha]
  · intro ha
    refine ⟨_, by simp only [timer.arm, ha]; rfl, ?_⟩
    simp [reactor.set_timer, reactor.add_timer, timer_set_insert_mem]
  · by_cases ha : (r.timer_at t)._armed = true
    · by_cases hq : (r.timer_at t)._queued = true <;>
        simp [timer.rearm, timer.arm, timer.cancel, ha, hq, reactor.set_timer,
          reactor.del_timer]
    · simp [timer.rearm, timer.arm, ha]

/-- Witness for C9: timer 0 of a reactor in which no timer was armed is armed for time 5. -/
theorem timer_arm_spec_witness :
    (reactor.init.timer_at 0)._armed = false
    ∧ ∃ r1, timer.arm reactor.init 0 5 none = some r1
          ∧ (r1.timer_at 0)._armed = true
          ∧ (r1.timer_at 0)._queued = true
          ∧ 0 ∈ r1._timers
          ∧ (r1.timer_at 0)._expired = false
          ∧ (r1.timer_at 0)._expiry = 5
          ∧ (r1.timer_at 0)._period = none :=
  ⟨rfl, (timer_arm_spec reactor.init 0 5 none).2.1 rfl⟩

theorem timer_cancel_inv (r : reactor) (t : Nat) (h : r.timers_inv) :
    (timer.cancel r t).2.timers_inv := by
  intro x
  obtain ⟨hc, hm, hq⟩ := h x
  obtain ⟨hct, hmt, hqt⟩ := h t
  simp only [timer.armed] at hq hqt
  by_cases ha : (r.timer_at t)._armed = true
  · have hqueued : (r.timer_at t)._queued = true := hqt.mpr ha
    by_cases hx : x = t
    · subst hx
      have hnot : x ∉ List.erase r._timers x := by
        rw [← List.count_eq_zero, List.count_erase_self]
        omega
      have hzero : List.count x (List.erase r._timers x) = 0 := List.count_eq_zero.mpr hnot
      simp [timer.cancel, ha, hqueued, reactor.set_timer, reactor.del_timer, timer_set_remove,
        timer.armed, hnot, hzero]
    · have hcnt : List.count x (List.erase r._timers t) = List.count x r._timers :=
        List.count_erase_of_ne hx _
      have hmem : x ∈ List.erase r._timers t ↔ x ∈ r._timers := by
        rw [← List.count_pos_iff, ← List.count_pos_iff, hcnt]
      simp only [timer.cancel, ha, hqueued, reactor.set_timer, reactor.del_timer,
        timer_set_remove, timer.armed, Bool.not_true, Bool.false_eq_true, if_false,
        Function.update_same, if_true, Function.update_idem, Function.update_noteq hx, hcnt,
        hmem]
      exact ⟨hc, hm, hq⟩
  · have hsame : timer.cancel r t = (false, r) := by simp [timer.cancel, ha]
    rw [hsame]
    exact ⟨hc, hm, hq⟩

theorem timer_arm_inv (r r1 : reactor) (t until_ : Nat) (period : Option Nat)
    (h : r.timers_inv) (harm : timer.arm r t until_ period = some r1) : r1.timers_inv := by
  intro x
  obtain ⟨hc, hm, hq⟩ := h x
  obtain ⟨hct, hmt, hqt⟩ := h t
  simp only [timer.armed] at hq hqt
  by_cases ha : (r.timer_at t)._armed = true
  · simp [timer.arm, ha] at harm
  · simp only [timer.arm, ha, Bool.false_eq_true, if_false, Option.some.injEq] at harm
    subst harm
    have hnq : ¬ (r.timer_at t)._queued = true := fun hqq => ha (hqt.mp hqq)
    have hnm : t ∉ r._timers := fun hin => hnq (hmt.mp hin)
    by_cases hx : x = t
    · subst hx
      have hz : List.count x r._timers = 0 := List.count_eq_zero.mpr hnm
      simp [reactor.set_timer, reactor.add_timer, timer.armed, timer_set_insert_mem,
        timer_set_insert_count_self, hz]
    · simp only [reactor.set_timer, reactor.add_timer, timer.armed, Function.update_same,
        Function.update_idem, Function.update_noteq hx,
        timer_set_insert_count_other _ _ _ _ hx, timer_set_insert_mem_other _ _ _ _ hx]
      exact ⟨hc, hm, hq⟩

theorem timer_call_apply_inv (r r1 : reactor) (c : timer_call) (h : r.timers_inv)
    (hc : c.apply r = some r1) : r1.timers_inv := by
  cases c with
  | arm t until_ period => exact timer_arm_inv r r1 t until_ period h hc
  | rearm t until_ period =>
    simp only [timer_call.apply, timer.rearm] at hc
    by_cases ha : (r.timer_at t)._armed = true
    · rw [if_pos ha] at hc
      exact timer_arm_inv _ r1 t until_ period (timer_cancel_inv r t h) hc
    · rw [if_neg ha] at hc
      exact timer_arm_inv r r1 t until_ period h hc
  | cancel t =>
    simp only [timer_call.apply, Option.some.injEq] at hc
    subst hc
    exact timer_cancel_inv r t h

theorem timer_call_run_inv (calls : List timer_call) :
    ∀ r r1 : reactor, r.timers_inv → timer_call.run r calls = some r1 → r1.timers_inv := by
  induction calls with
  | nil =>
    intro r r1 h hrun
    simp only [timer_call.run, Option.some.injEq] at hrun
    subst hrun
    exact h
  | cons c cs ih =>
    intro r r1 h hrun
    simp only [timer_call.run] at hrun
    cases hc : c.apply r with
    | none => simp [hc] at hrun
    | some r2 =>
      simp only [hc] at hrun
      exact ih r2 r1 (timer_call_apply_inv r r2 c h hc) hrun

theorem reactor_init_inv : reactor.init.timers_inv := by
  intro t
  simp [reactor.init, timer.fresh, timer.armed]

/-- C10: after every sequence of `arm`, `rearm` and `cancel` calls that does not abort,
started in a reactor in which no timer was armed, every timer is in the reactor's timer set
at most once, is in the set exactly when its `_queued` flag is set, and has `_queued` set
exactly when `armed()` is true. -/
theorem timer_calls_keep_one_pending_expiry (calls : List timer_call) (r : reactor)
    (h : timer_call.run reactor.init calls = some r) (t : Nat) :
    r._timers.count t ≤ 1
    ∧ (t ∈ r._timers ↔ (r.timer_at t)._queued = true)
    ∧ ((r.timer_at t)._queued = true ↔ timer.armed r t = true) :=
  timer_call_run_inv calls reactor.init r reactor_init_inv h t

/-- Witness for C10: arm, rearm, cancel and arm again on timer 0 do not abort, and timer 0
then is in the timer set once, queued and armed. -/
theorem timer_calls_keep_one_pending_expiry_witness :
    ∃ r, timer_call.run reactor.init example_timer_calls = some r
      ∧ r._timers.count 0 ≤ 1
      ∧ (0 ∈ r._timers ↔ (r.timer_at 0)._queued = true)
      ∧ ((r.timer_at 0)._queued = true ↔ timer.armed r 0 = true) := by
  have hs : (timer_call.run reactor.init example_timer_calls).isSome = true := by decide
  cases h : timer_call.run reactor.init example_timer_calls with
  | none => rw [h] at hs; exact absurd hs (by decide)
  | some r => exact ⟨r, rfl, timer_calls_keep_one_pending_expiry example_timer_calls r h 0⟩

/-! ## Claims on exit hooks and foreign pointers -/

theorem at_exit_all_fire {H : Type} (hooks : List H) :
    ∀ r : reactor_exit H,
      (r.at_exit_all hooks).run_exit_tasks
        = r.run_exit_tasks
          ++ (hooks.map (fun h => [hook_event.started h, hook_event.resolved h])).flatten := by
  induction hooks with
  | nil => intro r; simp [reactor_exit.at_exit_all]
  | cons h hs ih =>
    intro r
    rw [reactor_exit.at_exit_all, ih]
    simp [reactor_exit.at_exit, reactor_exit.run_exit_tasks, chained_future.fire]

/-- C11 (counterexample): hooks 1 and 2 are registered in that order; at exit hook 1 runs
first and hook 2 second, not in reverse. -/
theorem at_exit_runs_in_registration_order_example :
    (((reactor_exit.init Nat).at_exit 1).at_exit 2).run_exit_tasks
      = [hook_event.started 1, hook_event.resolved 1,
         hook_event.started 2, hook_event.resolved 2]
    ∧ (((reactor_exit.init Nat).at_exit 1).at_exit 2).run_exit_tasks
      ≠ [hook_event.started 2, hook_event.resolved 2,
         hook_event.started 1, hook_event.resolved 1] := by
  decide

/-- C11 (amended): hooks registered with `at_exit` in the order h1, ..., hk run at exit in
that same order h1, ..., hk, and each hook's future has resolved before the next hook is
started. -/
theorem at_exit_runs_in_registration_order {H : Type} (hooks : List H) :
    ((reactor_exit.init H).at_exit_all hooks).run_exit_tasks
      = (hooks.map (fun h => [hook_event.started h, hook_event.resolved h])).flatten := by
  rw [at_exit_all_fire]
  simp [reactor_exit.run_exit_tasks, reactor_exit.init, chained_future.fire]

theorem smp_system_round_eq {σ E V : Type} (sys : smp_system σ E V) (dst src : Nat) :
    sys.round dst src
      = { shard := Function.update sys.shard dst
            (queue_round (sys.shard dst) (sys._qs dst src)).1,
          _qs := Function.update sys._qs dst
            (Function.update (sys._qs dst) src
              (queue_round (sys.shard dst) (sys._qs dst src)).2) } := by
  simp [smp_system.round, smp_system.poll, smp_system.respond_all, smp_system.complete,
    queue_round]

theorem smp_system_rounds_shard {σ E V : Type} (dst src : Nat) (k : Nat) :
    ∀ sys : smp_system σ E V,
      (sys.rounds dst src k).shard dst
          = (queue_rounds k (sys.shard dst) (sys._qs dst src)).1
      ∧ ∀ c, c ≠ dst → (sys.rounds dst src k).shard c = sys.shard c := by
  induction k with
  | zero => intro sys; exact ⟨rfl, fun _ _ => rfl⟩
  | succ k ih =>
    intro sys
    obtain ⟨h1, h2⟩ := ih (sys.round dst src)
    rw [smp_system.rounds, queue_rounds]
    refine ⟨?_, ?_⟩
    · rw [h1, smp_system_round_eq]
      simp
    · intro c hc
      rw [h2 c hc, smp_system_round_eq]
      simp [Function.update_noteq hc]

/-- C12: a non-null `foreign_ptr` made on shard X records X and keeps it when moved (the
moved-from object is null and its destructor does nothing). Destroyed on shard Y = X, its
pointer is released at once on X and no queue is touched. Destroyed on a shard Y other than
X, in any state of the queues, the destructor itself releases nothing on any shard and
changes only the queue from Y to X, to which it submits a task that releases the pointer on
the shard that runs it: the task is queued behind the items already queued there and is
never dropped. Once the items ahead of it have been run and completed (turns of the queue:
X polls, the futures resolve, Y polls), the pointer is released on X, after those items,
and nothing is released on any other shard; with a free slot and nothing waiting, the first
poll of X releases it. -/
theorem foreign_ptr_released_on_origin {P E : Type} (sys : smp_system (List P) E Unit)
    (X Y : Nat) (p : P) :
    (foreign_ptr.wrap X p)._cpu = X
    ∧ (foreign_ptr.wrap X p).move.1 = foreign_ptr.wrap X p
    ∧ (foreign_ptr.wrap X p).move.2.destroy (sys.on_shard Y) = sys.on_shard Y
    ∧ (Y = X →
        ((foreign_ptr.wrap X p).destroy (sys.on_shard Y)).engine = sys.shard X ++ [p]
        ∧ ((foreign_ptr.wrap X p).destroy (sys.on_shard Y))._qs = sys._qs)
    ∧ (Y ≠ X →
        ∃ task : Func (List P) E (future E Unit),
          (∀ st, task st = (Except.ok (make_ready_future ()), st ++ [p]))
          ∧ (sys.destroy_foreign_ptr (foreign_ptr.wrap X p) Y).shard = sys.shard
          ∧ (∀ d s, ¬ (d = X ∧ s = Y) →
              (sys.destroy_foreign_ptr (foreign_ptr.wrap X p) Y)._qs d s = sys._qs d s)
          ∧ (sys.destroy_foreign_ptr (foreign_ptr.wrap X p) Y)._qs X Y
              = (sys._qs X Y).submit_item task
          ∧ ((sys.destroy_foreign_ptr (foreign_ptr.wrap X p) Y)._qs X Y)._pending
                ++ ((sys.destroy_foreign_ptr (foreign_ptr.wrap X p) Y)._qs X Y)._pending_fifo
              = (sys._qs X Y)._pending ++ (sys._qs X Y)._pending_fifo ++ [task]
          ∧ ((sys._qs X Y).consistent →
              ∀ k, (sys._qs X Y)._pending_fifo.length + 2 ≤ k →
                ((sys.destroy_foreign_ptr (foreign_ptr.wrap X p) Y).rounds X Y k).shard X
                    = (sys.rounds X Y k).shard X ++ [p]
                ∧ ∀ c, c ≠ X →
                    ((sys.destroy_foreign_ptr (foreign_ptr.wrap X p) Y).rounds X Y k).shard c
                      = sys.shard c)
          ∧ ((sys._qs X Y)._pending_fifo = [] →
              (sys._qs X Y)._current_queue_length < smp_message_queue.queue_length →
                ((sys.destroy_foreign_ptr (foreign_ptr.wrap X p) Y).poll X Y).shard X
                    = (sys.poll X Y).shard X ++ [p]
                ∧ ((sys.destroy_foreign_ptr (foreign_ptr.wrap X p) Y).poll X Y).shard Y
                    = sys.shard Y)) := by
  refine ⟨rfl, rfl, rfl, ?_, ?_⟩
  · intro hxy
    subst hxy
    simp [foreign_ptr.destroy, foreign_ptr.wrap, foreign_ptr.on_origin, smp_system.on_shard]
  · intro hxy
    have hyx : ¬ X = Y := fun h => hxy h.symm
    have hdestroy : (foreign_ptr.wrap X p).destroy (sys.on_shard Y)
        = ((sys.on_shard Y).submit_to_void X (foreign_ptr.release_task p)).2 := by
      simp [foreign_ptr.destroy, foreign_ptr.wrap, foreign_ptr.on_origin, smp_system.on_shard,
        hxy]
    have hshard : (sys.destroy_foreign_ptr (foreign_ptr.wrap X p) Y).shard = sys.shard := by
      rw [smp_system.destroy_foreign_ptr, hdestroy]
      simp [smp_system.store, smp_system.on_shard, smp.submit_to_void, smp.submit_to, hyx]
    have hqueue : (sys.destroy_foreign_ptr (foreign_ptr.wrap X p) Y)._qs X Y
        = (sys._qs X Y).submit_item
            (fun st => (Except.ok (make_ready_future ()), st ++ [p])) := by
      rw [smp_system.destroy_foreign_ptr, hdestroy]
      simp [smp_system.store, smp_system.on_shard, smp.submit_to_void, smp.submit_to, hyx,
        smp_message_queue.submit, foreign_ptr.release_task]
    refine ⟨fun st => (Except.ok (make_ready_future ()), st ++ [p]), fun _ => rfl, hshard,
      ?_, hqueue, ?_, ?_, ?_⟩
    · intro d s hds
      rw [smp_system.destroy_foreign_ptr, hdestroy]
      simp only [smp_system.store, smp_system.on_shard, smp.submit_to_void, smp.submit_to,
        if_neg hyx]
      by_cases hd : d = X
      · subst hd
        have hs : s ≠ Y := fun h => hds ⟨rfl, h⟩
        simp [Function.update_noteq hs]
      · simp [Function.update_noteq hd]
    · rw [hqueue]
      exact smp_message_queue_submit_item_keeps_order _ _
    · intro hcons k hk
      have hcons1 := smp_message_queue_submit_item_consistent (sys._qs X Y)
        (fun st => (Except.ok (make_ready_future ()), st ++ [p])) hcons
      have hlen := smp_message_queue_submit_item_fifo_length (sys._qs X Y)
        (fun st => ((Except.ok (make_ready_future ()) : Except E (future E Unit)), st ++ [p]))
      have horder := smp_message_queue_submit_item_keeps_order (sys._qs X Y)
        (fun st => ((Except.ok (make_ready_future ()) : Except E (future E Unit)), st ++ [p]))
      obtain ⟨h1, h2⟩ := smp_system_rounds_shard X Y k
        (sys.destroy_foreign_ptr (foreign_ptr.wrap X p) Y)
      obtain ⟨g1, _⟩ := smp_system_rounds_shard X Y k sys
      refine ⟨?_, ?_⟩
      · rw [h1, g1, hqueue, hshard,
          queue_rounds_drain k _ _ hcons1 (by omega),
          queue_rounds_drain k _ _ hcons (by omega), horder, List.foldl_append]
        rfl
      · intro c hc
        rw [h2 c hc, hshard]
    · intro hfifo hroom
      have hring : ((sys._qs X Y).submit_item
          (fun st => ((Except.ok (make_ready_future ()) : Except E (future E Unit)),
            st ++ [p])))._pending
          = (sys._qs X Y)._pending
            ++ [fun st => (Except.ok (make_ready_future ()), st ++ [p])] := by
        have hmin : min (smp_message_queue.queue_length - (sys._qs X Y)._current_queue_length)
            1 = 1 := by omega
        simp [smp_message_queue.submit_item, smp_message_queue.move_pending, hfifo, hmin]
      refine ⟨?_, ?_⟩
      · simp only [smp_system.poll, Function.update_same, hqueue, hshard, hring,
          List.foldl_append, List.foldl_cons, List.foldl_nil]
      · simp only [smp_system.poll, hshard, Function.update_noteq hxy]

/-- Witness for C12: a pointer wrapped on shard 2 is destroyed on shard 2, and one is
destroyed on shard 0 while the queue from shard 0 to shard 2 is full. In the second case the
first poll of shard 2 releases nothing; once the queue has turned twice the pointer is
released on shard 2, where nothing else was released, and on no other shard. -/
theorem foreign_ptr_released_on_origin_witness :
    ((foreign_ptr.wrap 2 7).destroy (example_full_system.on_shard 2)).engine = [7]
    ∧ (((example_full_system.destroy_foreign_ptr (foreign_ptr.wrap 2 7) 0).rounds 2 0 2).shard 2
          = (example_full_system.rounds 2 0 2).shard 2 ++ [7]
        ∧ ∀ c, c ≠ 2 →
            ((example_full_system.destroy_foreign_ptr (foreign_ptr.wrap 2 7) 0).rounds 2 0
                2).shard c
              = example_full_system.shard c)
    ∧ ((example_full_system.destroy_foreign_ptr (foreign_ptr.wrap 2 7) 0).poll 2 0).shard 2 = []
    ∧ (example_full_system.rounds 2 0 2).shard 2 = [] :=
  ⟨((foreign_ptr_released_on_origin example_full_system 2 2 7).2.2.2.1 rfl).1,
    match (foreign_ptr_released_on_origin example_full_system 2 0 7).2.2.2.2 (by decide) with
    | ⟨_, _, _, _, _, _, hrounds, _⟩ =>
      hrounds (by simp [smp_message_queue.consistent, example_full_system,
        smp_message_queue.queue_length]) 2 (by simp [example_full_system]),
    rfl,
    by
      rw [(smp_system_rounds_shard 2 0 2 example_full_system).1,
        queue_rounds_drain 2 _ _
          (by simp [smp_message_queue.consistent, example_full_system,
            smp_message_queue.queue_length])
          (by simp [example_full_system])]
      simp [example_full_system]⟩

/-! ## Claims on distributed services -/

theorem parallel_for_each_counted_range' {M : Type} (func : Nat → Nat → M → M) :
    ∀ (n i : Nat) (m : M), i + n ≤ unsigned_max →
      parallel_for_each_counted func n i (i % unsigned_max) m
        = (List.range' i n).foldl (fun m1 j => func j j m1) m := by
  intro n
  induction n with
  | zero => intro i m _; simp [parallel_for_each_counted]
  | succ n ih =>
    intro i m h
    have hi : i % unsigned_max = i := Nat.mod_eq_of_lt (by omega)
    rw [parallel_for_each_counted, hi, ih (i + 1) _ (by omega), List.range'_succ,
      List.foldl_cons]

theorem parallel_for_each_counted_range {M : Type} (func : Nat → Nat → M → M) (n : Nat)
    (m : M) (h : n ≤ unsigned_max) :
    parallel_for_each_counted func n 0 0 m
      = (List.range n).foldl (fun m1 j => func j j m1) m := by
  have h0 := parallel_for_each_counted_range' func n 0 m (by omega)
  rw [Nat.zero_mod] at h0
  rw [h0, List.range_eq_range']

theorem set_prefix_drop {α : Type} (pre l : List α) (x : α) (h : pre.length < l.length) :
    (pre ++ l.drop pre.length).set pre.length x = (pre ++ [x]) ++ l.drop (pre.length + 1) := by
  rw [List.drop_eq_getElem_cons h, List.set_append_right _ _ (Nat.le_refl _)]
  simp only [Nat.sub_self, List.set_cons_zero, List.append_assoc, List.singleton_append]

theorem vector_resize_length {α : Type} (v : List (Option α)) (n : Nat) :
    (vector_resize v n).length = n := by
  simp only [vector_resize, List.length_append, List.length_take, List.length_replicate]
  omega

theorem distributed_start_steps {T : Type} (args : T) (d : distributed T) :
    ∀ k : Nat, k ≤ d._instances.length →
      (List.range k).foldl
        (fun (d2 : distributed T) j => submit_to_resolved j
          (fun shard d3 =>
            { d3 with _instances := d3._instances.set j (some { owner := shard, obj := args }),
                      events := d3.events ++ [service_event.constructed shard j] }) d2) d
        = { _instances := (List.range k).map (fun j => some { owner := j, obj := args })
                            ++ d._instances.drop k,
            events := d.events
                        ++ (List.range k).map (fun j => service_event.constructed j j) } := by
  intro k
  induction k with
  | zero => intro _; simp
  | succ k ih =>
    intro hk
    rw [List.range_succ, List.foldl_append, ih (by omega)]
    simp only [List.foldl_cons, List.foldl_nil, submit_to_resolved, List.map_append,
      List.map_cons, List.map_nil, List.append_assoc]
    have hlen : ((List.range k).map
        (fun j => (some { owner := j, obj := args } : Option (service_ptr T)))).length = k := by
      simp
    have hset := set_prefix_drop
      ((List.range k).map (fun j => (some { owner := j, obj := args } : Option (service_ptr T))))
      d._instances (some { owner := k, obj := args }) (by rw [hlen]; omega)
    rw [hlen] at hset
    rw [hset]
    simp

theorem distributed_start_eq {T : Type} (d : distributed T) (N : Nat) (args : T)
    (hN : N < unsigned_max) :
    d.start N args
      = { _instances := (List.range N).map (fun i => some { owner := i, obj := args }),
          events := d.events ++ (List.range N).map (fun i => service_event.constructed i i) } := by
  simp only [distributed.start, vector_resize_length]
  rw [parallel_for_each_counted_range _ _ _ (Nat.le_of_lt hN)]
  have hsteps := distributed_start_steps args
    { d with _instances := vector_resize d._instances N } N
    (by simp [vector_resize_length])
  rw [hsteps]
  have hdrop : List.drop N (vector_resize d._instances N) = [] :=
    List.drop_eq_nil_of_le (by rw [vector_resize_length])
  simp [hdrop]

/-- C13: for every shard count N (an `unsigned`), when the future of `start(args...)` has
resolved the instance sequence has length N, entry i is not null and was constructed on
shard i, and the constructions that ran are exactly one per shard: shard i constructed
entry i, for i = 0, ..., N - 1. -/
theorem distributed_start_spec {T : Type} (d : distributed T) (N : Nat) (args : T)
    (hN : N < unsigned_max) :
    (d.start N args)._instances = (List.range N).map (fun i => some { owner := i, obj := args })
    ∧ (d.start N args)._instances.length = N
    ∧ (∀ i, i < N → (d.start N args)._instances[i]? = some (some { owner := i, obj := args }))
    ∧ (d.start N args).events
        = d.events ++ (List.range N).map (fun i => service_event.constructed i i) := by
  rw [distributed_start_eq d N args hN]
  refine ⟨rfl, by simp, ?_, rfl⟩
  intro i hi
  simp [hi]

/-- Witness for C13: a service started on three shards. -/
theorem distributed_start_spec_witness :
    3 < unsigned_max
    ∧ ((distributed.empty Nat).start 3 0)._instances
        = (List.range 3).map (fun i => some { owner := i, obj := 0 })
    ∧ ((distributed.empty Nat).start 3 0).events
        = (distributed.empty Nat).events
            ++ (List.range 3).map (fun i => service_event.constructed i i) :=
  ⟨by decide,
    (distributed_start_spec (distributed.empty Nat) 3 0 (by decide)).1,
    (distributed_start_spec (distributed.empty Nat) 3 0 (by decide)).2.2.2⟩

theorem getElem?_prefix_cons {α : Type} (pre : List α) (x : α) (rest : List α) (k : Nat)
    (hk : pre.length = k) : (pre ++ x :: rest)[k]? = some x := by
  subst hk
  rw [List.getElem?_append_right (Nat.le_refl _)]
  simp

theorem set_prefix_cons {α : Type} (pre : List α) (x y : α) (rest : List α) (k : Nat)
    (hk : pre.length = k) : (pre ++ x :: rest).set k y = pre ++ y :: rest := by
  subst hk
  rw [List.set_append_right _ _ (Nat.le_refl _)]
  simp only [Nat.sub_self, List.set_cons_zero]

theorem distributed_invoke_steps {T : Type} (f : T → T) (ptrs : List (service_ptr T)) :
    ∀ (rest : List (Option (service_ptr T))) (evs : List service_event),
      (List.range ptrs.length).foldl
        (fun (d2 : Option (distributed T)) j => submit_to_resolved j
          (fun shard d3 => distributed.apply_at f service_event.invoked j shard d3) d2)
        (some { _instances := ptrs.map some ++ rest, events := evs })
        = some { _instances := ptrs.map (fun p => some { p with obj := f p.obj }) ++ rest,
                 events := evs
                   ++ (List.range ptrs.length).map (fun j => service_event.invoked j j) } := by
  induction ptrs using List.reverseRecOn with
  | nil => intro rest evs; simp
  | append_singleton init p ih =>
    intro rest evs
    have hlen : (init ++ [p]).length = init.length + 1 := by simp
    have hstate : List.map some (init ++ [p]) ++ rest = List.map some init ++ some p :: rest := by
      simp
    rw [hlen, List.range_succ, List.foldl_append, hstate, ih]
    simp only [List.foldl_cons, List.foldl_nil, submit_to_resolved, distributed.apply_at,
      getElem?_prefix_cons _ _ _ init.length (List.length_map _ _),
      set_prefix_cons _ _ _ _ init.length (List.length_map _ _)]
    simp

theorem distributed_map_reduce_steps {T A R : Type} (r : A → R → A) (func : T → R)
    (ptrs : List (service_ptr T)) :
    ∀ (rest : List (Option (service_ptr T))) (evs : List service_event) (a : A),
      (List.range ptrs.length).foldl
        (fun (acc : Option (A × distributed T)) j => submit_to_resolved j
          (fun shard acc1 =>
            match acc1 with
            | none => none
            | some (a1, d1) =>
              match d1._instances[j]? with
              | some (some inst) =>
                some (r a1 (func inst.obj),
                  { d1 with events := d1.events ++ [service_event.mapped shard j] })
              | _ => none) acc)
        (some (a, { _instances := ptrs.map some ++ rest, events := evs }))
        = some (ptrs.foldl (fun a1 p => r a1 (func p.obj)) a,
                { _instances := ptrs.map some ++ rest,
                  events := evs
                    ++ (List.range ptrs.length).map (fun j => service_event.mapped j j) }) := by
  induction ptrs using List.reverseRecOn with
  | nil => intro rest evs a; simp
  | append_singleton init p ih =>
    intro rest evs a
    have hlen : (init ++ [p]).length = init.length + 1 := by simp
    have hstate : List.map some (init ++ [p]) ++ rest = List.map some init ++ some p :: rest := by
      simp
    rw [hlen, List.range_succ, List.foldl_append, hstate, ih]
    simp only [List.foldl_cons, List.foldl_nil, submit_to_resolved,
      getElem?_prefix_cons _ _ _ init.length (List.length_map _ _)]
    simp

theorem distributed_stop_steps {T : Type} (ptrs : List (service_ptr T)) :
    ∀ (rest : List (Option (service_ptr T))) (evs : List service_event),
      (List.range ptrs.length).foldl
        (fun (d2 : Option (distributed T)) j => submit_to_resolved j
          (fun shard d3 =>
            match d3 with
            | none => none
            | some d4 =>
              match d4._instances[j]? with
              | some (some _) =>
                some { d4 with events := d4.events
                        ++ [service_event.stopped shard j, service_event.deleted shard j] }
              | _ => none) d2)
        (some { _instances := ptrs.map some ++ rest, events := evs })
        = some { _instances := ptrs.map some ++ rest,
                 events := evs ++ ((List.range ptrs.length).map
                   (fun j => [service_event.stopped j j, service_event.deleted j j])).flatten } := by
  induction ptrs using List.reverseRecOn with
  | nil => intro rest evs; simp
  | append_singleton init p ih =>
    intro rest evs
    have hlen : (init ++ [p]).length = init.length + 1 := by simp
    have hstate : List.map some (init ++ [p]) ++ rest = List.map some init ++ some p :: rest := by
      simp
    rw [hlen, List.range_succ, List.foldl_append, hstate, ih]
    simp only [List.foldl_cons, List.foldl_nil, submit_to_resolved,
      getElem?_prefix_cons _ _ _ init.length (List.length_map _ _)]
    simp

theorem foldl_add_eq_sum (l : List Nat) : ∀ a : Nat, l.foldl (fun x y => x + y) a = a + l.sum := by
  induction l with
  | nil => intro a; simp
  | cons x xs ih => intro a; rw [List.foldl_cons, ih, List.sum_cons]; omega

theorem distributed_invoke_on_all_eq {T : Type} (ptrs : List (service_ptr T))
    (evs : List service_event) (f : T → T) (hN : ptrs.length < unsigned_max) :
    distributed.invoke_on_all { _instances := ptrs.map some, events := evs } f
      = some { _instances := ptrs.map (fun p => some { p with obj := f p.obj }),
               events := evs
                 ++ (List.range ptrs.length).map (fun j => service_event.invoked j j) } := by
  have h := distributed_invoke_steps f ptrs [] evs
  simp only [List.append_nil] at h
  simp only [distributed.invoke_on_all, List.length_map]
  rw [parallel_for_each_counted_range _ _ _ (Nat.le_of_lt hN), h]

theorem distributed_map_reduce_eq {T A R : Type} (ptrs : List (service_ptr T))
    (evs : List service_event) (init : A) (r : A → R → A) (func : T → R)
    (hN : ptrs.length < unsigned_max) :
    distributed.map_reduce { _instances := ptrs.map some, events := evs } init r func
      = some (ptrs.foldl (fun a p => r a (func p.obj)) init,
              { _instances := ptrs.map some,
                events := evs
                  ++ (List.range ptrs.length).map (fun j => service_event.mapped j j) }) := by
  have h := distributed_map_reduce_steps r func ptrs [] evs init
  simp only [List.append_nil] at h
  simp only [distributed.map_reduce, List.length_map]
  rw [parallel_for_each_counted_range _ _ _ (Nat.le_of_lt hN), h]

/-- C14: on a started service of N instances (all entries non-null, N an `unsigned`),
`invoke_on_all(f)` applies `f` once to each instance, the i-th on shard i, and `map_reduce`
with an additive reducer and accessor `g` returns the sum of `g` over the N instances, the
i-th read on shard i; so after `start` with counters at zero and `invoke_on_all` of an
increment, `map_reduce(+, value)` yields N. -/
theorem distributed_invoke_on_all_map_reduce {T : Type} (ptrs : List (service_ptr T))
    (evs : List service_event) (f : T → T) (g : T → Nat) (N : Nat)
    (hlen : ptrs.length < unsigned_max) (hN : N < unsigned_max) :
    distributed.invoke_on_all { _instances := ptrs.map some, events := evs } f
      = some { _instances := ptrs.map (fun p => some { p with obj := f p.obj }),
               events := evs
                 ++ (List.range ptrs.length).map (fun j => service_event.invoked j j) }
    ∧ distributed.map_reduce { _instances := ptrs.map some, events := evs } 0
        (fun a x => a + x) g
      = some ((ptrs.map (fun p => g p.obj)).sum,
              { _instances := ptrs.map some,
                events := evs
                  ++ (List.range ptrs.length).map (fun j => service_event.mapped j j) })
    ∧ ((((distributed.empty Nat).start N 0).invoke_on_all (fun counter => counter + 1)).bind
        (fun d => (d.map_reduce 0 (fun a x => a + x) (fun counter => counter)).map Prod.fst))
      = some N := by
  refine ⟨distributed_invoke_on_all_eq ptrs evs f hlen, ?_, ?_⟩
  · rw [distributed_map_reduce_eq ptrs evs 0 _ g hlen]
    have hsum : ∀ (l : List (service_ptr T)) (a : Nat),
        l.foldl (fun a p => a + g p.obj) a = a + (l.map (fun p => g p.obj)).sum := by
      intro l
      induction l with
      | nil => intro a; simp
      | cons x xs ih => intro a; rw [List.foldl_cons, ih, List.map_cons, List.sum_cons]; omega
    rw [hsum, Nat.zero_add]
  · rw [distributed_start_eq _ N 0 hN]
    have hptrs : (List.range N).map (fun i => (some { owner := i, obj := 0 } : Option (service_ptr Nat)))
        = ((List.range N).map (fun i => ({ owner := i, obj := 0 } : service_ptr Nat))).map some := by
      simp
    rw [hptrs, distributed_invoke_on_all_eq _ _ _ (by simpa using hN)]
    simp only [Option.some_bind]
    have hptrs2 : ((List.range N).map (fun i => ({ owner := i, obj := 0 } : service_ptr Nat))).map
          (fun p => (some { p with obj := p.obj + 1 } : Option (service_ptr Nat)))
        = ((List.range N).map (fun i => ({ owner := i, obj := 1 } : service_ptr Nat))).map some := by
      simp
    rw [hptrs2, distributed_map_reduce_eq _ _ _ _ _ (by simpa using hN)]
    have hsum : ∀ (l : List Nat) (a : Nat),
        (l.map (fun i => ({ owner := i, obj := 1 } : service_ptr Nat))).foldl
          (fun a p => a + p.obj) a = a + l.length := by
      intro l
      induction l with
      | nil => intro a; simp
      | cons x xs ih =>
        intro a
        simp only [List.map_cons, List.foldl_cons, ih, List.length_cons]
        omega
    simp [hsum]

/-- Witness for C14: two instances holding 5 and 6 sum to 11, and three counters started at
zero, each incremented once, sum to three. -/
theorem distributed_invoke_on_all_map_reduce_witness :
    distributed.map_reduce
        { _instances := [({ owner := 0, obj := 5 } : service_ptr Nat),
                         { owner := 1, obj := 6 }].map some, events := [] }
        0 (fun a x => a + x) (fun x => x)
      = some (11, { _instances := [({ owner := 0, obj := 5 } : service_ptr Nat),
                                   { owner := 1, obj := 6 }].map some,
                    events := [service_event.mapped 0 0, service_event.mapped 1 1] })
    ∧ ((((distributed.empty Nat).start 3 0).invoke_on_all (fun counter => counter + 1)).bind
        (fun d => (d.map_reduce 0 (fun a x => a + x) (fun counter => counter)).map Prod.fst))
      = some 3 :=
  ⟨(distributed_invoke_on_all_map_reduce
      [({ owner := 0, obj := 5 } : service_ptr Nat), { owner := 1, obj := 6 }] []
      (fun x => x) (fun x => x) 3 (by decide) (by decide)).2.1,
    (distributed_invoke_on_all_map_reduce
      [({ owner := 0, obj := 5 } : service_ptr Nat), { owner := 1, obj := 6 }] []
      (fun x => x) (fun x => x) 3 (by decide) (by decide)).2.2⟩

/-- C15: on a started service of N instances (all entries non-null, N an `unsigned`),
`stop()` calls the service's `stop()` once on every instance, the i-th on shard i, deletes
the instance on that same shard after its `stop()` future has resolved, and leaves
`_instances` empty; the destructor's assertion then holds, and it fails for a started
service (N at least 1) that was not stopped. -/
theorem distributed_stop_spec {T : Type} (ptrs : List (service_ptr T))
    (evs : List service_event) (hN : ptrs.length < unsigned_max) :
    distributed.stop { _instances := ptrs.map some, events := evs }
      = some { _instances := [],
               events := evs ++ ((List.range ptrs.length).map
                 (fun j => [service_event.stopped j j, service_event.deleted j j])).flatten }
    ∧ (distributed.stop { _instances := ptrs.map some, events := evs }).bind distributed.destroy
      = some ()
    ∧ (0 < ptrs.length →
        distributed.destroy { _instances := ptrs.map some, events := evs } = none) := by
  have h := distributed_stop_steps ptrs [] evs
  simp only [List.append_nil] at h
  have hstop : distributed.stop { _instances := ptrs.map some, events := evs }
      = some { _instances := [],
               events := evs ++ ((List.range ptrs.length).map
                 (fun j => [service_event.stopped j j, service_event.deleted j j])).flatten } := by
    simp only [distributed.stop, List.length_map]
    rw [parallel_for_each_counted_range _ _ _ (Nat.le_of_lt hN), h]
    rfl
  refine ⟨hstop, ?_, ?_⟩
  · rw [hstop]
    rfl
  · intro hpos
    cases ptrs with
    | nil => simp at hpos
    | cons p ps => rfl

/-- Witness for C15: a service of two instances is stopped. -/
theorem distributed_stop_spec_witness :
    distributed.stop
        { _instances := [({ owner := 0, obj := 5 } : service_ptr Nat),
                         { owner := 1, obj := 6 }].map some, events := [] }
      = some { _instances := [],
               events := [service_event.stopped 0 0, service_event.deleted 0 0,
                          service_event.stopped 1 1, service_event.deleted 1 1] }
    ∧ distributed.destroy
        { _instances := [({ owner := 0, obj := 5 } : service_ptr Nat),
                         { owner := 1, obj := 6 }].map some, events := [] } = none :=
  ⟨(distributed_stop_spec [({ owner := 0, obj := 5 } : service_ptr Nat),
      { owner := 1, obj := 6 }] [] (by decide)).1,
    (distributed_stop_spec [({ owner := 0, obj := 5 } : service_ptr Nat),
      { owner := 1, obj := 6 }] [] (by decide)).2.2 (by decide)⟩

/-- C16: `local_is_initialized()` never indexes out of bounds and is true exactly when the
instance sequence is longer than the calling shard's id and the entry at that index is not
null; `local()` returns that entry when `local_is_initialized()` is true and fails its
assertion otherwise, and never indexes out of bounds or dereferences a null pointer. -/
theorem distributed_local_spec {T : Type} (d : distributed T) (cpu_id : Nat) :
    (d.local_is_initialized cpu_id = access.ok true
      ∨ d.local_is_initialized cpu_id = access.ok false)
    ∧ (d.local_is_initialized cpu_id = access.ok true
        ↔ (d._instances.length > cpu_id ∧ ∃ inst, d._instances[cpu_id]? = some (some inst)))
    ∧ (d.local_is_initialized cpu_id = access.ok true →
        ∃ inst, d._instances[cpu_id]? = some (some inst) ∧ d.local cpu_id = access.ok inst)
    ∧ (d.local_is_initialized cpu_id = access.ok false →
        d.local cpu_id = access.assertion_failed)
    ∧ d.local cpu_id ≠ access.out_of_bounds
    ∧ d.local cpu_id ≠ access.null_dereference := by
  by_cases hlen : d._instances.length > cpu_id
  · have hget : d._instances[cpu_id]? = some (d._instances[cpu_id]) :=
      List.getElem?_eq_getElem hlen
    cases hx : d._instances[cpu_id] with
    | none =>
      rw [hx] at hget
      simp [distributed.local, distributed.local_is_initialized, hlen, hget]
    | some inst =>
      rw [hx] at hget
      simp [distributed.local, distributed.local_is_initialized, hlen, hget]
  · have hnone : d._instances[cpu_id]? = none := List.getElem?_eq_none (by omega)
    simp [distributed.local, distributed.local_is_initialized, hlen, hnone]

/-- Witness for C16: on the service started on three shards, shard 2 has a local instance
and `local()` returns it. -/
theorem distributed_local_spec_witness :
    ((distributed.empty Nat).start 3 0).local_is_initialized 2 = access.ok true
    ∧ ∃ inst, ((distributed.empty Nat).start 3 0)._instances[2]? = some (some inst)
        ∧ ((distributed.empty Nat).start 3 0).local 2 = access.ok inst :=
  ⟨by decide,
    (distributed_local_spec ((distributed.empty Nat).start 3 0) 2).2.2.1 (by decide)⟩

/-! ## Claims on file streams -/

theorem size_max_eq : size_max = 18446744073709551616 := by
  norm_num [size_max]

theorem align_up_512 (v : Nat) (h : v + 511 < size_max) :
    align_up v 512 = (v + 511) / 512 * 512 := by
  simp only [align_up]
  have h1 : v + 512 - 1 = v + 511 := by omega
  rw [h1, Nat.mod_eq_of_lt h]

theorem file_data_sink_put_args (s : file_data_sink_impl) (b : temporary_buffer)
    (h : s._pos + b.length + 511 < size_max) :
    (s.put b)._pos = s._pos + b.length
    ∧ (s.put b).dma_writes = s.dma_writes ++ [(s._pos, (b.length + 511) / 512 * 512)]
    ∧ (s.put b)._buffer_size = s._buffer_size := by
  have hmod : (s._pos + b.length) % size_max = s._pos + b.length :=
    Nat.mod_eq_of_lt (by omega)
  refine ⟨by simp [file_data_sink_impl.put, hmod], ?_, by simp [file_data_sink_impl.put]⟩
  by_cases ha : b.length % 512 = 0
  · have hlen : (b.length + 511) / 512 * 512 = b.length := by omega
    simp [file_data_sink_impl.put, ha, hlen]
  · have hup := align_up_512 b.length (by omega)
    have hle : b.length ≤ (b.length + 511) / 512 * 512 := by omega
    simp only [file_data_sink_impl.put, ha, ne_eq, not_false_eq_true, if_true,
      file_data_sink_impl.allocate_buffer, temporary_buffer.alloc, hup, std_copy]
    simp only [List.take_zero, List.nil_append, Nat.zero_add, List.drop_replicate,
      List.length_append, List.length_replicate]
    have hsum : b.length + ((b.length + 511) / 512 * 512 - b.length)
        = (b.length + 511) / 512 * 512 := by omega
    rw [hsum]

theorem file_data_sink_put_content (s : file_data_sink_impl) (b : temporary_buffer)
    (hinv : s._file.content.length = s._pos) (h : s._pos + b.length + 511 < size_max) :
    (s.put b)._file.content = s._file.content ++ b := by
  have hmod : (s._pos + b.length) % size_max = s._pos + b.length :=
    Nat.mod_eq_of_lt (by omega)
  by_cases ha : b.length % 512 = 0
  · simp [file_data_sink_impl.put, ha, file.dma_write, ← hinv]
  · have hup := align_up_512 b.length (by omega)
    simp only [file_data_sink_impl.put, ha, ne_eq, not_false_eq_true, if_true, decide_True,
      file_data_sink_impl.allocate_buffer, temporary_buffer.alloc, hup, std_copy,
      file.dma_write, file.truncate, file.flush, hmod, ← hinv]
    simp only [List.take_zero, List.nil_append, Nat.zero_add, List.drop_replicate,
      List.take_length, Nat.sub_self, List.replicate_zero, List.append_nil]
    have hdrop : ∀ k, List.drop (s._file.content.length + k) s._file.content = [] :=
      fun k => List.drop_eq_nil_of_le (by omega)
    rw [hdrop, List.append_nil]
    have htake : List.take (s._file.content.length + b.length)
        (s._file.content ++ (b ++ List.replicate ((b.length + 511) / 512 * 512 - b.length) 0))
        = s._file.content ++ b := by
      rw [← List.append_assoc]
      have hl : s._file.content.length + b.length = (s._file.content ++ b).length := by simp
      rw [hl, List.take_left]
    have hmod2 : (s._file.content.length + b.length) % size_max
        = s._file.content.length + b.length := by
      rw [hinv]
      exact hmod
    simp only [List.append_assoc, hmod2] at htake ⊢
    rw [htake]
    have hz : s._file.content.length + b.length
        - (s._file.content ++ (b ++ List.replicate ((b.length + 511) / 512 * 512 - b.length) 0)).length
        = 0 := by
      simp only [List.length_append, List.length_replicate]
      omega
    rw [hz]
    simp

theorem file_data_sink_puts_pos (bufs : List temporary_buffer) :
    ∀ s : file_data_sink_impl, s._pos + (bufs.map List.length).sum + 511 < size_max →
      (s.puts bufs)._pos = s._pos + (bufs.map List.length).sum := by
  induction bufs with
  | nil => intro s _; simp [file_data_sink_impl.puts]
  | cons b rest ih =>
    intro s h
    simp only [List.map_cons, List.sum_cons] at h ⊢
    obtain ⟨hpos, _, _⟩ := file_data_sink_put_args s b (by omega)
    have hrest := ih (s.put b) (by rw [hpos]; omega)
    simp only [file_data_sink_impl.puts, List.foldl_cons] at hrest ⊢
    rw [hrest, hpos]
    omega

theorem file_data_sink_puts_content (bufs : List temporary_buffer) :
    ∀ s : file_data_sink_impl, s._file.content.length = s._pos →
      s._pos + (bufs.map List.length).sum + 511 < size_max →
      (s.puts bufs)._file.content = s._file.content ++ bufs.flatten := by
  induction bufs with
  | nil => intro s _ _; simp [file_data_sink_impl.puts]
  | cons b rest ih =>
    intro s hinv h
    simp only [List.map_cons, List.sum_cons] at h
    obtain ⟨hpos, _, _⟩ := file_data_sink_put_args s b (by omega)
    have hcontent := file_data_sink_put_content s b hinv (by omega)
    have hrest := ih (s.put b) (by rw [hcontent, hpos, List.length_append, hinv])
      (by rw [hpos]; omega)
    simp only [file_data_sink_impl.puts, List.foldl_cons] at hrest ⊢
    rw [hrest, hcontent]
    simp

theorem file_data_sink_puts_aligned (bufs : List temporary_buffer) :
    ∀ s : file_data_sink_impl, s._pos % 512 = 0 →
      (∀ b ∈ bufs.dropLast, b.length % 512 = 0) →
      s._pos + (bufs.map List.length).sum + 511 < size_max →
      (∀ w ∈ s.dma_writes, w.1 % 512 = 0 ∧ w.2 % 512 = 0) →
      ∀ w ∈ (s.puts bufs).dma_writes, w.1 % 512 = 0 ∧ w.2 % 512 = 0 := by
  induction bufs with
  | nil => intro s _ _ _ hw; simpa [file_data_sink_impl.puts] using hw
  | cons b rest ih =>
    intro s hpos halign h hw
    simp only [List.map_cons, List.sum_cons] at h
    obtain ⟨hp, hwrites, _⟩ := file_data_sink_put_args s b (by omega)
    have hw1 : ∀ w ∈ (s.put b).dma_writes, w.1 % 512 = 0 ∧ w.2 % 512 = 0 := by
      intro w hmem
      rw [hwrites, List.mem_append, List.mem_singleton] at hmem
      rcases hmem with hold | hnew
      · exact hw w hold
      · subst hnew
        exact ⟨hpos, by simp only; omega⟩
    cases rest with
    | nil => simpa [file_data_sink_impl.puts] using hw1
    | cons b2 rest2 =>
      have hb : b.length % 512 = 0 := halign b (by simp [List.dropLast])
      have hrest := ih (s.put b) (by rw [hp]; omega)
        (fun x hx => halign x (by simp only [List.dropLast_cons₂, List.mem_cons]; exact Or.inr hx))
        (by rw [hp]; omega) hw1
      simpa [file_data_sink_impl.puts] using hrest

theorem file_data_sink_puts_lengths (bufs : List temporary_buffer) :
    ∀ s : file_data_sink_impl, s._pos + (bufs.map List.length).sum + 511 < size_max →
      (s.puts bufs).dma_writes.map Prod.snd
        = s.dma_writes.map Prod.snd ++ bufs.map (fun b => (b.length + 511) / 512 * 512) := by
  induction bufs with
  | nil => intro s _; simp [file_data_sink_impl.puts]
  | cons b rest ih =>
    intro s h
    simp only [List.map_cons, List.sum_cons] at h
    obtain ⟨hpos, hw, _⟩ := file_data_sink_put_args s b (by omega)
    have hrest := ih (s.put b) (by rw [hpos]; omega)
    simp only [file_data_sink_impl.puts, List.foldl_cons] at hrest ⊢
    rw [hrest, hw]
    simp

theorem sum_lengths_aligned (bufs : List temporary_buffer) :
    (∀ x ∈ bufs, x.length % 512 = 0) → (bufs.map List.length).sum % 512 = 0 := by
  induction bufs with
  | nil => intro _; simp
  | cons x xs ih =>
    intro hall
    have hx := hall x (by simp)
    have hxs := ih (fun y hy => hall y (by simp [hy]))
    simp only [List.map_cons, List.sum_cons]
    omega

/-- C17: on an initially empty file, after buffers b1, ..., bk have been put one after the
other, every one except possibly the last with a size that is a multiple of 512 (and the
total below the range of `size_t`), the file holds exactly b1 ++ ... ++ bk, its size and the
sink's position are the sum of the buffer sizes, each write was the buffer's size rounded up
to a multiple of 512 (so padding after an unaligned last buffer was written and then cut off
by the truncate), and every `dma_write` was made at an offset and with a length that are
multiples of 512. -/
theorem file_data_sink_puts_spec (bufs : List temporary_buffer) (buffer_size : Nat)
    (halign : ∀ b ∈ bufs.dropLast, b.length % 512 = 0)
    (hsize : (bufs.map List.length).sum + 511 < size_max) :
    ((file_data_sink_impl.mk_sink { content := [] } buffer_size).puts bufs)._file.content
      = bufs.flatten
    ∧ ((file_data_sink_impl.mk_sink { content := [] } buffer_size).puts bufs)._file.size
      = (bufs.map List.length).sum
    ∧ ((file_data_sink_impl.mk_sink { content := [] } buffer_size).puts bufs)._pos
      = (bufs.map List.length).sum
    ∧ ((file_data_sink_impl.mk_sink { content := [] } buffer_size).puts bufs).dma_writes.map
        Prod.snd = bufs.map (fun b => (b.length + 511) / 512 * 512)
    ∧ (∀ w ∈ ((file_data_sink_impl.mk_sink { content := [] } buffer_size).puts bufs).dma_writes,
        w.1 % 512 = 0 ∧ w.2 % 512 = 0) := by
  have hl := file_data_sink_puts_lengths bufs
    (file_data_sink_impl.mk_sink { content := [] } buffer_size)
    (by simpa [file_data_sink_impl.mk_sink] using hsize)
  have hc := file_data_sink_puts_content bufs
    (file_data_sink_impl.mk_sink { content := [] } buffer_size) rfl
    (by simpa [file_data_sink_impl.mk_sink] using hsize)
  have hp := file_data_sink_puts_pos bufs
    (file_data_sink_impl.mk_sink { content := [] } buffer_size)
    (by simpa [file_data_sink_impl.mk_sink] using hsize)
  have ha := file_data_sink_puts_aligned bufs
    (file_data_sink_impl.mk_sink { content := [] } buffer_size) rfl halign
    (by simpa [file_data_sink_impl.mk_sink] using hsize)
    (by simp [file_data_sink_impl.mk_sink])
  refine ⟨by simpa [file_data_sink_impl.mk_sink] using hc, ?_,
    by simpa [file_data_sink_impl.mk_sink] using hp,
    by simpa [file_data_sink_impl.mk_sink] using hl, ha⟩
  rw [file.size, hc]
  simp [file_data_sink_impl.mk_sink, List.length_flatten]

/-- C19: when a buffer of size s is put after the buffers `bufs` (the total staying below
the range of `size_t`), the length given to `dma_write` is a multiple of 512, at least s,
less than s + 512, and equal to s when s is a multiple of 512; the offset given is the sum
of the sizes of the buffers put before, which is a multiple of 512 when all of those sizes
are. -/
theorem file_data_sink_put_dma_args (f : file) (buffer_size : Nat)
    (bufs : List temporary_buffer) (b : temporary_buffer)
    (hsize : (bufs.map List.length).sum + b.length + 511 < size_max) :
    ∃ len,
      (((file_data_sink_impl.mk_sink f buffer_size).puts bufs).put b).dma_writes
        = ((file_data_sink_impl.mk_sink f buffer_size).puts bufs).dma_writes
            ++ [((bufs.map List.length).sum, len)]
      ∧ len % 512 = 0
      ∧ b.length ≤ len
      ∧ len < b.length + 512
      ∧ (b.length % 512 = 0 → len = b.length)
      ∧ ((∀ x ∈ bufs, x.length % 512 = 0) → (bufs.map List.length).sum % 512 = 0) := by
  have hp := file_data_sink_puts_pos bufs (file_data_sink_impl.mk_sink f buffer_size)
    (by simp only [file_data_sink_impl.mk_sink]; omega)
  simp only [file_data_sink_impl.mk_sink, Nat.zero_add] at hp
  obtain ⟨_, hw, _⟩ := file_data_sink_put_args
    ((file_data_sink_impl.mk_sink f buffer_size).puts bufs) b
    (by simp only [file_data_sink_impl.mk_sink, hp]; omega)
  refine ⟨(b.length + 511) / 512 * 512, ?_, by omega, by omega, by omega, by omega, ?_⟩
  · rw [hw]
    simp only [file_data_sink_impl.mk_sink, hp]
  · exact sum_lengths_aligned bufs

theorem example_block_length : example_block.length = 512 := by
  rw [example_block, List.length_replicate]

theorem example_file_bufs_aligned : ∀ b ∈ example_file_bufs.dropLast, b.length % 512 = 0 := by
  intro b hb
  have hb2 : b = example_block := by simpa [example_file_bufs] using hb
  rw [hb2, example_block_length]

theorem example_file_bufs_size : (example_file_bufs.map List.length).sum + 511 < size_max := by
  simp [example_file_bufs, example_block_length, size_max]

/-- Witness for C17: a buffer of 512 bytes and one of 3 bytes are put; the file then holds
the 515 bytes. -/
theorem file_data_sink_puts_spec_witness :
    ((file_data_sink_impl.mk_sink { content := [] } 4096).puts example_file_bufs)._file.content
      = example_file_bufs.flatten
    ∧ ((file_data_sink_impl.mk_sink { content := [] } 4096).puts example_file_bufs)._file.size
      = (example_file_bufs.map List.length).sum :=
  ⟨(file_data_sink_puts_spec example_file_bufs 4096 example_file_bufs_aligned
      example_file_bufs_size).1,
    (file_data_sink_puts_spec example_file_bufs 4096 example_file_bufs_aligned
      example_file_bufs_size).2.1⟩

/-- Witness for C19: a buffer of 3 bytes is put after one of 512 bytes. -/
theorem file_data_sink_put_dma_args_witness :
    ∃ len,
      (((file_data_sink_impl.mk_sink { content := [] } 4096).puts [example_block]).put
          [7, 8, 9]).dma_writes
        = ((file_data_sink_impl.mk_sink { content := [] } 4096).puts [example_block]).dma_writes
            ++ [(([example_block].map List.length).sum, len)]
      ∧ len % 512 = 0
      ∧ [7, 8, 9].length ≤ len
      ∧ len < [7, 8, 9].length + 512
      ∧ ([7, 8, 9].length % 512 = 0 → len = [7, 8, 9].length)
      ∧ ((∀ x ∈ [example_block], x.length % 512 = 0)
          → ([example_block].map List.length).sum % 512 = 0) :=
  file_data_sink_put_dma_args { content := [] } 4096 [example_block] [7, 8, 9]
    (by simp [example_block_length, size_max])

theorem file_data_source_get_eof (s : file_data_source_impl)
    (hfs : s._fsize = none ∨ s._fsize = some s._file.content.length)
    (hpos : s._file.content.length ≤ s._pos) :
    s.get = some ([], { s with _fsize := some s._file.content.length }) := by
  rcases hfs with h | h
  · simp [file_data_source_impl.get, file_data_source_impl.do_get, h, file.size, hpos,
      temporary_buffer.alloc]
  · have hs : ({ s with _fsize := some s._file.content.length } : file_data_source_impl) = s := by
      cases s
      simp_all
    rw [hs]
    simp [file_data_source_impl.get, file_data_source_impl.do_get, h, hpos,
      temporary_buffer.alloc]

theorem file_data_source_get_step (s : file_data_source_impl)
    (hfs : s._fsize = none ∨ s._fsize = some s._file.content.length)
    (hpos : s._pos < s._file.content.length)
    (hsize : s._file.content.length + s._buffer_size < size_max) :
    s.get = some ((s._file.content.drop s._pos).take
                    (min s._buffer_size (s._file.content.length - s._pos)),
      { s with _fsize := some s._file.content.length,
               _pos := s._pos + min s._buffer_size (s._file.content.length - s._pos),
               dma_reads := s.dma_reads
                 ++ [(s._pos, min s._buffer_size (s._file.content.length - s._pos))] }) := by
  have hnot : ¬ s._file.content.length ≤ s._pos := by omega
  have hmod1 : (s._pos + s._buffer_size) % size_max = s._pos + s._buffer_size :=
    Nat.mod_eq_of_lt (by omega)
  have hread : (if s._pos + s._buffer_size > s._file.content.length
        then s._file.content.length - s._pos else s._buffer_size)
      = min s._buffer_size (s._file.content.length - s._pos) := by
    split <;> omega
  have hlen : ((s._file.content.drop s._pos).take
      (min s._buffer_size (s._file.content.length - s._pos))).length
      = min s._buffer_size (s._file.content.length - s._pos) := by
    simp only [List.length_take, List.length_drop]
    omega
  have hmod2 : (s._pos + min s._buffer_size (s._file.content.length - s._pos)) % size_max
      = s._pos + min s._buffer_size (s._file.content.length - s._pos) :=
    Nat.mod_eq_of_lt (by omega)
  rcases hfs with h | h
  · simp only [file_data_source_impl.get, file_data_source_impl.do_get, h, file.size,
      ge_iff_le, if_neg hnot, hmod1, hread, file.dma_read_bulk, hlen, hmod2]
  · have hs : ({ s with _fsize := some s._file.content.length } : file_data_source_impl) = s := by
      cases s
      simp_all
    simp only [file_data_source_impl.get, file_data_source_impl.do_get, h,
      ge_iff_le, if_neg hnot, hmod1, hread, file.dma_read_bulk, hlen, hmod2]

theorem file_data_source_gets_eof (j : Nat) :
    ∀ s : file_data_source_impl,
      (s._fsize = none ∨ s._fsize = some s._file.content.length) →
      s._file.content.length ≤ s._pos →
      ∃ s2, s.gets j = some (List.replicate j [], s2) ∧ s2.dma_reads = s.dma_reads := by
  induction j with
  | zero => intro s _ _; exact ⟨s, rfl, rfl⟩
  | succ j ih =>
    intro s hfs hpos
    obtain ⟨s2, h2, hr⟩ := ih { s with _fsize := some s._file.content.length }
      (Or.inr rfl) hpos
    refine ⟨s2, ?_, hr⟩
    simp only [file_data_source_impl.gets, file_data_source_get_eof s hfs hpos, h2,
      List.replicate_succ]

theorem file_data_source_gets_all (r : Nat) :
    ∀ s : file_data_source_impl,
      (s._fsize = none ∨ s._fsize = some s._file.content.length) →
      s._file.content.length - s._pos ≤ r →
      0 < s._buffer_size →
      s._file.content.length + s._buffer_size < size_max →
      (∀ rd ∈ s.dma_reads, rd.1 + rd.2 ≤ s._file.content.length) →
      ∃ k chunks s2, s.gets k = some (chunks, s2)
        ∧ (∀ c ∈ chunks, c ≠ [] ∧ c.length ≤ s._buffer_size)
        ∧ chunks.flatten = s._file.content.drop s._pos
        ∧ s2._file = s._file
        ∧ (s2._fsize = none ∨ s2._fsize = some s._file.content.length)
        ∧ s._file.content.length ≤ s2._pos
        ∧ (∀ rd ∈ s2.dma_reads, rd.1 + rd.2 ≤ s._file.content.length) := by
  induction r with
  | zero =>
    intro s hfs hr _ _ hreads
    have hle : s._file.content.length ≤ s._pos := by omega
    exact ⟨0, [], s, rfl, by simp, by simp [List.drop_eq_nil_of_le hle], rfl, hfs, hle, hreads⟩
  | succ r ih =>
    intro s hfs hr hb hsize hreads
    by_cases hle : s._file.content.length ≤ s._pos
    · exact ⟨0, [], s, rfl, by simp, by simp [List.drop_eq_nil_of_le hle], rfl, hfs, hle,
        hreads⟩
    · have hpos : s._pos < s._file.content.length := by omega
      have hget := file_data_source_get_step s hfs hpos hsize
      have hm : 0 < min s._buffer_size (s._file.content.length - s._pos) := by omega
      obtain ⟨k, chunks, s2, hgets, hchunks, hflat, hfile, hfs2, hpos2, hreads2⟩ :=
        ih { s with _fsize := some s._file.content.length,
                    _pos := s._pos + min s._buffer_size (s._file.content.length - s._pos),
                    dma_reads := s.dma_reads
                      ++ [(s._pos, min s._buffer_size (s._file.content.length - s._pos))] }
          (Or.inr rfl) (by simp only; omega) hb hsize
          (by
            intro rd hrd
            simp only [List.mem_append, List.mem_singleton] at hrd
            rcases hrd with hold | hnew
            · exact hreads rd hold
            · subst hnew
              simp only
              omega)
      simp only [] at hchunks hflat hfile hfs2 hpos2 hreads2
      refine ⟨k + 1,
        ((s._file.content.drop s._pos).take
          (min s._buffer_size (s._file.content.length - s._pos))) :: chunks,
        s2, ?_, ?_, ?_, hfile, hfs2, hpos2, hreads2⟩
      · simp only [file_data_source_impl.gets, hget, hgets]
      · intro c hc
        rcases List.mem_cons.mp hc with hhead | htail
        · subst hhead
          have hlen : ((s._file.content.drop s._pos).take
              (min s._buffer_size (s._file.content.length - s._pos))).length
              = min s._buffer_size (s._file.content.length - s._pos) := by
            simp only [List.length_take, List.length_drop]
            omega
          refine ⟨?_, by rw [hlen]; omega⟩
          intro hnil
          rw [hnil, List.length_nil] at hlen
          omega
        · exact hchunks c htail
      · simp only [List.flatten_cons, hflat, ← List.drop_drop]
        exact List.take_append_drop _ _

/-- C18: for a file data source made at offset o with buffer size b > 0 over a file of size
f (with f + b in the range of `size_t`), there is a number k of successive `get()` calls
that return non-empty chunks of at most b bytes whose concatenation is exactly the file's
bytes from o to f; no `dma_read_bulk` made reaches past f; every later `get()` returns an
empty buffer and reads nothing; and when o >= f the first `get()` already returns an empty
buffer. -/
theorem file_data_source_gets_spec (f : file) (o b : Nat) (hb : 0 < b)
    (hsize : f.size + b < size_max) :
    (∃ k chunks s2, (file_data_source_impl.mk_source f o b).gets k = some (chunks, s2)
      ∧ (∀ c ∈ chunks, c ≠ [] ∧ c.length ≤ b)
      ∧ chunks.flatten = f.content.drop o
      ∧ (∀ rd ∈ s2.dma_reads, rd.1 + rd.2 ≤ f.size)
      ∧ (∀ j, ∃ s3, s2.gets j = some (List.replicate j [], s3)
          ∧ s3.dma_reads = s2.dma_reads))
    ∧ (f.size ≤ o →
        ∃ s1, (file_data_source_impl.mk_source f o b).get = some ([], s1)) := by
  refine ⟨?_, ?_⟩
  · obtain ⟨k, chunks, s2, hgets, hchunks, hflat, hfile, hfs2, hpos2, hreads2⟩ :=
      file_data_source_gets_all (f.content.length - o)
        (file_data_source_impl.mk_source f o b) (Or.inl rfl)
        (by simp [file_data_source_impl.mk_source]) hb hsize
        (by simp [file_data_source_impl.mk_source])
    refine ⟨k, chunks, s2, hgets, hchunks, hflat, hreads2, ?_⟩
    intro j
    have hfile2 : s2._file.content.length = f.content.length := by rw [hfile]; rfl
    exact file_data_source_gets_eof j s2
      (by rw [hfile2]; exact hfs2) (by rw [hfile2]; exact hpos2)
  · intro ho
    exact ⟨_, file_data_source_get_eof (file_data_source_impl.mk_source f o b)
      (Or.inl rfl) ho⟩

/-- Witness for C18: a file of seven bytes read from offset 2 with buffer size 2. -/
theorem file_data_source_gets_spec_witness :
    ∃ k chunks s2,
      (file_data_source_impl.mk_source { content := [1, 2, 3, 4, 5, 6, 7] } 2 2).gets k
        = some (chunks, s2)
      ∧ (∀ c ∈ chunks, c ≠ [] ∧ c.length ≤ 2)
      ∧ chunks.flatten = ([1, 2, 3, 4, 5, 6, 7] : List Nat).drop 2
      ∧ (∀ rd ∈ s2.dma_reads, rd.1 + rd.2 ≤ (file.size { content := [1, 2, 3, 4, 5, 6, 7] }))
      ∧ (∀ j, ∃ s3, s2.gets j = some (List.replicate j [], s3)
          ∧ s3.dma_reads = s2.dma_reads) :=
  (file_data_source_gets_spec { content := [1, 2, 3, 4, 5, 6, 7] } 2 2 (by decide)
    (by simp [file.size, size_max])).1

/-! ## Claims on input_stream::consume -/

theorem consume_spec_single_done {κ : Type} (consumer : Consumer κ) (s : input_stream) (k : κ)
    (u : temporary_buffer) (hans : (consumer k s._buf).2 = some u) :
    consume_spec consumer s.consumable k (consumer k s._buf).1
      (if !u.isEmpty then { s with _buf := u } else { s with _buf := [] })
      [(s._buf, some u)] := by
  refine ⟨by simp, by simp, ?_, ?_, ?_, ?_⟩
  · by_cases he : s._eof = true
    · exact ⟨[], by simp [input_stream.consumable, he]⟩
    · exact ⟨data_source.data s._fd.chunks,
        by simp [input_stream.consumable, he, input_stream.remaining]⟩
  · intro b u2 hlast
    simp only [List.getLast?_singleton, Option.some.injEq, Prod.mk.injEq] at hlast
    obtain ⟨_, hu⟩ := hlast
    subst hu
    cases u with
    | nil => simp
    | cons x xs => simp
  · intro b hlast
    simp at hlast
  · simp [Consumer.replay, hans]

theorem consume_spec_single_eof {κ : Type} (consumer : Consumer κ) (s : input_stream) (k : κ)
    (hbuf : s._buf = []) (heof : s._eof = true) (hans : (consumer k s._buf).2 = none) :
    consume_spec consumer s.consumable k (consumer k s._buf).1 { s with _buf := [] }
      [(s._buf, none)] := by
  refine ⟨by simp, by simp, ⟨[], by simp [input_stream.consumable, heof, hbuf]⟩, ?_, ?_, ?_⟩
  · intro b u hlast
    simp at hlast
  · intro b hlast
    simp only [List.getLast?_singleton, Option.some.injEq, Prod.mk.injEq, and_true] at hlast
    subst hlast
    simp [hbuf, heof, input_stream.consumable]
  · simp [Consumer.replay, hans]

theorem consume_spec_cons {κ : Type} (consumer : Consumer κ) (b : temporary_buffer)
    (data : List Nat) (k k1 : κ) (s1 : input_stream)
    (calls : List (temporary_buffer × Option temporary_buffer))
    (hb : b ≠ []) (hans : (consumer k b).2 = none)
    (h : consume_spec consumer data (consumer k b).1 k1 s1 calls) :
    consume_spec consumer (b ++ data) k k1 s1 ((b, none) :: calls) := by
  obtain ⟨hne, hinit, ⟨rest, hrest⟩, hdone, heof, hreplay⟩ := h
  obtain ⟨c, cs, hcs⟩ := List.exists_cons_of_ne_nil hne
  subst hcs
  refine ⟨by simp, ?_, ⟨rest, ?_⟩, ?_, ?_, ?_⟩
  · intro x hx
    simp only [List.dropLast_cons₂, List.mem_cons] at hx
    rcases hx with hx | hx
    · subst hx
      exact ⟨hb, rfl⟩
    · exact hinit x hx
  · simp only [List.map_cons, List.flatten_cons, List.append_assoc] at hrest ⊢
    rw [hrest]
  · intro b2 u hlast
    exact hdone b2 u (by simpa [List.getLast?_cons_cons] using hlast)
  · intro b2 hlast
    obtain ⟨h1, h2, h3, h4⟩ := heof b2 (by simpa [List.getLast?_cons_cons] using hlast)
    refine ⟨h1, h2, h3, ?_⟩
    simp only [List.map_cons, List.flatten_cons] at h4 ⊢
    rw [h4]
  · simp only [List.map_cons, Consumer.replay, hans, Prod.mk.injEq] at hreplay ⊢
    exact ⟨hreplay.1, by rw [hreplay.2]⟩

theorem consume_loop_spec {κ : Type} (consumer : Consumer κ) :
    ∀ (fuel : Nat) (s : input_stream) (k : κ)
      (calls0 : List (temporary_buffer × Option temporary_buffer)),
      s.consume_depth < fuel →
      ∃ k1 s1 calls, consume_loop consumer fuel s k calls0 = some (k1, s1, calls0 ++ calls)
        ∧ consume_spec consumer s.consumable k k1 s1 calls := by
  intro fuel
  induction fuel with
  | zero => intro s k calls0 hd; omega
  | succ fuel ih =>
    intro s k calls0 hd
    by_cases hcond : (s._buf.isEmpty && !s._eof) = true
    · have hbuf : s._buf = [] := by
        simp only [Bool.and_eq_true, List.isEmpty_iff] at hcond
        exact hcond.1
      have heof : s._eof = false := by
        simp only [Bool.and_eq_true, Bool.not_eq_true'] at hcond
        exact hcond.2
      cases hch : s._fd.chunks with
      | nil =>
        have hstep : consume_loop consumer (fuel + 1) s k calls0
            = consume_loop consumer fuel { s with _buf := [], _eof := true } k calls0 := by
          simp [consume_loop, hbuf, heof, data_source.get, hch]
        have hdepth : ({ s with _buf := [], _eof := true } : input_stream).consume_depth
            < fuel := by
          simp only [input_stream.consume_depth, hch, hbuf, heof] at hd ⊢
          simp at hd ⊢
          omega
        obtain ⟨k1, s1, calls, hrun, hspec⟩ :=
          ih { s with _buf := [], _eof := true } k calls0 hdepth
        refine ⟨k1, s1, calls, by rw [hstep, hrun], ?_⟩
        have hdata : s.consumable
            = ({ s with _buf := [], _eof := true } : input_stream).consumable := by
          simp [input_stream.consumable, input_stream.remaining, heof, hbuf, hch,
            data_source.data]
        rw [hdata]
        exact hspec
      | cons c rest =>
        have hstep : consume_loop consumer (fuel + 1) s k calls0
            = consume_loop consumer fuel
                { _fd := { chunks := rest }, _buf := c, _eof := c.isEmpty } k calls0 := by
          simp [consume_loop, hbuf, heof, data_source.get, hch]
        have hdepth : ({ _fd := { chunks := rest }, _buf := c, _eof := c.isEmpty } :
            input_stream).consume_depth < fuel := by
          simp only [input_stream.consume_depth, hch, hbuf, heof, List.length_cons] at hd ⊢
          simp at hd
          split <;> omega
        obtain ⟨k1, s1, calls, hrun, hspec⟩ :=
          ih { _fd := { chunks := rest }, _buf := c, _eof := c.isEmpty } k calls0 hdepth
        refine ⟨k1, s1, calls, by rw [hstep, hrun], ?_⟩
        have hdata : s.consumable
            = ({ _fd := { chunks := rest }, _buf := c, _eof := c.isEmpty } :
                input_stream).consumable := by
          cases c with
          | nil =>
            simp [input_stream.consumable, input_stream.remaining, heof, hbuf, hch,
              data_source.data]
          | cons x xs =>
            simp [input_stream.consumable, input_stream.remaining, heof, hbuf, hch,
              data_source.data]
        rw [hdata]
        exact hspec
    · cases hans : (consumer k s._buf).2 with
      | some u =>
        refine ⟨(consumer k s._buf).1,
          (if !u.isEmpty then { s with _buf := u } else { s with _buf := [] }),
          [(s._buf, some u)], ?_, consume_spec_single_done consumer s k u hans⟩
        simp [consume_loop, hcond, hans]
      | none =>
        by_cases hb : s._buf = []
        · have heof : s._eof = true := by
            simp only [hb, List.isEmpty_nil, Bool.true_and, Bool.not_eq_true',
              Bool.not_eq_false] at hcond
            exact hcond
          refine ⟨(consumer k s._buf).1, { s with _buf := [] }, [(s._buf, none)], ?_,
            consume_spec_single_eof consumer s k hb heof hans⟩
          have hans2 : (consumer k []).2 = none := by rw [← hb]; exact hans
          simp [consume_loop, hans2, hb, heof]
        · have hne : s._buf.isEmpty = false := by
            cases hs : s._buf with
            | nil => exact absurd hs hb
            | cons x xs => rfl
          have hstep : consume_loop consumer (fuel + 1) s k calls0
              = consume_loop consumer fuel { s with _buf := [] } (consumer k s._buf).1
                  (calls0 ++ [(s._buf, none)]) := by
            simp [consume_loop, hcond, hans, hne]
          have hdepth : ({ s with _buf := [] } : input_stream).consume_depth < fuel := by
            simp only [input_stream.consume_depth, hne] at hd ⊢
            simp at hd ⊢
            omega
          obtain ⟨k1, s1, calls, hrun, hspec⟩ :=
            ih { s with _buf := [] } (consumer k s._buf).1 (calls0 ++ [(s._buf, none)]) hdepth
          refine ⟨k1, s1, (s._buf, none) :: calls, ?_, ?_⟩
          · rw [hstep, hrun]
            simp
          · have hdata : s.consumable
                = s._buf ++ ({ s with _buf := [] } : input_stream).consumable := by
              by_cases he : s._eof = true
              · simp [input_stream.consumable, he]
              · simp [input_stream.consumable, he, input_stream.remaining]
            rw [hdata]
            exact consume_spec_cons consumer s._buf _ k k1 s1 calls hb hans hspec

/-- C20: for every stream, consumer and consumer state, `consume` completes, having called
the consumer at least once. Every call but the last was given a non-empty buffer and did not
answer `done`; the buffers handed over are, in order, a leading part of the stream's data
(look-ahead, then the source's chunks up to end of file). When the last call answered
`done(u)`, the stream's look-ahead afterwards is exactly `u`. When the last call did not
answer `done`, the source had reached end of file: the stream has `eof()` set and an empty
look-ahead, that last call was given an empty buffer (the only empty one), and all of the
stream's data had been handed over before it. The answers recorded are the consumer's own,
when it is handed these buffers one after the other. -/
theorem input_stream_consume_spec {κ : Type} (s : input_stream) (consumer : Consumer κ)
    (k : κ) :
    ∃ k1 s1 calls, s.consume consumer k = some (k1, s1, calls)
      ∧ calls ≠ []
      ∧ (∀ c ∈ calls.dropLast, c.1 ≠ [] ∧ c.2 = none)
      ∧ (∃ rest, (calls.map Prod.fst).flatten ++ rest = s.consumable)
      ∧ (∀ b u, calls.getLast? = some (b, some u) → s1._buf = u)
      ∧ (∀ b, calls.getLast? = some (b, none) →
          b = [] ∧ s1._eof = true ∧ s1._buf = []
          ∧ (calls.map Prod.fst).flatten = s.consumable)
      ∧ Consumer.replay consumer k (calls.map Prod.fst) = (k1, calls.map Prod.snd) := by
  obtain ⟨k1, s1, calls, hrun, hspec⟩ :=
    consume_loop_spec consumer (s.consume_depth + 1) s k [] (Nat.lt_succ_self _)
  rw [List.nil_append] at hrun
  exact ⟨k1, s1, calls, hrun, hspec⟩

/-- Witness for C20: a consumer that takes two buffers and answers the second with
`done([9])`, on a stream with look-ahead `[1, 2]` and chunks `[3]`, `[4, 5]`, `[6, 7]`. -/
theorem input_stream_consume_spec_witness :
    example_input_stream.consume
        (fun (k : Nat) (_ : temporary_buffer) => (k + 1, if k = 1 then some [9] else none)) 0
      = some (2, { _fd := { chunks := [[4, 5], [6, 7]] }, _buf := [9], _eof := false },
              [([1, 2], none), ([3], some [9])])
    ∧ ∃ k1 s1 calls,
        example_input_stream.consume
          (fun (k : Nat) (_ : temporary_buffer) => (k + 1, if k = 1 then some [9] else none)) 0
          = some (k1, s1, calls)
        ∧ calls ≠ []
        ∧ (∀ c ∈ calls.dropLast, c.1 ≠ [] ∧ c.2 = none)
        ∧ (∃ rest, (calls.map Prod.fst).flatten ++ rest = example_input_stream.consumable)
        ∧ (∀ b u, calls.getLast? = some (b, some u) → s1._buf = u)
        ∧ (∀ b, calls.getLast? = some (b, none) →
            b = [] ∧ s1._eof = true ∧ s1._buf = []
            ∧ (calls.map Prod.fst).flatten = example_input_stream.consumable)
        ∧ Consumer.replay
            (fun (k : Nat) (_ : temporary_buffer) => (k + 1, if k = 1 then some [9] else none))
            0 (calls.map Prod.fst) = (k1, calls.map Prod.snd) :=
  ⟨by decide, input_stream_consume_spec example_input_stream _ 0⟩

/-! ## Claims on the paths and bounds of output_stream::write -/

theorem output_stream_write_paths (s : output_stream) (buf : List Nat) :
    s.write buf
      = if buf.length ≥ s.bulk_threshold then s.write_bulk buf else s.write_buffered buf := by
  unfold output_stream.write output_stream.write_bulk output_stream.write_buffered
    output_stream.bulk_threshold
  by_cases h : buf.length ≥ (if s._end ≠ 0 then 2 * s._size - s._end else s._size)
  · simp only [h, if_true]
  · simp only [h, if_false]

/-- C21 (counterexample): on an empty stream of buffer size 4, `write` of 4 bytes has
e + n = 4, which does not exceed 2 * S = 8, and yet takes the bulk path: the data goes
straight to the sink and nothing is buffered. -/
theorem output_stream_bulk_path_example :
    ¬ (example_output_stream._end + 4 > 2 * example_output_stream._size)
    ∧ example_output_stream.write [1, 2, 3, 4] = example_output_stream.write_bulk [1, 2, 3, 4]
    ∧ (example_output_stream.write [1, 2, 3, 4])._fd.puts = [[1, 2, 3, 4]]
    ∧ (example_output_stream.write [1, 2, 3, 4])._end = 0
    ∧ example_output_stream.write [1, 2, 3, 4]
        ≠ example_output_stream.write_buffered [1, 2, 3, 4] := by
  decide

/-- C21 (amended): `write(buf, n)` on a stream with buffer size S holding e buffered bytes
takes the bulk path exactly when n is at least the bulk threshold, which is
S for an empty buffer (e = 0) and 2 * S - e otherwise: that is, exactly when n >= S for
e = 0 and exactly when e + n >= 2 * S for e > 0. Otherwise it appends to the internal
buffer. -/
theorem output_stream_bulk_path_condition (s : output_stream) (buf : List Nat) :
    (s._end = 0 →
      (buf.length ≥ s._size → s.write buf = s.write_bulk buf)
      ∧ (buf.length < s._size → s.write buf = s.write_buffered buf))
    ∧ (s._end ≠ 0 →
      (s._end + buf.length ≥ 2 * s._size → s.write buf = s.write_bulk buf)
      ∧ (s._end + buf.length < 2 * s._size → s.write buf = s.write_buffered buf)) := by
  rw [output_stream_write_paths]
  refine ⟨?_, ?_⟩
  · intro h0
    have ht : s.bulk_threshold = s._size := by simp [output_stream.bulk_threshold, h0]
    rw [ht]
    exact ⟨fun h => if_pos h, fun h => if_neg (by omega)⟩
  · intro h0
    have ht : s.bulk_threshold = 2 * s._size - s._end := by
      simp [output_stream.bulk_threshold, h0]
    rw [ht]
    exact ⟨fun h => if_pos (by omega), fun h => if_neg (by omega)⟩

/-- Witness for C21 (amended): on the stream of buffer size 4 holding 2 bytes, a write of 6
bytes (e + n = 2 * S) takes the bulk path and a write of 5 bytes is buffered. -/
theorem output_stream_bulk_path_condition_witness :
    (example_output_stream.write [1, 2])._end ≠ 0
    ∧ (example_output_stream.write [1, 2]).write [3, 4, 5, 6, 7, 8]
        = (example_output_stream.write [1, 2]).write_bulk [3, 4, 5, 6, 7, 8]
    ∧ (example_output_stream.write [1, 2]).write [3, 4, 5, 6, 7]
        = (example_output_stream.write [1, 2]).write_buffered [3, 4, 5, 6, 7] :=
  ⟨by decide,
    ((output_stream_bulk_path_condition (example_output_stream.write [1, 2])
      [3, 4, 5, 6, 7, 8]).2 (by decide)).1 (by decide),
    ((output_stream_bulk_path_condition (example_output_stream.write [1, 2])
      [3, 4, 5, 6, 7]).2 (by decide)).2 (by decide)⟩


/-! ## Bounds of the copies of output_stream::write -/

theorem output_stream_mk_stream_inv (fd : data_sink) (S : Nat) :
    (output_stream.mk_stream fd S).inv S := by
  simp [output_stream.mk_stream, output_stream.inv, temporary_buffer.alloc]

theorem output_stream_flush_inv (s : output_stream) (S : Nat) (h : s.inv S) :
    s.flush.inv S := by
  obtain ⟨h1, h2, h3⟩ := h
  unfold output_stream.flush
  split
  · exact ⟨h1, h2, h3⟩
  · simp [output_stream.inv, temporary_buffer.alloc, h1]

theorem output_stream_write_inv (s : output_stream) (S : Nat) (buf : List Nat)
    (h : s.inv S) : (s.write buf).inv S := by
  obtain ⟨h1, h2, h3⟩ := h
  rw [output_stream_write_paths]
  by_cases hb : buf.length ≥ s.bulk_threshold
  · rw [if_pos hb]
    unfold output_stream.write_bulk
    by_cases he : s._end ≠ 0
    · have he2 : ¬ s._end = 0 := he
      simp [output_stream.flush, output_stream.inv, temporary_buffer.alloc, h1, he2]
    · have he2 : s._end = 0 := by omega
      simp only [he2, ne_eq, not_true_eq_false, if_false]
      exact ⟨h1, Nat.zero_le _, h3⟩
  · rw [if_neg hb]
    unfold output_stream.bulk_threshold at hb
    unfold output_stream.write_buffered
    have hlen1 : (std_copy (buf.take (min buf.length (s._size - s._end))) s._buf s._end).length
        = S := by
      rw [std_copy_length, h3]
      simp only [List.length_take]
      omega
    by_cases hnow : min buf.length (s._size - s._end) = buf.length
    · simp only [hnow, if_true]
      refine ⟨h1, ?_, ?_⟩
      · simp only []
        omega
      · simp only []
        rw [hnow] at hlen1
        exact hlen1
    · simp only [hnow, if_false]
      refine ⟨h1, ?_, ?_⟩
      · simp only []
        split at hb <;> omega
      · simp only []
        rw [std_copy_length]
        · simp [temporary_buffer.alloc, h1]
        · simp only [temporary_buffer.alloc, List.length_drop, List.length_replicate]
          split at hb <;> omega

theorem output_stream_write_copies_in_bounds (s : output_stream) (S : Nat) (buf : List Nat)
    (h : s.inv S) : ∀ c ∈ s.write_copies buf, c.in_bounds := by
  obtain ⟨h1, h2, h3⟩ := h
  intro c hc
  unfold output_stream.write_copies at hc
  by_cases hb : buf.length ≥ s.bulk_threshold
  · simp only [hb, if_true] at hc
    unfold output_stream.bulk_threshold at hb
    by_cases he : s._end = 0
    · simp only [he, ne_eq, not_true_eq_false, if_false, List.mem_singleton] at hc
      subst hc
      simp only [copy_call.in_bounds]
      omega
    · simp only [he, ne_eq, not_false_eq_true, if_true, List.mem_cons, List.mem_singleton,
        List.not_mem_nil, or_false] at hc hb
      rcases hc with rfl | rfl
      · simp only [copy_call.in_bounds]
        omega
      · simp only [copy_call.in_bounds]
        omega
  · simp only [hb, if_false, List.mem_cons] at hc
    unfold output_stream.bulk_threshold at hb
    rcases hc with rfl | hc
    · simp only [copy_call.in_bounds]
      omega
    · by_cases hnow : min buf.length (s._size - s._end) = buf.length
      · simp [hnow] at hc
      · simp only [hnow, if_false, List.mem_singleton] at hc
        subst hc
        simp only [copy_call.in_bounds]
        split at hb <;> omega

theorem output_stream_run_calls_bounds (S : Nat) (calls : List stream_call) :
    ∀ (s : output_stream) (copies : List copy_call), s.inv S →
      (∀ c ∈ copies, c.in_bounds) →
      (s.run_calls copies calls).1.inv S ∧ ∀ c ∈ (s.run_calls copies calls).2, c.in_bounds := by
  induction calls with
  | nil => intro s copies hs hc; exact ⟨hs, hc⟩
  | cons call rest ih =>
    intro s copies hs hc
    cases call with
    | write buf =>
      simp only [output_stream.run_calls]
      apply ih _ _ (output_stream_write_inv s S buf hs)
      intro c hmem
      rcases List.mem_append.1 hmem with hm | hm
      · exact hc c hm
      · exact output_stream_write_copies_in_bounds s S buf hs c hm
    | flush =>
      simp only [output_stream.run_calls]
      exact ih _ _ (output_stream_flush_inv s S hs) hc

/-- C23: for every output_stream of buffer size S (as constructed over any sink) and every
sequence of write and flush calls, the cursor `_end` is at most S afterwards (and the
internal buffer still has S bytes), and every `std::copy` made by the writes reads inside
its source and writes inside its destination buffer, be it the internal buffer or a freshly
allocated one. -/
theorem output_stream_cursor_and_copies_in_bounds (fd : data_sink) (S : Nat)
    (calls : List stream_call) :
    ((output_stream.mk_stream fd S).run_calls [] calls).1._end ≤ S
    ∧ ((output_stream.mk_stream fd S).run_calls [] calls).1._size = S
    ∧ ((output_stream.mk_stream fd S).run_calls [] calls).1._buf.length = S
    ∧ ∀ c ∈ ((output_stream.mk_stream fd S).run_calls [] calls).2,
        c.src_from ≤ c.src_to ∧ c.src_to ≤ c.src_size
        ∧ c.dst_off + (c.src_to - c.src_from) ≤ c.dst_size := by
  have h := output_stream_run_calls_bounds S calls (output_stream.mk_stream fd S) []
    (output_stream_mk_stream_inv fd S) (by simp)
  exact ⟨h.1.2.1, h.1.1, h.1.2.2, h.2⟩

/-! ## Length of the result of read_exactly -/

theorem read_exactly_part_loop_length (n : Nat) (eof : Bool) :
    ∀ (chunks : List temporary_buffer) (buf out : temporary_buffer) (completed : Nat),
      out.length = n → completed ≤ n →
      (read_exactly_part_loop n eof chunks buf out completed).1.length = n
      ∨ (read_exactly_part_loop n eof chunks buf out completed).1.length = 0 := by
  intro chunks
  induction chunks with
  | nil =>
    intro buf out completed hout hc
    rw [read_exactly_part_loop_eq]
    split
    · left
      rw [std_copy_length, hout]
      simp only [List.length_take]
      omega
    · right
      rfl
  | cons c rest ih =>
    intro buf out completed hout hc
    rw [read_exactly_part_loop_eq]
    have hlen : (std_copy (buf.take (min (n - completed) buf.length)) out completed).length
        = n := by
      rw [std_copy_length, hout]
      simp only [List.length_take]
      omega
    split
    · left
      exact hlen
    · simp only []
      split
      · right
        assumption
      · exact ih _ _ _ hlen (by omega)

theorem read_exactly_loop_length (n : Nat) (eof : Bool) :
    ∀ (chunks : List temporary_buffer) (buf : temporary_buffer),
      (read_exactly_loop n eof chunks buf).1.length = n
      ∨ (read_exactly_loop n eof chunks buf).1.length = 0 := by
  intro chunks
  induction chunks with
  | nil =>
    intro buf
    unfold read_exactly_loop
    simp only []
    split
    · left; assumption
    · split
      · left
        simp only [temporary_buffer.share, List.drop_zero, List.length_take]
        omega
      · split
        · right; rfl
        · exact read_exactly_part_loop_length n eof _ _ _ _
            (by simp [temporary_buffer.alloc]) (Nat.zero_le _)
  | cons c rest ih =>
    intro buf
    unfold read_exactly_loop
    simp only []
    split
    · left; assumption
    · split
      · left
        simp only [temporary_buffer.share, List.drop_zero, List.length_take]
        omega
      · split
        · split
          · right; assumption
          · exact ih c
        · exact read_exactly_part_loop_length n eof _ _ _ _
            (by simp [temporary_buffer.alloc]) (Nat.zero_le _)

/-- C24: for every input_stream state (look-ahead buffer, end-of-file flag), every source
behaviour (the chunks its next `get` calls return) and every n, the buffer `read_exactly(n)`
resolves with has length exactly n or exactly 0. -/
theorem read_exactly_length_n_or_zero (s : input_stream) (n : Nat) :
    (s.read_exactly n).1.length = n ∨ (s.read_exactly n).1.length = 0 := by
  exact read_exactly_loop_length n s._eof s._fd.chunks s._buf


/-! ## Claims on write_all -/

theorem write_all_part_resolves (env : send_results) (len : Nat) (hlen : len < size_max)
    (henv : ∀ call offset l, 0 < l → 1 ≤ env call offset l ∧ env call offset l ≤ l) :
    ∀ (k completed : Nat) (calls : List write_some_call), len - completed = k →
      completed ≤ len →
      ∃ more, write_calls_cover env more calls.length completed len
        ∧ (completed < len → more ≠ [])
        ∧ ∀ fuel, k + 1 ≤ fuel →
            reactor.write_all_part env len fuel calls completed = some (len, calls ++ more) := by
  intro k
  induction k using Nat.strong_induction_on with
  | _ k ih =>
    intro completed calls hk hc
    by_cases hdone : completed = len
    · refine ⟨[], hdone, fun h => absurd hdone (by omega), ?_⟩
      intro fuel hfuel
      obtain ⟨f, rfl⟩ : ∃ f, fuel = f + 1 := ⟨fuel - 1, by omega⟩
      simp [reactor.write_all_part, hdone]
    · have hreq : (len - completed) % size_max = len - completed :=
        Nat.mod_eq_of_lt (by omega)
      have hpos : 0 < len - completed := by omega
      obtain ⟨h1, h2⟩ := henv calls.length completed (len - completed) hpos
      have hnext : (completed + env calls.length completed (len - completed)) % size_max
          = completed + env calls.length completed (len - completed) :=
        Nat.mod_eq_of_lt (by omega)
      obtain ⟨more, hcover, _, hrun⟩ :=
        ih (len - (completed + env calls.length completed (len - completed))) (by omega)
          (completed + env calls.length completed (len - completed))
          (calls ++ [{ offset := completed, requested := len - completed,
                       sent := env calls.length completed (len - completed) }])
          rfl (by omega)
      rw [List.length_append, List.length_singleton] at hcover
      refine ⟨{ offset := completed, requested := len - completed,
                sent := env calls.length completed (len - completed) } :: more,
        ⟨rfl, rfl, rfl, h1, Nat.le_trans (Nat.add_le_add_left h2 _) (by omega), hcover⟩,
        fun _ => by simp, ?_⟩
      intro fuel hfuel
      obtain ⟨f, rfl⟩ : ∃ f, fuel = f + 1 := ⟨fuel - 1, by omega⟩
      simp only [reactor.write_all_part, hdone, if_false, reactor.write_some, hreq, hnext]
      rw [hrun f (by omega)]
      simp

/-- C25: for every len > 0 (a `size_t`) and every behaviour of the socket in which each
`write_some` resolves with a count between 1 and the number of bytes it was asked to send,
`write_all(fd, buffer, len)` resolves (after at most len continuations) with exactly len,
and the `write_some` calls it issues, each resolving with the count the socket gives it,
send consecutive ranges of the buffer that start at 0 and end at len, each starting where
the previous one ended and asking for all that is left; there is at least one call. With
len = 0 `write_all` fails its assertion. -/
theorem write_all_resolves_with_len (env : send_results) (len : Nat) (hpos : 0 < len)
    (hlen : len < size_max)
    (henv : ∀ call offset l, 0 < l → 1 ≤ env call offset l ∧ env call offset l ≤ l) :
    (∃ calls, calls ≠ [] ∧ write_calls_cover env calls 0 0 len
      ∧ ∀ fuel, len + 1 ≤ fuel →
          reactor.write_all env fuel len = write_all_outcome.resolved len calls)
    ∧ ∀ fuel, reactor.write_all env fuel 0 = write_all_outcome.assertion_failure := by
  refine ⟨?_, fun fuel => by simp [reactor.write_all]⟩
  obtain ⟨more, hcover, hne, hrun⟩ :=
    write_all_part_resolves env len hlen henv len 0 [] rfl (Nat.zero_le _)
  refine ⟨more, hne hpos, hcover, ?_⟩
  intro fuel hfuel
  have h0 : len ≠ 0 := by omega
  simp only [reactor.write_all, h0, if_false, hrun fuel hfuel, List.nil_append]

/-- Witness for C25: 5 bytes on a socket that takes half of what it is offered, rounded up:
three calls, sending 3, 1 and 1 bytes. -/
theorem write_all_resolves_with_len_witness :
    ((∃ calls, calls ≠ [] ∧ write_calls_cover example_send_results calls 0 0 5
      ∧ ∀ fuel, 5 + 1 ≤ fuel →
          reactor.write_all example_send_results fuel 5 = write_all_outcome.resolved 5 calls)
    ∧ ∀ fuel, reactor.write_all example_send_results fuel 0
        = write_all_outcome.assertion_failure)
    ∧ reactor.write_all example_send_results 6 5
        = write_all_outcome.resolved 5
            [{ offset := 0, requested := 5, sent := 3 }, { offset := 3, requested := 2, sent := 1 },
             { offset := 4, requested := 1, sent := 1 }] :=
  ⟨write_all_resolves_with_len example_send_results 5 (by decide) (by decide)
    (by intro call offset l hl; simp only [example_send_results]; omega), by decide⟩

/-! ## Claims on the checksum accumulator -/

theorem int128_wrap_eq (x : Int) (h1 : -170141183460469231731687303715884105728 ≤ x)
    (h2 : x ≤ 170141183460469231731687303715884105727) : int128_wrap x = x := by
  unfold int128_wrap
  omega

theorem sum_uint8_eq (c : checksummer) (b : Nat) (hb : b < 256)
    (h1 : -170141183460469231731687303715884105728 ≤ c.csum)
    (h2 : c.csum + 65536 ≤ 170141183460469231731687303715884105727) :
    c.sum_uint8 b
      = { csum := c.csum + (if c.odd then (b : Int) else (b : Int) * 256), odd := !c.odd } := by
  obtain ⟨csum, odd⟩ := c
  simp only [] at h1 h2
  cases odd
  · simp only [checksummer.sum_uint8, Bool.not_false, if_true, Nat.shiftLeft_eq,
      Bool.false_eq_true, if_false]
    rw [int128_wrap_eq _ (by push_cast; omega) (by push_cast; omega)]
    push_cast
    rfl
  · simp only [checksummer.sum_uint8, Bool.not_true, Bool.false_eq_true, if_false, if_true]
    rw [int128_wrap_eq _ (by omega) (by omega)]

theorem sum_uint16_eq (c : checksummer) (w : Nat) (hw : w < 65536)
    (h1 : -170141183460469231731687303715884105728 ≤ c.csum)
    (h2 : c.csum + 131072 ≤ 170141183460469231731687303715884105727) :
    c.sum_uint16 w
      = { csum := c.csum + (if c.odd then ((w / 256 : Nat) : Int) + ((w % 256 : Nat) : Int) * 256
                            else (w : Int)),
          odd := c.odd }
    ∧ c.sum_uint16 w = (c.sum_uint8 ((w >>> 8) % 256)).sum_uint8 (w % 256) := by
  obtain ⟨csum, odd⟩ := c
  simp only [] at h1 h2
  have hhi : (w >>> 8) % 256 = w / 256 := by
    rw [Nat.shiftRight_eq_div_pow]
    omega
  have s1 := sum_uint8_eq ⟨csum, odd⟩ (w / 256) (by omega) h1 (by simp only []; omega)
  have s2 := sum_uint8_eq ⟨csum + (if odd then ((w / 256 : Nat) : Int)
      else ((w / 256 : Nat) : Int) * 256), !odd⟩ (w % 256) (by omega)
    (by simp only []; split <;> omega) (by simp only []; split <;> omega)
  rw [hhi]
  cases odd
  · simp only [Bool.false_eq_true, if_false, Bool.not_false, if_true] at s1 s2
    rw [s1, s2]
    simp only [checksummer.sum_uint16, Bool.false_eq_true, if_false, Bool.not_true]
    rw [int128_wrap_eq _ (by omega) (by omega)]
    simp only [checksummer.mk.injEq, and_true, true_and]
    omega
  · simp only [if_true, Bool.not_true, Bool.false_eq_true, if_false] at s1 s2
    simp only [checksummer.sum_uint16, if_true, hhi]
    rw [s1, s2]
    simp only [Bool.not_false, and_true, checksummer.mk.injEq]
    omega

theorem bytes_decompose (d : Nat) (hd : d < 4294967296) :
    d = (d / 16777216 % 256) * 16777216 + (d / 65536 % 256) * 65536 + (d / 256 % 256) * 256
      + d % 256
    ∧ d % 65536 / 256 = d / 256 % 256
    ∧ d % 65536 % 256 = d % 256
    ∧ d / 65536 / 256 = d / 16777216 % 256 := by
  have e1 : d / 65536 = d / 256 / 256 := by rw [Nat.div_div_eq_div_mul]
  have e2 : d / 16777216 = d / 256 / 256 / 256 := by
    rw [Nat.div_div_eq_div_mul, Nat.div_div_eq_div_mul]
  have e3 : d % 65536 / 256 = d / 256 % 256 := Nat.mod_mul_right_div_self d 256 256
  have e4 : d % 65536 % 256 = d % 256 := Nat.mod_mod_of_dvd d (by decide)
  rw [e1, e2, e3, e4]
  omega
theorem mod_step (e : Int) (r3 r2 r1 r0 : Nat) :
   (e + ((r3 * 16777216 + r2 * 65536 + r1 * 256 + r0 : Nat) : Int)) % 65535
     = (e + ((r3 : Int) * 256 + r2 + (r1 : Int) * 256 + r0)) % 65535 := by
  push_cast
  omega

theorem sum_bytes_uint32_eq (c : checksummer) (d : Nat)
    (h1 : -170141183460469231731687303715884105728 ≤ c.csum)
    (h2 : c.csum + 4294967296 ≤ 170141183460469231731687303715884105727) :
    c.sum_bytes_uint32 d
      = { csum := c.csum + (if c.odd then
              ((d / 16777216 % 256 : Nat) : Int) + ((d / 65536 % 256 : Nat) : Int) * 256
                + ((d / 256 % 256 : Nat) : Int) + ((d % 256 : Nat) : Int) * 256
            else
              ((d / 16777216 % 256 : Nat) : Int) * 256 + ((d / 65536 % 256 : Nat) : Int)
                + ((d / 256 % 256 : Nat) : Int) * 256 + ((d % 256 : Nat) : Int)),
          odd := c.odd } := by
  obtain ⟨csum, odd⟩ := c
  simp only [] at h1 h2
  have hb3 : (d >>> 24) % 256 = d / 16777216 % 256 := by rw [Nat.shiftRight_eq_div_pow]
  have hb2 : (d >>> 16) % 256 = d / 65536 % 256 := by rw [Nat.shiftRight_eq_div_pow]
  have hb1 : (d >>> 8) % 256 = d / 256 % 256 := by rw [Nat.shiftRight_eq_div_pow]
  have l3 : d / 16777216 % 256 < 256 := Nat.mod_lt _ (by decide)
  have l2 : d / 65536 % 256 < 256 := Nat.mod_lt _ (by decide)
  have l1 : d / 256 % 256 < 256 := Nat.mod_lt _ (by decide)
  have l0 : d % 256 < 256 := Nat.mod_lt _ (by decide)
  simp only [checksummer.sum_bytes_uint32, hb3, hb2, hb1]
  cases odd
  · rw [sum_uint8_eq _ _ l3 (by simp only []; omega) (by simp only []; omega)]
    simp only [Bool.false_eq_true, if_false, Bool.not_false]
    rw [sum_uint8_eq _ _ l2 (by simp only []; omega) (by simp only []; omega)]
    simp only [if_true, Bool.not_true]
    rw [sum_uint8_eq _ _ l1 (by simp only []; omega) (by simp only []; omega)]
    simp only [Bool.false_eq_true, if_false, Bool.not_false]
    rw [sum_uint8_eq _ _ l0 (by simp only []; omega) (by simp only []; omega)]
    simp only [if_true, Bool.not_true, checksummer.mk.injEq, and_true]
    omega
  · rw [sum_uint8_eq _ _ l3 (by simp only []; omega) (by simp only []; omega)]
    simp only [if_true, Bool.not_true]
    rw [sum_uint8_eq _ _ l2 (by simp only []; omega) (by simp only []; omega)]
    simp only [Bool.false_eq_true, if_false, Bool.not_false]
    rw [sum_uint8_eq _ _ l1 (by simp only []; omega) (by simp only []; omega)]
    simp only [if_true, Bool.not_true]
    rw [sum_uint8_eq _ _ l0 (by simp only []; omega) (by simp only []; omega)]
    simp only [Bool.false_eq_true, if_false, Bool.not_false, checksummer.mk.injEq, and_true]
    omega

theorem sum_uint32_eq (c : checksummer) (d : Nat) (hd : d < 4294967296)
    (h1 : -170141183460469231731687303715884105728 ≤ c.csum)
    (h2 : c.csum + 4294967296 ≤ 170141183460469231731687303715884105727) :
    c.sum_uint32 d
      = { csum := c.csum + (if c.odd then
              ((d % 65536 / 256 : Nat) : Int) + ((d % 65536 % 256 : Nat) : Int) * 256
                + ((d / 65536 / 256 : Nat) : Int) + ((d / 65536 % 256 : Nat) : Int) * 256
            else (d : Int)),
          odd := c.odd } := by
  obtain ⟨csum, odd⟩ := c
  simp only [] at h1 h2
  have hhi : (d >>> 16) % 65536 = d / 65536 := by
    rw [Nat.shiftRight_eq_div_pow]
    omega
  cases odd
  · simp only [checksummer.sum_uint32, Bool.false_eq_true, if_false]
    rw [int128_wrap_eq _ (by omega) (by omega)]
  · simp only [checksummer.sum_uint32, if_true, hhi]
    rw [(sum_uint16_eq _ (d % 65536) (by omega) (by simp only []; omega)
      (by simp only []; omega)).1]
    simp only [if_true]
    rw [(sum_uint16_eq _ (d / 65536) (by omega) (by simp only []; omega)
      (by simp only []; omega)).1]
    simp only [if_true, checksummer.mk.injEq, and_true]
    omega

/-- C26: for every checksummer state (csum, odd), even or odd, whose sum is not within 2^32
of the ends of the signed 128-bit range, and every 32-bit word d, `sum(uint32_t d)` leaves
the odd flag unchanged and yields a sum congruent modulo 65535 to the one obtained by
feeding the four bytes of d, most significant first, through `sum(uint8_t)`; and for every
16-bit word w, `sum(uint16_t w)` yields exactly the state obtained by feeding its high byte
and then its low byte. -/
theorem checksummer_sum_words_agree_with_bytes (c : checksummer) (d w : Nat)
    (hd : d < 4294967296) (hw : w < 65536)
    (hmin : -170141183460469231731687303715884105728 ≤ c.csum)
    (hmax : c.csum + 4294967296 ≤ 170141183460469231731687303715884105727) :
    (c.sum_uint32 d).odd = c.odd
    ∧ (c.sum_uint32 d).csum % 65535 = (c.sum_bytes_uint32 d).csum % 65535
    ∧ c.sum_uint16 w = (c.sum_uint8 ((w >>> 8) % 256)).sum_uint8 (w % 256) := by
  refine ⟨?_, ?_, (sum_uint16_eq c w hw hmin (by omega)).2⟩
  · rw [sum_uint32_eq c d hd hmin hmax]
  · rw [sum_uint32_eq c d hd hmin hmax, sum_bytes_uint32_eq c d hmin hmax]
    obtain ⟨hdec, e3, e4, e5⟩ := bytes_decompose d hd
    simp only [e3, e4, e5]
    generalize d / 16777216 % 256 = r3 at hdec ⊢
    generalize d / 65536 % 256 = r2 at hdec ⊢
    generalize d / 256 % 256 = r1 at hdec ⊢
    generalize d % 256 = r0 at hdec ⊢
    cases c.odd
    · simp only [Bool.false_eq_true, if_false]
      rw [hdec]
      exact mod_step c.csum r3 r2 r1 r0
    · simp only [if_true]
      congr 2
      omega

/-- Witness for C26: the word 0x01020304 and the half word 0xabcd on an accumulator in the
odd state. -/
theorem checksummer_sum_words_agree_with_bytes_witness :
    (example_checksummer.sum_uint32 16909060).odd = example_checksummer.odd
    ∧ (example_checksummer.sum_uint32 16909060).csum % 65535
        = (example_checksummer.sum_bytes_uint32 16909060).csum % 65535
    ∧ example_checksummer.sum_uint16 43981
        = (example_checksummer.sum_uint8 ((43981 >>> 8) % 256)).sum_uint8 (43981 % 256) :=
  checksummer_sum_words_agree_with_bytes example_checksummer 16909060 43981
    (by decide) (by decide) (by decide) (by decide)


/-! ## Claims on the native network stack -/

/-- C22 (counterexample): with dhcp set to true and the host address given explicitly,
`initialize()` on shard 0 starts no discovery and returns a ready future. -/
theorem native_stack_dhcp_skipped_with_explicit_address :
    example_options_explicit_host.dhcp = true
    ∧ ((native_network_stack.create example_options_explicit_host).initialize_ 0).1.dhcp_runs = 0
    ∧ ((native_network_stack.create example_options_explicit_host).initialize_ 0).2
        = initialize_future.ready := by
  decide

/-- C22 (amended): for every option set, `initialize()` runs DHCP discovery (on shard 0;
the other shards wait for the configuration shard 0 sends them) exactly when the dhcp option
is true and none of the host, gateway and netmask addresses was given explicitly. In every
other case, so when dhcp is false or when any of the three addresses was given, it starts
no discovery, returns a ready future and the stack keeps the addresses of the options. -/
theorem native_stack_dhcp_condition (opts : native_stack_options) (cpu_id : Nat) :
    (((native_network_stack.create opts).initialize_ cpu_id).1.dhcp_runs = 1
      ↔ (opts.dhcp = true ∧ opts.host_ipv4_addr.defaulted = true
          ∧ opts.gw_ipv4_addr.defaulted = true ∧ opts.netmask_ipv4_addr.defaulted = true
          ∧ cpu_id = 0))
    ∧ (((native_network_stack.create opts).initialize_ cpu_id).2 = initialize_future.config
      ↔ (opts.dhcp = true ∧ opts.host_ipv4_addr.defaulted = true
          ∧ opts.gw_ipv4_addr.defaulted = true ∧ opts.netmask_ipv4_addr.defaulted = true))
    ∧ (¬ (opts.dhcp = true ∧ opts.host_ipv4_addr.defaulted = true
          ∧ opts.gw_ipv4_addr.defaulted = true ∧ opts.netmask_ipv4_addr.defaulted = true) →
        (native_network_stack.create opts).initialize_ cpu_id
          = ({ host_address := opts.host_ipv4_addr.value,
               gw_address := opts.gw_ipv4_addr.value,
               netmask_address := opts.netmask_ipv4_addr.value,
               _dhcp := false, _config_set := false, dhcp_runs := 0 },
             initialize_future.ready)) := by
  obtain ⟨⟨hv, hd⟩, ⟨gv, gd⟩, ⟨nv, nd⟩, dhcp⟩ := opts
  by_cases hc : cpu_id = 0 <;> cases hd <;> cases gd <;> cases nd <;> cases dhcp <;>
    simp [native_network_stack.create, native_network_stack.initialize_, hc]

/-- Witness for C22 (amended): with all addresses defaulted and dhcp true shard 0 starts a
discovery; with the host address given it does not and the addresses are kept. -/
theorem native_stack_dhcp_condition_witness :
    ((native_network_stack.create example_options_defaults).initialize_ 0).1.dhcp_runs = 1
    ∧ (native_network_stack.create example_options_explicit_host).initialize_ 0
        = ({ host_address := 3232235777, gw_address := 3232266753,
             netmask_address := 4294967040, _dhcp := false, _config_set := false,
             dhcp_runs := 0 }, initialize_future.ready) :=
  ⟨(native_stack_dhcp_condition example_options_defaults 0).1.2 (by decide),
    (native_stack_dhcp_condition example_options_explicit_host 0).2.2 (by decide)⟩


theorem add_proxy_loop_spec (h count : Nat) (hh : 1 ≤ h) (hrange : h + count ≤ unsigned_max) :
    ∀ (fuel i : Nat) (proxies : List Nat), count - i + 1 ≤ fuel →
      ∃ added, add_proxy_loop h count fuel i proxies = some (proxies ++ added)
        ∧ (∀ x, x ∈ added ↔ (i ≤ x ∧ x < count ∧ x % h = i % h))
        ∧ added.Pairwise (fun a b => a < b) := by
  intro fuel
  induction fuel with
  | zero => intro i proxies hf; omega
  | succ fuel ih =>
    intro i proxies hf
    by_cases hi : i < count
    · have hnext : (i + h) % unsigned_max = i + h := Nat.mod_eq_of_lt (by omega)
      obtain ⟨added, hrun, hmem, hsorted⟩ := ih (i + h) (add_proxy proxies i) (by omega)
      refine ⟨i :: added, ?_, ?_, ?_⟩
      · simp only [add_proxy_loop, hi, if_true, hnext]
        rw [hrun]
        simp only [add_proxy, List.append_assoc, List.singleton_append]
      · intro x
        simp only [List.mem_cons, hmem, Nat.add_mod_right]
        constructor
        · rintro (rfl | ⟨h1, h2, h3⟩)
          · exact ⟨Nat.le_refl _, hi, rfl⟩
          · exact ⟨by omega, h2, h3⟩
        · rintro ⟨h1, h2, h3⟩
          by_cases hx : x = i
          · exact Or.inl hx
          · right
            refine ⟨?_, h2, h3⟩
            by_contra hlt
            have hsub : (x - i) % h = 0 := Nat.sub_mod_eq_zero_of_mod_eq h3
            have hsmall : (x - i) % h = x - i := Nat.mod_eq_of_lt (by omega)
            omega
      · refine List.pairwise_cons.2 ⟨?_, hsorted⟩
        intro a ha
        have := (hmem a).1 ha
        omega
    · refine ⟨[], ?_, ?_, List.Pairwise.nil⟩
      · simp only [add_proxy_loop, hi, if_false, List.append_nil]
      · intro x
        simp only [List.not_mem_nil, false_iff]
        omega

/-- C30 (counterexample): with one hardware queue and 65537 shards, shard 65536 computes
qid = 0, so it takes the queue owner branch instead of becoming a proxy of shard 0. -/
theorem shard_setup_truncates_shard_id :
    shard_qid 65536 = 0
    ∧ (1 ≤ 65536 ∧ 65536 < 65537)
    ∧ ∀ fuel master, shard_setup 1 65537 fuel 65536 ≠ some (local_queue.proxy_device master) := by
  refine ⟨by decide, by decide, ?_⟩
  intro fuel master
  have hq : shard_qid 65536 = 0 := by decide
  simp only [shard_setup, hq]
  cases add_proxy_loop 1 65537 fuel ((1 + 0 % 1) % unsigned_max) [] <;> simp

/-- C30 (amended): in `create_native_net_device`, for every hardware queue count h >= 1 and
every shard count n of at most 65536 (shard ids that fit the 16-bit qid; h + n within the
range of unsigned), every shard c < n sets its local queue: a shard c < h sets hardware
queue c, whose proxies are, each once, exactly the shards x with h <= x < n and
x mod h = c; a shard c >= h sets a proxy device with master c mod h, a shard below h. Hence
each shard c with h <= c < n is added as a proxy by exactly one owner, c mod h, the one it
selects as master, and no shard below h is added as a proxy. -/
theorem create_native_net_device_proxies (h count fuel c : Nat) (hh : 1 ≤ h)
    (hcount : count ≤ 65536) (hrange : h + count ≤ unsigned_max) (hfuel : count + 1 ≤ fuel)
    (hc : c < count) :
    (c < h →
      ∃ proxies, (create_native_net_device h count fuel)[c]?
          = some (some (local_queue.hw_queue c proxies))
        ∧ (∀ x, x ∈ proxies ↔ (h ≤ x ∧ x < count ∧ x % h = c))
        ∧ proxies.Nodup)
    ∧ (h ≤ c →
      (create_native_net_device h count fuel)[c]?
          = some (some (local_queue.proxy_device (c % h)))
        ∧ c % h < h) := by
  have hget : (create_native_net_device h count fuel)[c]? = some (shard_setup h count fuel c) := by
    simp [create_native_net_device, List.getElem?_map, List.getElem?_range hc]
  have hq : shard_qid c = c := Nat.mod_eq_of_lt (by omega)
  rw [hget]
  refine ⟨?_, ?_⟩
  · intro hlt
    have hmodc : c % h = c := Nat.mod_eq_of_lt hlt
    have hstart : (h + c) % unsigned_max = h + c := Nat.mod_eq_of_lt (by omega)
    obtain ⟨added, hrun, hmem, hsorted⟩ :=
      add_proxy_loop_spec h count hh hrange fuel (h + c) [] (by omega)
    refine ⟨added, ?_, ?_, ?_⟩
    · simp only [shard_setup, hq, hlt, if_true, hmodc, hstart, hrun, List.nil_append,
        Option.map_some']
    · intro x
      rw [hmem x, Nat.add_mod_left, hmodc]
      constructor
      · rintro ⟨h1, h2, h3⟩
        exact ⟨by omega, h2, h3⟩
      · rintro ⟨h1, h2, h3⟩
        refine ⟨?_, h2, h3⟩
        have hdiv : 1 ≤ x / h := Nat.div_pos h1 (by omega)
        have hmul : h ≤ h * (x / h) := Nat.le_mul_of_pos_right h hdiv
        have hsplit := Nat.div_add_mod x h
        omega
    · exact hsorted.imp (fun hab => Nat.ne_of_lt hab)
  · intro hge
    refine ⟨?_, Nat.mod_lt _ (by omega)⟩
    have hnot : ¬ c < h := by omega
    simp only [shard_setup, hq, hnot, if_false]

/-- Witness for C30 (amended): 2 hardware queues and 5 shards; shard 1 owns queue 1 and
shard 4 is a proxy of shard 0. -/
theorem create_native_net_device_proxies_witness :
    (∃ proxies, (create_native_net_device 2 5 6)[1]?
          = some (some (local_queue.hw_queue 1 proxies))
        ∧ (∀ x, x ∈ proxies ↔ (2 ≤ x ∧ x < 5 ∧ x % 2 = 1))
        ∧ proxies.Nodup)
    ∧ (create_native_net_device 2 5 6)[4]? = some (some (local_queue.proxy_device (4 % 2))) :=
  ⟨(create_native_net_device_proxies 2 5 6 1 (by decide) (by decide) (by decide) (by decide)
      (by decide)).1 (by decide),
    ((create_native_net_device_proxies 2 5 6 4 (by decide) (by decide) (by decide) (by decide)
      (by decide)).2 (by decide)).1⟩


/-! ## Claims on the DHCP options -/

theorem ntohl_htonl_field (v : Nat) (hv : v < 4294967296) :
    ntohl_field (htonl_field v) = v := by
  simp only [ntohl_field, htonl_field, List.getD_cons_zero, List.getD_cons_succ]
  omega

theorem ntohs_htons_field (v : Nat) (hv : v < 65536) : ntohs_field (htons_field v) = v := by
  simp only [ntohs_field, htons_field, List.getD_cons_zero, List.getD_cons_succ]
  omega

theorem get_header_append (pre s : List Nat) (k : Nat) (hk : k ≤ s.length) :
    get_header (pre ++ s) pre.length k = some (s.take k) := by
  have hle : pre.length + k ≤ (pre ++ s).length := by
    rw [List.length_append]
    omega
  simp only [get_header, hle, if_true, List.drop_left]

theorem get_header_bytes (pre bytes rest : List Nat) (k : Nat) (hk : k = bytes.length) :
    get_header (pre ++ (bytes ++ rest)) pre.length k = some bytes := by
  subst hk
  rw [get_header_append pre _ _ (by simp)]
  simp

theorem parse_option_bytes (pre rest : List Nat) (o : dhcp_option) (info : ip_info)
    (hv : o.valid) :
    info.parse_option (pre ++ (o.bytes ++ rest)) pre.length o.opt = o.store info := by
  cases o with
  | type_option t =>
    have h3 := get_header_bytes pre (dhcp_option.bytes (dhcp_option.type_option t)) rest 3 rfl
    simp only [ip_info.parse_option, dhcp_option.opt, h3]
    simp [dhcp_option.bytes, dhcp_option.store,
      opt_type.MESSAGE_TYPE, opt_type.SUBNET_MASK, opt_type.ROUTER,
      opt_type.BROADCAST_ADDRESS, opt_type.DHCP_SERVER, opt_type.DOMAIN_NAME_SERVERS]
  | mtu_option v =>
    have h4 := get_header_bytes pre (dhcp_option.bytes (dhcp_option.mtu_option v)) rest 4 rfl
    have hval := ntohs_htons_field v hv
    simp only [ip_info.parse_option, dhcp_option.opt, h4]
    simp [dhcp_option.bytes, dhcp_option.store, hval,
      opt_type.MESSAGE_TYPE, opt_type.SUBNET_MASK, opt_type.ROUTER, opt_type.INTERFACE_MTU,
      opt_type.BROADCAST_ADDRESS, opt_type.DHCP_SERVER, opt_type.DOMAIN_NAME_SERVERS]
  | ip_option t ip =>
    obtain ⟨_, hip, ht1, ht2, ht3⟩ := hv
    have h6 := get_header_bytes pre (dhcp_option.bytes (dhcp_option.ip_option t ip)) rest 6 rfl
    have hval := ntohl_htonl_field ip hip
    simp only [time_opt_types, List.mem_cons, List.mem_singleton, List.not_mem_nil, or_false,
      not_or] at ht3
    simp only [ip_info.parse_option, dhcp_option.opt, h6]
    simp only [dhcp_option.bytes, dhcp_option.store, List.drop_succ_cons, List.drop_zero, hval]
    by_cases hty : t = opt_type.SUBNET_MASK ∨ t = opt_type.ROUTER
        ∨ t = opt_type.BROADCAST_ADDRESS ∨ t = opt_type.DHCP_SERVER
        ∨ t = opt_type.DOMAIN_NAME_SERVERS
    · simp only [hty, if_true]
    · simp only [hty, if_false, ht1, ht2, ht3.1, ht3.2.1, ht3.2.2, or_self]
      simp only [not_or] at hty
      simp only [ip_info.set_ip, hty.1, hty.2.1, hty.2.2.1, hty.2.2.2.1, hty.2.2.2.2, if_false]
  | time_option t v =>
    obtain ⟨_, hvv, ht1, ht2, ht3⟩ := hv
    have h6 := get_header_bytes pre (dhcp_option.bytes (dhcp_option.time_option t v)) rest 6
      rfl
    have hval := ntohl_htonl_field v hvv
    simp only [ip_opt_types, List.mem_cons, List.mem_singleton, List.not_mem_nil, or_false,
      not_or] at ht3
    simp only [ip_info.parse_option, dhcp_option.opt, h6]
    simp only [dhcp_option.bytes, dhcp_option.store, List.drop_succ_cons, List.drop_zero, hval,
      ht1, ht2, ht3.1, ht3.2.1, ht3.2.2.1, ht3.2.2.2.1, ht3.2.2.2.2, or_self, if_false]
    by_cases hty : t = opt_type.LEASE_TIME ∨ t = opt_type.RENEWAL_TIME
        ∨ t = opt_type.REBINDING_TIME
    · simp only [hty, if_true]
    · simp only [hty, if_false]
      simp only [not_or] at hty
      simp only [ip_info.set_time, hty.1, hty.2.1, hty.2.2, if_false]

theorem dhcp_option_bytes_head (o : dhcp_option) :
    ∃ body, o.bytes = o.opt :: (o.bytes.length - 2) :: body := by
  cases o <;> simp [dhcp_option.bytes, dhcp_option.opt, htons_field, htonl_field]

theorem dhcp_option_opt_ne_end (o : dhcp_option) (hv : o.valid) : o.opt ≠ opt_type.END := by
  cases o with
  | type_option t => simp [dhcp_option.opt, opt_type.MESSAGE_TYPE, opt_type.END]
  | mtu_option v => simp [dhcp_option.opt, opt_type.INTERFACE_MTU, opt_type.END]
  | ip_option t ip =>
    have := hv.1
    simp only [dhcp_option.opt, opt_type.END]
    omega
  | time_option t v =>
    have := hv.1
    simp only [dhcp_option.opt, opt_type.END]
    omega

theorem parse_options_step (pre rest : List Nat) (o : dhcp_option) (info : ip_info)
    (fuel : Nat) (hv : o.valid) (hlen : (pre ++ (o.bytes ++ rest)).length < size_max) :
    ip_info.parse_options (pre ++ (o.bytes ++ rest)) (fuel + 1) pre.length info
      = ip_info.parse_options (pre ++ (o.bytes ++ rest)) fuel (pre ++ o.bytes).length
          (o.store info) := by
  obtain ⟨body, hbytes⟩ := dhcp_option_bytes_head o
  have hlen2 : 2 ≤ o.bytes.length := by
    rw [hbytes]
    simp
  have h1 : get_header (pre ++ (o.bytes ++ rest)) pre.length 1 = some [o.opt] := by
    rw [get_header_append pre _ 1 (by simp only [List.length_append]; omega), hbytes]
    simp
  have h2 : get_header (pre ++ (o.bytes ++ rest)) pre.length 2
      = some [o.opt, o.bytes.length - 2] := by
    rw [get_header_append pre _ 2 (by simp only [List.length_append]; omega)]
    conv_lhs => rw [hbytes]
    simp
  have hoff : (pre.length + (2 + (o.bytes.length - 2))) % size_max
      = (pre ++ o.bytes).length := by
    rw [Nat.mod_eq_of_lt]
    · simp only [List.length_append]
      omega
    · simp only [List.length_append] at hlen
      omega
  rw [ip_info.parse_options]
  simp only [h1, h2, List.getD_cons_zero, List.getD_cons_succ, dhcp_option_opt_ne_end o hv,
    if_false, hoff, parse_option_bytes pre rest o info hv]

theorem parse_options_encoded (tail : List Nat) (opts : List dhcp_option) :
    ∀ (pre : List Nat) (info : ip_info) (fuel : Nat), (∀ o ∈ opts, o.valid) →
      (pre ++ (encode_options opts ++ opt_type.END :: tail)).length < size_max →
      opts.length + 1 ≤ fuel →
      ip_info.parse_options (pre ++ (encode_options opts ++ opt_type.END :: tail)) fuel
          pre.length info
        = some (opts.foldl dhcp_option.store info) := by
  induction opts with
  | nil =>
    intro pre info fuel _ _ hfuel
    obtain ⟨f, rfl⟩ : ∃ f, fuel = f + 1 := ⟨fuel - 1, by omega⟩
    have h1 : get_header (pre ++ (encode_options [] ++ opt_type.END :: tail)) pre.length 1
        = some [opt_type.END] := by
      rw [get_header_append pre _ 1 (by simp [encode_options])]
      simp [encode_options]
    rw [ip_info.parse_options]
    simp only [h1, List.getD_cons_zero, if_true, List.foldl_nil]
  | cons o os ih =>
    intro pre info fuel hv hlen hfuel
    obtain ⟨f, rfl⟩ : ∃ f, fuel = f + 1 := ⟨fuel - 1, by omega⟩
    have hp : pre ++ (encode_options (o :: os) ++ opt_type.END :: tail)
        = pre ++ (o.bytes ++ (encode_options os ++ opt_type.END :: tail)) := by
      simp only [encode_options, List.append_assoc]
    have hp2 : pre ++ (o.bytes ++ (encode_options os ++ opt_type.END :: tail))
        = (pre ++ o.bytes) ++ (encode_options os ++ opt_type.END :: tail) := by
      simp only [List.append_assoc]
    rw [hp] at hlen ⊢
    rw [parse_options_step pre _ o info f (hv o (List.mem_cons_self _ _)) hlen]
    rw [hp2] at hlen ⊢
    rw [ih (pre ++ o.bytes) (o.store info) f
      (fun x hx => hv x (List.mem_cons_of_mem _ hx)) hlen
      (by simp only [List.length_cons] at hfuel; omega)]
    rfl

theorem dhcp_option_store_name_servers (o : dhcp_option) (r : ip_info)
    (h : o.opt ≠ opt_type.DOMAIN_NAME_SERVERS) :
    (o.store r).name_servers = r.name_servers := by
  cases o with
  | type_option t => rfl
  | mtu_option v => rfl
  | ip_option t ip =>
    simp only [dhcp_option.opt] at h
    simp only [dhcp_option.store, ip_info.set_ip, h, if_false]
    split_ifs <;> rfl
  | time_option t v =>
    simp only [dhcp_option.store, ip_info.set_time]
    split_ifs <;> rfl

theorem dhcp_options_store_name_servers (opts : List dhcp_option) :
    ∀ (r : ip_info), (∀ o ∈ opts, o.opt ≠ opt_type.DOMAIN_NAME_SERVERS) →
      (opts.foldl dhcp_option.store r).name_servers = r.name_servers := by
  induction opts with
  | nil => intro r _; rfl
  | cons o os ih =>
    intro r h
    rw [List.foldl_cons, ih _ (fun x hx => h x (List.mem_cons_of_mem _ hx)),
      dhcp_option_store_name_servers o r (h o (List.mem_cons_self _ _))]

theorem dhcp_option_recovered_store_self (info r : ip_info) (o : dhcp_option)
    (h : o.opt = opt_type.DOMAIN_NAME_SERVERS → r.name_servers = info.name_servers) :
    o.recovered info (o.store r) := by
  cases o with
  | type_option t => rfl
  | mtu_option v => rfl
  | ip_option t ip =>
    simp only [dhcp_option.opt] at h
    simp only [dhcp_option.recovered, dhcp_option.store, ip_info.set_ip]
    refine ⟨?_, ?_, ?_, ?_, ?_⟩ <;> intro ht <;> subst ht <;>
      simp [opt_type.SUBNET_MASK, opt_type.ROUTER, opt_type.BROADCAST_ADDRESS,
        opt_type.DHCP_SERVER, opt_type.DOMAIN_NAME_SERVERS] at h ⊢
    exact h
  | time_option t v =>
    simp only [dhcp_option.recovered, dhcp_option.store, ip_info.set_time]
    refine ⟨?_, ?_, ?_⟩ <;> intro ht <;> subst ht <;>
      simp [opt_type.LEASE_TIME, opt_type.RENEWAL_TIME, opt_type.REBINDING_TIME]

theorem dhcp_option_recovered_store_other (info r : ip_info) (o x : dhcp_option)
    (hne : x.opt ≠ o.opt) (h : o.recovered info r) : o.recovered info (x.store r) := by
  cases o with
  | type_option t =>
    cases x with
    | type_option t2 => exact absurd rfl hne
    | mtu_option v2 => exact h
    | ip_option t2 ip2 =>
      simp only [dhcp_option.recovered, dhcp_option.store, ip_info.set_ip] at h ⊢
      split_ifs <;> exact h
    | time_option t2 v2 =>
      simp only [dhcp_option.recovered, dhcp_option.store, ip_info.set_time] at h ⊢
      split_ifs <;> exact h
  | mtu_option v =>
    cases x with
    | type_option t2 => exact h
    | mtu_option v2 => exact absurd rfl hne
    | ip_option t2 ip2 =>
      simp only [dhcp_option.recovered, dhcp_option.store, ip_info.set_ip] at h ⊢
      split_ifs <;> exact h
    | time_option t2 v2 =>
      simp only [dhcp_option.recovered, dhcp_option.store, ip_info.set_time] at h ⊢
      split_ifs <;> exact h
  | ip_option t ip =>
    cases x with
    | type_option t2 => exact h
    | mtu_option v2 => exact h
    | ip_option t2 ip2 =>
      simp only [dhcp_option.opt] at hne
      simp only [dhcp_option.recovered, dhcp_option.store, ip_info.set_ip] at h ⊢
      obtain ⟨h1, h2, h3, h4, h5⟩ := h
      refine ⟨?_, ?_, ?_, ?_, ?_⟩ <;> intro ht <;> subst ht <;>
        simp [opt_type.SUBNET_MASK, opt_type.ROUTER, opt_type.BROADCAST_ADDRESS,
          opt_type.DHCP_SERVER, opt_type.DOMAIN_NAME_SERVERS] at hne h1 h2 h3 h4 h5 ⊢ <;>
        split_ifs <;> simp_all
    | time_option t2 v2 =>
      simp only [dhcp_option.recovered, dhcp_option.store, ip_info.set_time] at h ⊢
      split_ifs <;> exact h
  | time_option t v =>
    cases x with
    | type_option t2 => exact h
    | mtu_option v2 => exact h
    | ip_option t2 ip2 =>
      simp only [dhcp_option.recovered, dhcp_option.store, ip_info.set_ip] at h ⊢
      split_ifs <;> exact h
    | time_option t2 v2 =>
      simp only [dhcp_option.opt] at hne
      simp only [dhcp_option.recovered, dhcp_option.store, ip_info.set_time] at h ⊢
      obtain ⟨h1, h2, h3⟩ := h
      refine ⟨?_, ?_, ?_⟩ <;> intro ht <;> subst ht <;>
        simp [opt_type.LEASE_TIME, opt_type.RENEWAL_TIME, opt_type.REBINDING_TIME]
          at hne h1 h2 h3 ⊢ <;>
        split_ifs <;> simp_all

theorem dhcp_options_recovered (info : ip_info) (opts : List dhcp_option) :
    (opts.map dhcp_option.opt).Nodup →
      ∀ o ∈ opts, o.recovered info (opts.foldl dhcp_option.store info) := by
  induction opts using List.reverseRecOn with
  | nil => intro _ o ho; exact absurd ho (List.not_mem_nil _)
  | append_singleton init last ih =>
    intro hnd o ho
    rw [List.map_append, List.nodup_append] at hnd
    obtain ⟨hinit, _, hdisj⟩ := hnd
    rw [List.foldl_append, List.foldl_cons, List.foldl_nil]
    have hother : ∀ x ∈ init, x.opt ≠ last.opt := by
      intro x hx heq
      exact hdisj (List.mem_map_of_mem _ hx) (by rw [heq]; simp)
    rcases List.mem_append.1 ho with hmem | hmem
    · exact dhcp_option_recovered_store_other info _ o last
        (fun heq => hother o hmem heq.symm) (ih hinit o hmem)
    · rw [List.mem_singleton] at hmem
      subst hmem
      apply dhcp_option_recovered_store_self
      intro hns
      exact dhcp_options_store_name_servers init info (fun x hx => by rw [← hns]; exact hother x hx)

/-- C28: for every options area built from the client's encoders `type_option`,
`mtu_option`, `ip_option` and `time_option` (arguments that fit their fields, the types
given to `ip_option` and `time_option` being address and time types or types the parser does
not know), in any order, terminated by the END mark and followed by anything,
`ip_info::parse_options` ends after at most one turn of its loop per option plus one, and
the lease it leaves is the one obtained by storing the options one by one, options of other
types being skipped by their length. When each type occurs at most once, every encoded
value is recovered: message type, subnet mask, router, broadcast address, DHCP server, name
server (the first one after those already present), MTU, lease, renewal and rebinding
times. -/
theorem parse_options_recovers_encoded (pre tail : List Nat) (opts : List dhcp_option)
    (info : ip_info) (fuel : Nat) (hvalid : ∀ o ∈ opts, o.valid)
    (hlen : (pre ++ (encode_options opts ++ opt_type.END :: tail)).length < size_max)
    (hfuel : opts.length + 1 ≤ fuel) :
    ip_info.parse_options (pre ++ (encode_options opts ++ opt_type.END :: tail)) fuel
        pre.length info
      = some (opts.foldl dhcp_option.store info)
    ∧ ((opts.map dhcp_option.opt).Nodup →
        ∀ o ∈ opts, ∀ r,
          ip_info.parse_options (pre ++ (encode_options opts ++ opt_type.END :: tail)) fuel
              pre.length info = some r →
          o.recovered info r) := by
  have hparse := parse_options_encoded tail opts pre info fuel hvalid hlen hfuel
  refine ⟨hparse, ?_⟩
  intro hnd o ho r hr
  rw [hparse] at hr
  cases hr
  exact dhcp_options_recovered info opts hnd o ho


/-- Witness for C28: an acknowledgement with seven options after two bytes of other data;
the parser recovers message type 5, the three addresses, the MTU and the lease time, and
skips option 50. -/
theorem parse_options_recovers_encoded_witness :
    (ip_info.parse_options
        ([9, 9] ++ (encode_options example_dhcp_options ++ opt_type.END :: [0])) 8
        ([9, 9] : List Nat).length ip_info.default
      = some (example_dhcp_options.foldl dhcp_option.store ip_info.default)
    ∧ ((example_dhcp_options.map dhcp_option.opt).Nodup →
        ∀ o ∈ example_dhcp_options, ∀ r,
          ip_info.parse_options
              ([9, 9] ++ (encode_options example_dhcp_options ++ opt_type.END :: [0])) 8
              ([9, 9] : List Nat).length ip_info.default = some r →
          o.recovered ip_info.default r))
    ∧ example_dhcp_options.foldl dhcp_option.store ip_info.default
        = { ip := 0, netmask := 4294967040, broadcast := 0, gateway := 3232235777,
            dhcp_server := 0, name_servers := [134744072], lease_time := 86400,
            renew_time := 0, rebind_time := 0, mtu := 1500, type := 5 } :=
  ⟨parse_options_recovers_encoded [9, 9] [0] example_dhcp_options ip_info.default 8
    (by decide) (by decide) (by decide), by decide⟩


/-! ## Claims on the DHCP client -/

/-- C27 (failing input): after `run` with a timeout of 30 seconds, the client receives an
offer and then the acknowledgement, which resolves `_result` with success in state DONE; the
timer armed by `run` is still armed, and when it expires its callback resolves `_result` a
second time. -/
theorem dhcp_result_resolved_twice_on_late_expiry :
    (((dhcp_impl.init.run 30 true).bind
        (fun d => d.on_events [dhcp_event.packet example_offer true,
                               dhcp_event.packet example_ack true])).map
          (fun d => (d._state, d._timer_armed, d.result_sets)))
      = some (dhcp_state.DONE, true, [(true, example_ack)])
    ∧ (dhcp_impl.init.run 30 true).bind
        (fun d => d.on_events [dhcp_event.packet example_offer true,
                               dhcp_event.packet example_ack true,
                               dhcp_event.timer_expiry]) = none := by
  decide


/-! ## Claims on the NAT adapter -/

/-- C29 (failing input): on an adapter with port 50000 registered, the host's connection
request from port 50000 is received twice (the second a retransmission), the port generator
drawing 60001 and then 60002. The tables are consistent after the first request; after the
second, `_tcp_nat_remap` still files the first connection under 60001 and `_tcp_listening`
still marks 60001, while `_tcp_nat_orig` files only the second connection under 50000. -/
theorem nat_tables_inconsistent_after_repeated_syn :
    example_nat.consistent = true
    ∧ (example_nat.run_calls [nat_call.receive_tcp example_syn [(60001, true)]]).map
        nat_adapter_interface.consistent = some true
    ∧ (example_nat.run_calls [nat_call.receive_tcp example_syn [(60001, true)],
                              nat_call.receive_tcp example_syn [(60002, true)]]).map
        nat_adapter_interface.consistent = some false
    ∧ (example_nat.run_calls [nat_call.receive_tcp example_syn [(60001, true)],
                              nat_call.receive_tcp example_syn [(60002, true)]]).map
        (fun s => (s._tcp_nat_orig, s._tcp_nat_remap, s._tcp_listening))
      = some ([(50000, 1)], [(60001, 0), (60002, 1)],
              [(50000, true), (60001, true), (60002, true)]) := by
  decide


theorem nat_tables_stay_empty_without_registration (calls : List nat_call) :
    nat_adapter_interface.init.run_calls calls = some nat_adapter_interface.init := by
  induction calls with
  | nil => rfl
  | cons call rest ih =>
    cases call with
    | receive_tcp th draws =>
      have h : nat_adapter_interface.init.receive_tcp th draws
          = some nat_adapter_interface.init := by
        simp [nat_adapter_interface.receive_tcp, nat_adapter_interface.init, port_map.count,
          port_map.find]
      simp only [nat_adapter_interface.run_calls, h, ih]
    | send_tcp th =>
      have h : nat_adapter_interface.init.send_tcp th = nat_adapter_interface.init := by
        simp [nat_adapter_interface.send_tcp, nat_adapter_interface.init, port_map.find]
      simp only [nat_adapter_interface.run_calls, h, ih]

end Seastar
